import Mathlib

/-!
Shallow embedding of `async-lru-cache` (src/index.ts) and verification of the
frozen claims about it.

The TypeScript module implements an LRU cache whose entries hold promises.
We embed it as an executable state machine:

* JavaScript runtime values that matter to the code are modelled by `JSVal`
  (the chained catch handler in `put` reads `err.message`, which throws a
  `TypeError` exactly when the rejection reason is `null` or `undefined`).
* Promises are modelled as an explicit store of promise nodes. Each promise
  carries a structural description (`PromDesc`): an environment-settled
  promise (a loader's or saver's own promise), an already-resolved promise
  (`Promise.resolve`), or one of the three combinators the source builds in
  `put` (`.catch(swallow)`, `.then(run the saver)`, `.then(() => value)`),
  together with a phase (`PromPhase`). Microtask scheduling is modelled by
  nondeterministically interleavable `Action`s that fire one reaction each.
* The intrusive doubly linked recency list is modelled faithfully as an arena
  of nodes addressed by numeric identities, with `prev` / `next` pointer
  fields, exactly mirroring `_removeNode`, `_addToHead`, `_moveToHead`,
  `_evictIfNeeded` from the source.
* `Date.now()` is a `Nat` clock component advanced by an environment action.
-/

namespace AsyncLRUCache

/-- JavaScript runtime values as far as the cache's code can distinguish them:
the chained catch handler accesses `err.message`, which succeeds on anything
except `null` and `undefined`. -/
inductive JSVal : Type
  | undef
  | null
  | bool (b : Bool)
  | num (n : Int)
  | str (s : String)
  | errObj (message : String)
  deriving DecidableEq, Repr

/-- Accessing `.message` on a value throws a `TypeError` in JavaScript exactly
when the value is `null` or `undefined`. -/
def messageSafe : JSVal → Bool
  | JSVal.undef => false
  | JSVal.null => false
  | _ => true

/-- Outcome of a settled promise: fulfilled with a value or rejected with a
reason. -/
inductive Outcome : Type
  | ok (v : JSVal)
  | err (e : JSVal)
  deriving DecidableEq, Repr

/-- Structural description of a promise in the store.

* `prim` — a promise produced by the environment: a loader's promise
  (started immediately by `get`) or a saver's promise (started when the
  serialization chain reaches it).
* `pureP o` — `Promise.resolve(...)`, already settled.
* `catchSwallow src` — `src.catch(err => console.warn(..., err.message))`
  from `put`: passes fulfilment through; on rejection evaluates
  `err.message` (throwing a `TypeError` for `null`/`undefined` reasons) and
  otherwise fulfils with `undefined`.
* `thenSaver src savP k v` — `.then(() => { if (saver) return saver(key, value) })`:
  propagates rejection of `src`; on fulfilment either fulfils with
  `undefined` (no saver) or invokes the saver (starting the environment
  promise `savP`) and adopts its outcome.
* `thenConst src v` — `.then(() => value)`: propagates rejection, fulfils
  with `v` on fulfilment of `src`. -/
inductive PromDesc : Type
  | prim
  | pureP (o : Outcome)
  | catchSwallow (src : Nat)
  | thenSaver (src : Nat) (savP : Option Nat) (k : Nat) (v : JSVal)
  | thenConst (src : Nat) (v : JSVal)
  deriving DecidableEq, Repr

/-- Phase of a promise.

* `notStarted` — only for a saver's `prim` promise whose saver has not been
  invoked yet (the underlying computation does not exist yet).
* `pending` — running / awaiting.
* `started` — only for `thenSaver`: its source fulfilled, the saver was
  invoked, and it now awaits the saver's promise.
* `settled o` — settled once and for all with outcome `o`. -/
inductive PromPhase : Type
  | notStarted
  | pending
  | started
  | settled (o : Outcome)
  deriving DecidableEq, Repr

/-- A promise in the store: its description and current phase. -/
structure Prom : Type where
  desc : PromDesc
  phase : PromPhase
  deriving DecidableEq, Repr

/-- The data fields of a `Node` from the source: `key` (nullable — `clear`
nulls it out), `value` (a promise identity), `expiresAt`, and the intrusive
list links `prev` / `next` (node identities). -/
structure NodeData : Type where
  key : Option Nat
  value : Nat
  expiresAt : Option Nat
  prev : Option Nat
  next : Option Nat
  deriving DecidableEq, Repr

/-- `isExpired` from the source: `expiresAt !== null && Date.now() > expiresAt`. -/
def isExpiredN (now : Nat) (d : NodeData) : Bool :=
  match d.expiresAt with
  | none => false
  | some t => now > t

/-- Lookup in an association list keyed by `Nat` (models `Map.get` /
pointer dereference in the node arena). -/
def lookupL {β : Type} : List (Nat × β) → Nat → Option β
  | [], _ => none
  | (k', v) :: rest, k => if k' = k then some v else lookupL rest k

/-- `Map.set`: replace in place if the key is present (JS Maps keep the
original insertion position), else append. -/
def setL {β : Type} : List (Nat × β) → Nat → β → List (Nat × β)
  | [], k, v => [(k, v)]
  | (k', v') :: rest, k, v =>
      if k' = k then (k, v) :: rest else (k', v') :: setL rest k v

/-- `Map.delete`: remove the (first) binding of the key. -/
def delL {β : Type} : List (Nat × β) → Nat → List (Nat × β)
  | [], _ => []
  | (k', v') :: rest, k => if k' = k then rest else (k', v') :: delL rest k

/-- The intrusive doubly linked list portion of the cache state: the node
arena plus the `head` and `tail` fields. -/
structure LL : Type where
  nodes : List (Nat × NodeData)
  head : Option Nat
  tail : Option Nat
  deriving DecidableEq, Repr

/-- Update a node's data in the arena (a field assignment through a node
reference in the source). A missing node is a no-op; the invariant proves
such dereferences never happen on live nodes. -/
def updateNode (ll : LL) (nid : Nat) (f : NodeData → NodeData) : LL :=
  match lookupL ll.nodes nid with
  | none => ll
  | some d => { ll with nodes := setL ll.nodes nid (f d) }

/-- First half of `_removeNode`: `if (node.prev) node.prev.next = node.next
else this.head = node.next`. -/
def removeNStep1 (ll : LL) (d : NodeData) : LL :=
  match d.prev with
  | some p => updateNode ll p (fun dp => { dp with next := d.next })
  | none => { ll with head := d.next }

/-- Second half of `_removeNode`: `if (node.next) node.next.prev = node.prev
else this.tail = node.prev`. -/
def removeNStep2 (ll1 : LL) (d : NodeData) : LL :=
  match d.next with
  | some q => updateNode ll1 q (fun dq => { dq with prev := d.prev })
  | none => { ll1 with tail := d.prev }

/-- `_removeNode` from the source: unlink `nid` by redirecting its
neighbours' pointers (or `head` / `tail`). The removed node's own fields are
left untouched, exactly as in the source. -/
def removeN (ll : LL) (nid : Nat) : LL :=
  match lookupL ll.nodes nid with
  | none => ll
  | some d => removeNStep2 (removeNStep1 ll d) d

/-- Middle step of `_addToHead`: `if (this.head) this.head.prev = node`. -/
def addHStep2 (ll1 : LL) (nid : Nat) : LL :=
  match ll1.head with
  | some h => updateNode ll1 h (fun dh => { dh with prev := some nid })
  | none => ll1

/-- Last step of `_addToHead`: `if (!this.tail) this.tail = node`. -/
def addHStep4 (ll3 : LL) (nid : Nat) : LL :=
  match ll3.tail with
  | some _ => ll3
  | none => { ll3 with tail := some nid }

/-- `_addToHead` from the source. -/
def addH (ll : LL) (nid : Nat) : LL :=
  addHStep4
    { addHStep2 (updateNode ll nid (fun d => { d with prev := none, next := ll.head })) nid with
      head := some nid } nid

/-- `_moveToHead` from the source: no-op when already at head. -/
def moveH (ll : LL) (nid : Nat) : LL :=
  if ll.head = some nid then ll else addH (removeN ll nid) nid

/-- The two failure-removal observers the source attaches with
`loadingPromise.catch(...)` in `get` and `saverPromise.catch(...)` in `put`.
`load` observers compare node identity (`dataMap.get(key) === newNode`);
`save` observers compare the stored result identity
(`dataMap.get(key)?.value === saverPromise`). Both remove the recorded node. -/
inductive ObsKind : Type
  | load
  | save
  deriving DecidableEq, Repr

/-- A registered failure-removal observer. -/
structure Obs : Type where
  kind : ObsKind
  watched : Nat
  key : Nat
  nid : Nat
  fired : Bool
  deriving DecidableEq, Repr

/-- Externally visible events of a run: a `get` miss invoking its loader
(creating promise `p`), and a serialization chain invoking a saver (starting
the saver's promise `p` with arguments `(k, v)`). -/
inductive Event : Type
  | loaderCall (k : Nat) (p : Nat)
  | saverStart (p : Nat) (k : Nat) (v : JSVal)
  deriving DecidableEq, Repr

/-- The whole machine state: configuration, the `dataMap` index, the
recency list, the promise store, the registered observers, the event log,
fresh-identity counters and the `Date.now()` clock. -/
structure State : Type where
  capacity : Nat
  defaultTtlMs : Option Nat
  hasTimer : Bool
  dataMap : List (Nat × Nat)
  ll : LL
  proms : List (Nat × Prom)
  observers : List Obs
  events : List Event
  nextNode : Nat
  nextProm : Nat
  now : Nat
  deriving DecidableEq, Repr

/-- Allocate a fresh promise. -/
def allocProm (s : State) (d : PromDesc) (ph : PromPhase) : Nat × State :=
  (s.nextProm,
    { s with
      proms := s.proms ++ [(s.nextProm, ⟨d, ph⟩)]
      nextProm := s.nextProm + 1 })

/-- Set the phase of a promise. -/
def setPhase (s : State) (p : Nat) (ph : PromPhase) : State :=
  match lookupL s.proms p with
  | none => s
  | some pr => { s with proms := setL s.proms p ⟨pr.desc, ph⟩ }

/-- Phase of a promise (absent promises read as `notStarted`; the invariant
keeps all referenced promises in the store). -/
def phaseOf (s : State) (p : Nat) : PromPhase :=
  match lookupL s.proms p with
  | none => PromPhase.notStarted
  | some pr => pr.phase

/-- Description of a promise, if present. -/
def descOf (s : State) (p : Nat) : Option PromDesc :=
  (lookupL s.proms p).map Prom.desc

/-- Whether a promise has settled. -/
def isSettled (s : State) (p : Nat) : Prop :=
  ∃ o, phaseOf s p = PromPhase.settled o

/-- `_checkAndRemoveExpired` from the source: if the node is expired, delete
the key from the map and unlink the node, returning `true`. -/
def checkAndRemoveExpired (s : State) (k nid : Nat) : Bool × State :=
  match lookupL s.ll.nodes nid with
  | none => (false, s)
  | some d =>
      if isExpiredN s.now d then
        (true, { s with dataMap := delL s.dataMap k, ll := removeN s.ll nid })
      else
        (false, s)

/-- `_evictIfNeeded` from the source: when `dataMap.size > capacity`, delete
the tail node's key from the map and unlink the tail. The source dereferences
`this.tail!`; the `none` branches model states the source would crash on and
are unreachable under the invariant. -/
def evictTailGo (s : State) (t : Nat) (d : NodeData) : State :=
  let s1 :=
    match d.key with
    | some tk => { s with dataMap := delL s.dataMap tk }
    | none => s
  { s1 with ll := removeN s1.ll t }

def evictTail (s : State) (t : Nat) : State :=
  match lookupL s.ll.nodes t with
  | none => s
  | some d => evictTailGo s t d

def evictIfNeeded (s : State) : State :=
  if s.dataMap.length > s.capacity then
    match s.ll.tail with
    | none => s
    | some t => evictTail s t
  else s

/-- The effective TTL: `ttlMs ?? this.defaultTtlMs`. -/
def effTtl (s : State) (ttl : Option Nat) : Option Nat :=
  match ttl with
  | some t => some t
  | none => s.defaultTtlMs

/-- The expiry rule used both by the `Node` constructor and by `put`'s
update branch: an absolute instant `now + ttl` when a TTL is supplied and
positive, otherwise no expiry. -/
def expiryOf (now : Nat) (eff : Option Nat) : Option Nat :=
  match eff with
  | some t => if 0 < t then some (now + t) else none
  | none => none

/-- The miss path of `get`: invoke the loader immediately (a fresh running
environment promise, logged as a `loaderCall` event), build the node, insert
it, move it to head, evict if needed, and attach the failure-removal
observer. -/
def getMiss (s : State) (k : Nat) (ttl : Option Nat) : Nat × State :=
  let (p, s1) := allocProm s PromDesc.prim PromPhase.pending
  let s2 := { s1 with events := s1.events ++ [Event.loaderCall k p] }
  let exp := expiryOf s2.now (effTtl s2 ttl)
  let nid := s2.nextNode
  let s3 :=
    { s2 with
      ll := { s2.ll with nodes := s2.ll.nodes ++ [(nid, (⟨some k, p, exp, none, none⟩ : NodeData))] }
      nextNode := nid + 1 }
  let s4 := { s3 with dataMap := setL s3.dataMap k nid }
  let s5 := { s4 with ll := addH s4.ll nid }
  let s6 := evictIfNeeded s5
  let s7 := { s6 with observers := s6.observers ++ [⟨ObsKind.load, p, k, nid, false⟩] }
  (p, s7)

/-- `get` from the source. Returns the promise identity handed to the caller
and the post-state. -/
def doGet (s : State) (k : Nat) (ttl : Option Nat) : Nat × State :=
  match lookupL s.dataMap k with
  | some nid =>
      let r := checkAndRemoveExpired s k nid
      if r.1 then getMiss r.2 k ttl
      else
        match lookupL r.2.ll.nodes nid with
        | some d => (d.value, { r.2 with ll := moveH r.2.ll nid })
        | none => (0, r.2)
  | none => getMiss s k ttl

/-- The identities allocated by one `put` call, its returned promise and the
post-state. -/
structure PutRes : Type where
  catchP : Nat
  savP : Option Nat
  thenP : Nat
  retP : Nat
  theNode : Nat
  st : State

/-- The promise chain `put` builds before touching the store:
`lastP.catch(() => {})`, the optional saver environment promise,
`.then(() => saver ? saver(...) : undefined)`, `.then(() => value)`.
Returns `((c, savP, t, sp), state)`. -/
def putChain (s0 : State) (lastP : Nat) (withSaver : Bool) (k : Nat) (v : JSVal) :
    (Nat × Option Nat × Nat × Nat) × State :=
  let (c, s1) := allocProm s0 (PromDesc.catchSwallow lastP) PromPhase.pending
  let sv :=
    if withSaver then
      let (e, s2) := allocProm s1 PromDesc.prim PromPhase.notStarted
      (some e, s2)
    else (none, s1)
  let (t, s3) := allocProm sv.2 (PromDesc.thenSaver c sv.1 k v) PromPhase.pending
  let (sp, s4) := allocProm s3 (PromDesc.thenConst t v) PromPhase.pending
  ((c, sv.1, t, sp), s4)

/-- The store mutation of `put`: create the node (then evict) or update the
existing node's value and expiry and move it to head. Returns the node
identity and the post-state. -/
def putStore (s4 : State) (k : Nat) (sp : Nat) (eff : Option Nat) : Nat × State :=
  match lookupL s4.dataMap k with
  | none =>
      let nid := s4.nextNode
      let s5 :=
        { s4 with
          ll := { s4.ll with nodes := s4.ll.nodes ++ [(nid, (⟨some k, sp, expiryOf s4.now eff, none, none⟩ : NodeData))] }
          nextNode := nid + 1 }
      let s6 := { s5 with dataMap := setL s5.dataMap k nid }
      let s7 := { s6 with ll := addH s6.ll nid }
      (nid, evictIfNeeded s7)
  | some nid =>
      let s5 :=
        { s4 with ll := updateNode s4.ll nid (fun d => { d with value := sp, expiresAt := expiryOf s4.now eff }) }
      (nid, { s5 with ll := moveH s5.ll nid })

/-- `put` from the source: read the previous stored promise (or a resolved
no-op), build the `catch` / `then(saver)` / `then(() => value)` chain,
create or update the node, and attach the failure-removal observer keyed to
the new result. -/
def doPut (s : State) (k : Nat) (v : JSVal) (withSaver : Bool) (ttl : Option Nat) : PutRes :=
  let lp :=
    match lookupL s.dataMap k with
    | some nid =>
        match lookupL s.ll.nodes nid with
        | some d => (d.value, s)
        | none => (0, s)
    | none => allocProm s (PromDesc.pureP (Outcome.ok JSVal.undef)) (PromPhase.settled (Outcome.ok JSVal.undef))
  let (ids, s4) := putChain lp.2 lp.1 withSaver k v
  let r := putStore s4 k ids.2.2.2 (effTtl s4 ttl)
  let s8 := { r.2 with observers := r.2.observers ++ [(⟨ObsKind.save, ids.2.2.2, k, r.1, false⟩ : Obs)] }
  ⟨ids.1, ids.2.1, ids.2.2.1, ids.2.2.2, r.1, s8⟩

/-- `invalidate` from the source: unlink then delete, if present. -/
def doInvalidate (s : State) (k : Nat) : State :=
  match lookupL s.dataMap k with
  | none => s
  | some nid =>
      { s with ll := removeN s.ll nid, dataMap := delL s.dataMap k }

/-- One iteration of the link-breaking loop in `clear`: null the node's
links and key, replace its value with a fresh resolved promise (as
`Promise.resolve(undefined)` does), null its expiry. -/
def clearStep (s : State) (n : Nat) : State :=
  let (pp, s1) := allocProm s (PromDesc.pureP (Outcome.ok JSVal.undef)) (PromPhase.settled (Outcome.ok JSVal.undef))
  { s1 with ll := { s1.ll with nodes := setL s1.ll.nodes n (⟨none, pp, none, none, none⟩ : NodeData) } }

/-- The link-breaking walk in `clear`: from `head`, apply `clearStep` to
every node and follow the saved `next`. Fuelled for termination; under the
invariant the fuel (`nextNode`) always suffices. -/
def clearWalk : Nat → Option Nat → State → State
  | 0, _, s => s
  | _, none, s => s
  | fuel + 1, some n, s =>
      match lookupL s.ll.nodes n with
      | none => s
      | some d => clearWalk fuel d.next (clearStep s n)

/-- `clear` from the source: empty the map, break all links walking from
`head`, then null `head` and `tail`. -/
def doClear (s : State) : State :=
  let s1 := { s with dataMap := [] }
  let s2 := clearWalk s1.nextNode s1.ll.head s1
  { s2 with ll := { s2.ll with head := none, tail := none } }

/-- `destroy` from the source: stop the sweeper timer, then `clear`. -/
def doDestroy (s : State) : State :=
  doClear { s with hasTimer := false }

/-- The removal loop of `_cleanupExpired`: for each collected key, re-look it
up and remove it. -/
def removeKeys : List Nat → State → State
  | [], s => s
  | k :: ks, s =>
      match lookupL s.dataMap k with
      | none => removeKeys ks s
      | some nid =>
          removeKeys ks { s with dataMap := delL s.dataMap k, ll := removeN s.ll nid }

/-- `_cleanupExpired` from the source: collect the expired keys in map
iteration order, then remove each. -/
def doCleanup (s : State) : State :=
  let ks :=
    (s.dataMap.filter (fun kv =>
      match lookupL s.ll.nodes kv.2 with
      | some d => isExpiredN s.now d
      | none => false)).map Prod.fst
  removeKeys ks s

/-- `has` from the source. -/
def doHas (s : State) (k : Nat) : Bool × State :=
  match lookupL s.dataMap k with
  | none => (false, s)
  | some nid =>
      let r := checkAndRemoveExpired s k nid
      if r.1 then (false, r.2) else (true, r.2)

/-- `size` from the source: the map's cardinality. -/
def doSize (s : State) : Nat :=
  s.dataMap.length

/-- One machine action: a public cache operation, an environment action
(settling an environment promise, advancing the clock, the sweeper timer
firing) or one microtask reaction of the promise graph. -/
inductive Action : Type
  | get (k : Nat) (ttl : Option Nat)
  | put (k : Nat) (v : JSVal) (withSaver : Bool) (ttl : Option Nat)
  | invalidate (k : Nat)
  | clear
  | destroy
  | cleanupExpired
  | has (k : Nat)
  | timerTick
  | advanceTime (dt : Nat)
  | settlePrim (p : Nat) (o : Outcome)
  | fireCatch (p : Nat)
  | fireThenSaver (p : Nat)
  | adoptSaver (p : Nat)
  | fireThenConst (p : Nat)
  | fireObs (i : Nat)
  deriving DecidableEq, Repr

/-- Apply one action. Guards that fail (a reaction whose source has not
settled yet, a promise in the wrong phase, ...) leave the state unchanged, so
that arbitrary action lists denote exactly the valid schedules. -/
def applyAct (a : Action) (s : State) : State :=
  match a with
  | Action.get k ttl => (doGet s k ttl).2
  | Action.put k v ws ttl => (doPut s k v ws ttl).st
  | Action.invalidate k => doInvalidate s k
  | Action.clear => doClear s
  | Action.destroy => doDestroy s
  | Action.cleanupExpired => doCleanup s
  | Action.has k => (doHas s k).2
  | Action.timerTick => if s.hasTimer then doCleanup s else s
  | Action.advanceTime dt => { s with now := s.now + dt }
  | Action.settlePrim p o =>
      match lookupL s.proms p with
      | some ⟨PromDesc.prim, PromPhase.pending⟩ => setPhase s p (PromPhase.settled o)
      | _ => s
  | Action.fireCatch p =>
      match lookupL s.proms p with
      | some ⟨PromDesc.catchSwallow src, PromPhase.pending⟩ =>
          match phaseOf s src with
          | PromPhase.settled (Outcome.ok w) => setPhase s p (PromPhase.settled (Outcome.ok w))
          | PromPhase.settled (Outcome.err e) =>
              if messageSafe e then
                setPhase s p (PromPhase.settled (Outcome.ok JSVal.undef))
              else
                setPhase s p (PromPhase.settled (Outcome.err (JSVal.errObj "TypeError")))
          | _ => s
      | _ => s
  | Action.fireThenSaver p =>
      match lookupL s.proms p with
      | some ⟨PromDesc.thenSaver src savP k v, PromPhase.pending⟩ =>
          match phaseOf s src with
          | PromPhase.settled (Outcome.err e) => setPhase s p (PromPhase.settled (Outcome.err e))
          | PromPhase.settled (Outcome.ok _) =>
              match savP with
              | none => setPhase s p (PromPhase.settled (Outcome.ok JSVal.undef))
              | some e =>
                  let s1 := setPhase s p PromPhase.started
                  let s2 := setPhase s1 e PromPhase.pending
                  { s2 with events := s2.events ++ [Event.saverStart e k v] }
          | _ => s
      | _ => s
  | Action.adoptSaver p =>
      match lookupL s.proms p with
      | some ⟨PromDesc.thenSaver _ (some e) _ _, PromPhase.started⟩ =>
          match phaseOf s e with
          | PromPhase.settled o => setPhase s p (PromPhase.settled o)
          | _ => s
      | _ => s
  | Action.fireThenConst p =>
      match lookupL s.proms p with
      | some ⟨PromDesc.thenConst src v, PromPhase.pending⟩ =>
          match phaseOf s src with
          | PromPhase.settled (Outcome.ok _) => setPhase s p (PromPhase.settled (Outcome.ok v))
          | PromPhase.settled (Outcome.err e) => setPhase s p (PromPhase.settled (Outcome.err e))
          | _ => s
      | _ => s
  | Action.fireObs i =>
      match s.observers.get? i with
      | none => s
      | some ob =>
          if ob.fired then s
          else
            match phaseOf s ob.watched with
            | PromPhase.settled (Outcome.err _) =>
                let s1 := { s with observers := s.observers.set i { ob with fired := true } }
                match ob.kind with
                | ObsKind.load =>
                    if lookupL s1.dataMap ob.key = some ob.nid then
                      { s1 with dataMap := delL s1.dataMap ob.key, ll := removeN s1.ll ob.nid }
                    else s1
                | ObsKind.save =>
                    match lookupL s1.dataMap ob.key with
                    | none => s1
                    | some nid' =>
                        match lookupL s1.ll.nodes nid' with
                        | none => s1
                        | some d' =>
                            if d'.value = ob.watched then
                              { s1 with dataMap := delL s1.dataMap ob.key, ll := removeN s1.ll ob.nid }
                            else s1
            | _ => s

/-- Run a list of actions. -/
def run (acts : List Action) (s : State) : State :=
  acts.foldl (fun st a => applyAct a st) s

/-- A freshly constructed cache (the constructor's capacity check is modelled
separately by `ctorThrows`, over the numeric domain, since the check happens
before any state exists). -/
def initState (cap : Nat) (dttl : Option Nat) (tmr : Bool) : State :=
  ⟨cap, dttl, tmr, [], ⟨[], none, none⟩, [], [], [], 0, 0, 0⟩

/-- The constructor's validation, over arbitrary (non-NaN) JavaScript
numbers modelled as rationals: `if (option.capacity < 10) throw`. -/
def ctorThrows (cap : ℚ) : Bool :=
  cap < 10

/-! ### Association-list lemmas -/

theorem lookupL_mem_keys {β : Type} {l : List (Nat × β)} {k : Nat} {v : β}
    (h : lookupL l k = some v) : k ∈ l.map Prod.fst := by
  induction l with
  | nil => simp [lookupL] at h
  | cons a rest ih =>
      obtain ⟨k', v'⟩ := a
      by_cases hk : k' = k
      · subst hk; simp
      · simp [lookupL, hk] at h
        simp [ih h]

theorem lookupL_eq_none_of_not_mem {β : Type} {l : List (Nat × β)} {k : Nat}
    (h : k ∉ l.map Prod.fst) : lookupL l k = none := by
  induction l with
  | nil => rfl
  | cons a rest ih =>
      obtain ⟨k', v'⟩ := a
      simp only [List.map_cons, List.mem_cons, not_or] at h
      rw [lookupL, if_neg (fun hkk => h.1 hkk.symm)]
      exact ih h.2

theorem lookupL_append {β : Type} (l₁ l₂ : List (Nat × β)) (k : Nat) :
    lookupL (l₁ ++ l₂) k =
      match lookupL l₁ k with
      | some v => some v
      | none => lookupL l₂ k := by
  induction l₁ with
  | nil => simp [lookupL]
  | cons a rest ih =>
      obtain ⟨k', v'⟩ := a
      by_cases hk : k' = k <;> simp [lookupL, hk, ih]

theorem lookupL_setL_self {β : Type} (l : List (Nat × β)) (k : Nat) (v : β) :
    lookupL (setL l k v) k = some v := by
  induction l with
  | nil => simp [setL, lookupL]
  | cons a rest ih =>
      obtain ⟨k', v'⟩ := a
      by_cases hk : k' = k <;> simp [setL, lookupL, hk, ih]

theorem lookupL_setL_ne {β : Type} (l : List (Nat × β)) {k k' : Nat} (v : β)
    (h : k' ≠ k) : lookupL (setL l k v) k' = lookupL l k' := by
  induction l with
  | nil => simp [setL, lookupL, Ne.symm h]
  | cons a rest ih =>
      obtain ⟨k₀, v₀⟩ := a
      by_cases hk : k₀ = k
      · subst hk
        simp [setL, lookupL, Ne.symm h]
      · by_cases hk' : k₀ = k' <;> simp [setL, lookupL, hk, hk', h, ih]

theorem keys_setL {β : Type} (l : List (Nat × β)) (k : Nat) (v : β) :
    (setL l k v).map Prod.fst =
      if k ∈ l.map Prod.fst then l.map Prod.fst else l.map Prod.fst ++ [k] := by
  induction l with
  | nil => simp [setL]
  | cons a rest ih =>
      obtain ⟨k₀, v₀⟩ := a
      by_cases hk : k₀ = k
      · subst hk; simp [setL]
      · simp only [setL, if_neg hk, List.map_cons]
        rw [ih]
        by_cases hmem : k ∈ rest.map Prod.fst
        · simp [hmem, Ne.symm hk]
        · simp [hmem, Ne.symm hk]

theorem keys_delL {β : Type} (l : List (Nat × β)) (k : Nat) :
    (delL l k).map Prod.fst = (l.map Prod.fst).erase k := by
  induction l with
  | nil => simp [delL]
  | cons a rest ih =>
      obtain ⟨k₀, v₀⟩ := a
      by_cases hk : k₀ = k
      · subst hk; simp [delL, List.erase_cons_head]
      · simp [delL, hk, List.erase_cons_tail, ih, (by simpa using hk : ¬(k₀ == k))]

theorem lookupL_delL_ne {β : Type} (l : List (Nat × β)) {k k' : Nat}
    (h : k' ≠ k) : lookupL (delL l k) k' = lookupL l k' := by
  induction l with
  | nil => rfl
  | cons a rest ih =>
      obtain ⟨k₀, v₀⟩ := a
      by_cases hk : k₀ = k
      · subst hk; simp [delL, lookupL, Ne.symm h]
      · by_cases hk' : k₀ = k' <;> simp [delL, lookupL, hk, hk', h, ih]

theorem lookupL_delL_self {β : Type} {l : List (Nat × β)} {k : Nat}
    (h : (l.map Prod.fst).Nodup) : lookupL (delL l k) k = none := by
  induction l with
  | nil => rfl
  | cons a rest ih =>
      obtain ⟨k₀, v₀⟩ := a
      simp only [List.map_cons, List.nodup_cons] at h
      by_cases hk : k₀ = k
      · subst hk
        simpa [delL] using lookupL_eq_none_of_not_mem h.1
      · simp [delL, lookupL, hk, ih h.2]

theorem nodup_keys_setL {β : Type} {l : List (Nat × β)} (k : Nat) (v : β)
    (h : (l.map Prod.fst).Nodup) : ((setL l k v).map Prod.fst).Nodup := by
  rw [keys_setL]
  by_cases hmem : k ∈ l.map Prod.fst
  · simpa [hmem] using h
  · simp only [if_neg hmem]
    rw [List.nodup_append]
    refine ⟨h, List.nodup_singleton k, ?_⟩
    intro a ha hb
    simp only [List.mem_singleton] at hb
    subst hb
    exact hmem ha

theorem nodup_keys_delL {β : Type} {l : List (Nat × β)} (k : Nat)
    (h : (l.map Prod.fst).Nodup) : ((delL l k).map Prod.fst).Nodup := by
  rw [keys_delL]
  exact h.erase k

theorem length_delL_of_mem {β : Type} {l : List (Nat × β)} {k : Nat}
    (h : k ∈ l.map Prod.fst) : (delL l k).length + 1 = l.length := by
  induction l with
  | nil => simp at h
  | cons a rest ih =>
      obtain ⟨k₀, v₀⟩ := a
      by_cases hk : k₀ = k
      · subst hk; simp [delL]
      · simp only [List.map_cons, List.mem_cons] at h
        rcases h with h | h
        · exact absurd h.symm hk
        · simp [delL, hk, ih h]

theorem length_delL_of_not_mem {β : Type} {l : List (Nat × β)} {k : Nat}
    (h : k ∉ l.map Prod.fst) : (delL l k).length = l.length := by
  induction l with
  | nil => rfl
  | cons a rest ih =>
      obtain ⟨k₀, v₀⟩ := a
      simp only [List.map_cons, List.mem_cons, not_or] at h
      rw [delL, if_neg (fun hkk => h.1 hkk.symm)]
      simp [ih h.2]

theorem length_setL_of_mem {β : Type} {l : List (Nat × β)} {k : Nat} (v : β)
    (h : k ∈ l.map Prod.fst) : (setL l k v).length = l.length := by
  induction l with
  | nil => simp at h
  | cons a rest ih =>
      obtain ⟨k₀, v₀⟩ := a
      by_cases hk : k₀ = k
      · subst hk; simp [setL]
      · simp only [List.map_cons, List.mem_cons] at h
        rcases h with h | h
        · exact absurd h.symm hk
        · simp [setL, hk, ih h]

theorem length_setL_of_not_mem {β : Type} {l : List (Nat × β)} {k : Nat} (v : β)
    (h : k ∉ l.map Prod.fst) : (setL l k v).length = l.length + 1 := by
  induction l with
  | nil => simp [setL]
  | cons a rest ih =>
      obtain ⟨k₀, v₀⟩ := a
      simp only [List.map_cons, List.mem_cons, not_or] at h
      rw [setL, if_neg (fun hkk => h.1 hkk.symm)]
      simp [ih h.2]

/-! ### The doubly linked list representation predicate

`dll ar pr l nx` says: the node identities in `l` form a consecutive chain in
the arena `ar`, the first node's `prev` is `pr`, each node's `next` points to
its successor, and the last node's `next` is `nx`. -/

/-- The identity of the first node of `l`, or `nx` if `l` is empty. -/
def nextOf (l : List Nat) (nx : Option Nat) : Option Nat :=
  match l with
  | [] => nx
  | m :: _ => some m

/-- The identity of the last node of `l`, or `pr` if `l` is empty. -/
def lastOf : List Nat → Option Nat → Option Nat
  | [], pr => pr
  | a :: t, _ => lastOf t (some a)

/-- The chain predicate. -/
def dll (ar : List (Nat × NodeData)) : Option Nat → List Nat → Option Nat → Prop
  | _, [], _ => True
  | pr, n :: rest, nx =>
      ∃ d, lookupL ar n = some d ∧ d.prev = pr ∧ d.next = nextOf rest nx ∧
        dll ar (some n) rest nx

@[simp]
theorem dll_nil (ar : List (Nat × NodeData)) (pr nx : Option Nat) :
    dll ar pr [] nx := by
  simp [dll]

theorem dll_cons (ar : List (Nat × NodeData)) (pr nx : Option Nat) (n : Nat) (rest : List Nat) :
    dll ar pr (n :: rest) nx ↔
      ∃ d, lookupL ar n = some d ∧ d.prev = pr ∧ d.next = nextOf rest nx ∧
        dll ar (some n) rest nx := by
  simp [dll]

theorem nextOf_append (l₁ l₂ : List Nat) (nx : Option Nat) :
    nextOf (l₁ ++ l₂) nx = nextOf l₁ (nextOf l₂ nx) := by
  cases l₁ <;> cases l₂ <;> simp [nextOf]

theorem nextOf_none (l : List Nat) : nextOf l none = l.head? := by
  cases l <;> simp [nextOf]

theorem lastOf_cons (a : Nat) (rest : List Nat) (pr : Option Nat) :
    lastOf (a :: rest) pr = lastOf rest (some a) := rfl

theorem lastOf_some (l : List Nat) (x : Nat) :
    lastOf l (some x) = some ((x :: l).getLast (by simp)) := by
  induction l generalizing x with
  | nil => simp [lastOf]
  | cons a t ih =>
      rw [lastOf_cons, ih]
      exact congrArg some (List.getLast_cons_cons x a t).symm

theorem lastOf_none (l : List Nat) : lastOf l none = l.getLast? := by
  cases l with
  | nil => rfl
  | cons a t =>
      rw [lastOf_cons, lastOf_some, List.getLast?_eq_getLast_of_ne_nil (by simp)]

theorem lastOf_append (l₁ l₂ : List Nat) (pr : Option Nat) :
    lastOf (l₁ ++ l₂) pr = lastOf l₂ (lastOf l₁ pr) := by
  induction l₁ generalizing pr with
  | nil => simp [lastOf]
  | cons a t ih => simp [lastOf_cons, ih]

theorem lastOf_concat (l : List Nat) (p : Nat) (pr : Option Nat) :
    lastOf (l ++ [p]) pr = some p := by
  rw [lastOf_append]
  simp [lastOf]

theorem headq_append (l₁ l₂ : List Nat) :
    (l₁ ++ l₂).head? = nextOf l₁ l₂.head? := by
  cases l₁ <;> simp [nextOf]

theorem lastq_append (l₁ l₂ : List Nat) :
    (l₁ ++ l₂).getLast? = lastOf l₂ l₁.getLast? := by
  rw [← lastOf_none, lastOf_append, lastOf_none]

/-- The pointer fields of a node — all that `dll` reads. -/
def ptrOf (d : NodeData) : Option Nat × Option Nat :=
  (d.prev, d.next)

theorem dll_ptr_frame {ar ar' : List (Nat × NodeData)} {l : List Nat} :
    ∀ {pr nx : Option Nat},
      (∀ n ∈ l, (lookupL ar' n).map ptrOf = (lookupL ar n).map ptrOf) →
      dll ar pr l nx → dll ar' pr l nx := by
  induction l with
  | nil => intro pr nx _ _; simp
  | cons a t ih =>
      intro pr nx hf h
      obtain ⟨d, hd, h1, h2, h3⟩ := (dll_cons ..).mp h
      have ha := hf a (by simp)
      rw [hd] at ha
      cases hd' : lookupL ar' a with
      | none => rw [hd'] at ha; exact absurd ha (by simp)
      | some d' =>
          rw [hd'] at ha
          have ha2 : ptrOf d' = ptrOf d := by simpa using ha
          have hprev : d'.prev = d.prev := congrArg Prod.fst ha2
          have hnext : d'.next = d.next := congrArg Prod.snd ha2
          refine (dll_cons ..).mpr ⟨d', hd', hprev.trans h1, hnext.trans h2, ?_⟩
          exact ih (fun n hn => hf n (by simp [hn])) h3

theorem dll_frame {ar ar' : List (Nat × NodeData)} {l : List Nat}
    {pr nx : Option Nat} (hf : ∀ n ∈ l, lookupL ar' n = lookupL ar n)
    (h : dll ar pr l nx) : dll ar' pr l nx :=
  dll_ptr_frame (fun n hn => by rw [hf n hn]) h

theorem dll_append {ar : List (Nat × NodeData)} {l₁ l₂ : List Nat} :
    ∀ {pr nx : Option Nat},
      dll ar pr (l₁ ++ l₂) nx ↔
        dll ar pr l₁ (nextOf l₂ nx) ∧ dll ar (lastOf l₁ pr) l₂ nx := by
  induction l₁ with
  | nil => intro pr nx; simp [lastOf]
  | cons a t ih =>
      intro pr nx
      rw [List.cons_append, dll_cons, dll_cons, lastOf_cons]
      constructor
      · rintro ⟨d, hd, h1, h2, h3⟩
        rw [nextOf_append] at h2
        obtain ⟨h4, h5⟩ := ih.mp h3
        exact ⟨⟨d, hd, h1, h2, h4⟩, h5⟩
      · rintro ⟨⟨d, hd, h1, h2, h3⟩, h5⟩
        refine ⟨d, hd, h1, ?_, ih.mpr ⟨h3, h5⟩⟩
        rw [nextOf_append]
        exact h2

theorem dll_mem_lookup {ar : List (Nat × NodeData)} {l : List Nat} :
    ∀ {pr nx : Option Nat} {n : Nat}, dll ar pr l nx → n ∈ l →
      ∃ d, lookupL ar n = some d := by
  induction l with
  | nil => intro pr nx n _ hn; simp at hn
  | cons a t ih =>
      intro pr nx n h hn
      obtain ⟨d, hd, _, _, h3⟩ := (dll_cons ..).mp h
      rcases List.mem_cons.mp hn with rfl | hn
      · exact ⟨d, hd⟩
      · exact ih h3 hn

/-- Redirect the `next` pointer of the last node of a chain segment. -/
theorem dll_set_last_next {ar : List (Nat × NodeData)} {l : List Nat} :
    ∀ {pr : Option Nat} {nid : Option Nat} {nx' : Option Nat} {p : Nat} {dp : NodeData},
      dll ar pr l nid → l.Nodup → l.getLast? = some p → lookupL ar p = some dp →
      dll (setL ar p { dp with next := nx' }) pr l nx' := by
  induction l with
  | nil => intro pr nid nx' p dp _ _ hl _; simp at hl
  | cons a t ih =>
      intro pr nid nx' p dp h hnd hl hdp
      obtain ⟨d, hd, h1, h2, h3⟩ := (dll_cons ..).mp h
      cases t with
      | nil =>
          simp at hl
          subst hl
          rw [hdp] at hd
          injection hd with hd
          subst hd
          exact (dll_cons ..).mpr
            ⟨{ dp with next := nx' }, lookupL_setL_self .., by simpa using h1, by simp [nextOf], by simp⟩
      | cons b t' =>
          rw [List.getLast?_cons_cons] at hl
          have hpmem : p ∈ b :: t' := by
            rcases List.mem_getLast?_eq_getLast (Option.mem_def.mpr hl) with ⟨hne, rfl⟩
            exact List.getLast_mem hne
          have hap : a ≠ p := by
            intro hap
            subst hap
            exact (List.nodup_cons.mp hnd).1 hpmem
          refine (dll_cons ..).mpr ⟨d, ?_, h1, ?_, ?_⟩
          · rw [lookupL_setL_ne _ _ hap, hd]
          · rw [h2]; simp [nextOf]
          · exact ih h3 (List.nodup_cons.mp hnd).2 hl hdp

/-- Redirect the `prev` pointer of the first node of a chain segment. -/
theorem dll_set_head_prev {ar : List (Nat × NodeData)} {r : List Nat}
    {pr pr' nx : Option Nat} {q : Nat} {dq : NodeData}
    (h : dll ar pr (q :: r) nx) (hq : q ∉ r) (hdq : lookupL ar q = some dq) :
    dll (setL ar q { dq with prev := pr' }) pr' (q :: r) nx := by
  obtain ⟨d, hd, _, h2, h3⟩ := (dll_cons ..).mp h
  rw [hdq] at hd
  injection hd with hd
  subst hd
  refine (dll_cons ..).mpr ⟨{ dq with prev := pr' }, lookupL_setL_self .., rfl, by simpa using h2, ?_⟩
  exact dll_frame (fun n hn => lookupL_setL_ne _ _ (fun he => hq (he ▸ hn))) h3

theorem nextOf_ne_nil {l : List Nat} (h : l ≠ []) (nx : Option Nat) :
    nextOf l nx = l.head? := by
  cases l with
  | nil => exact absurd rfl h
  | cons a t => rfl

/-- Well-formedness of the recency list: the abstract node sequence `l`
(head first) is chained in the arena with consistent `prev` / `next`
pointers, `head` / `tail` point at its ends, and it has no duplicates. -/
structure ListOK (ll : LL) (l : List Nat) : Prop where
  chain : dll ll.nodes none l none
  head_eq : ll.head = l.head?
  tail_eq : ll.tail = l.getLast?
  nodup : l.Nodup

theorem updateNode_head (ll : LL) (nid : Nat) (f : NodeData → NodeData) :
    (updateNode ll nid f).head = ll.head := by
  cases h : lookupL ll.nodes nid <;> simp [updateNode, h]

theorem updateNode_tail (ll : LL) (nid : Nat) (f : NodeData → NodeData) :
    (updateNode ll nid f).tail = ll.tail := by
  cases h : lookupL ll.nodes nid <;> simp [updateNode, h]

theorem updateNode_nodes_eq {ll : LL} {nid : Nat} {d : NodeData} (f : NodeData → NodeData)
    (h : lookupL ll.nodes nid = some d) :
    (updateNode ll nid f).nodes = setL ll.nodes nid (f d) := by
  simp [updateNode, h]

/-- The projection of a node that the pointer-juggling operations never
touch: its key, stored promise, and expiry. -/
def coreOf (d : NodeData) : Option Nat × Nat × Option Nat :=
  (d.key, d.value, d.expiresAt)

/-- Two arenas with identical domains and identical non-pointer node data. -/
def sameCore (ar' ar : List (Nat × NodeData)) : Prop :=
  ∀ m, (lookupL ar' m).map coreOf = (lookupL ar m).map coreOf

theorem sameCore_refl (ar : List (Nat × NodeData)) : sameCore ar ar :=
  fun _ => rfl

theorem sameCore_trans {ar₁ ar₂ ar₃ : List (Nat × NodeData)}
    (h₁ : sameCore ar₁ ar₂) (h₂ : sameCore ar₂ ar₃) : sameCore ar₁ ar₃ :=
  fun m => (h₁ m).trans (h₂ m)

theorem sameCore_setL {ar : List (Nat × NodeData)} {nid : Nat} {d d' : NodeData}
    (hd : lookupL ar nid = some d) (hc : coreOf d' = coreOf d) :
    sameCore (setL ar nid d') ar := by
  intro m
  by_cases hm : m = nid
  · subst hm
    rw [lookupL_setL_self, hd]
    simp [hc]
  · rw [lookupL_setL_ne _ _ hm]

theorem updateNode_core (ll : LL) (nid : Nat) (f : NodeData → NodeData)
    (hf : ∀ d, coreOf (f d) = coreOf d) :
    sameCore (updateNode ll nid f).nodes ll.nodes := by
  cases h : lookupL ll.nodes nid with
  | none => simp [updateNode, h, sameCore_refl]
  | some d =>
      rw [updateNode_nodes_eq f h]
      exact sameCore_setL h (hf d)

theorem removeNStep1_core (ll : LL) (d : NodeData) :
    sameCore (removeNStep1 ll d).nodes ll.nodes := by
  rw [removeNStep1]
  cases d.prev with
  | some p => exact updateNode_core ll p _ (fun _ => rfl)
  | none => exact sameCore_refl _

theorem removeNStep2_core (ll : LL) (d : NodeData) :
    sameCore (removeNStep2 ll d).nodes ll.nodes := by
  rw [removeNStep2]
  cases d.next with
  | some q => exact updateNode_core ll q _ (fun _ => rfl)
  | none => exact sameCore_refl _

theorem removeN_core (ll : LL) (nid : Nat) :
    sameCore (removeN ll nid).nodes ll.nodes := by
  rw [removeN]
  cases h : lookupL ll.nodes nid with
  | none => exact sameCore_refl _
  | some d => exact sameCore_trans (removeNStep2_core _ d) (removeNStep1_core ll d)

theorem addHStep2_core (ll : LL) (nid : Nat) :
    sameCore (addHStep2 ll nid).nodes ll.nodes := by
  rw [addHStep2]
  cases ll.head with
  | some hh => exact updateNode_core ll hh _ (fun _ => rfl)
  | none => exact sameCore_refl _

theorem addHStep4_nodes (ll : LL) (nid : Nat) :
    (addHStep4 ll nid).nodes = ll.nodes := by
  rw [addHStep4]
  cases ll.tail <;> rfl

theorem addH_core (ll : LL) (nid : Nat) :
    sameCore (addH ll nid).nodes ll.nodes := by
  rw [addH]
  rw [addHStep4_nodes]
  exact sameCore_trans (addHStep2_core _ nid) (updateNode_core ll nid _ (fun _ => rfl))

theorem moveH_core (ll : LL) (nid : Nat) :
    sameCore (moveH ll nid).nodes ll.nodes := by
  rw [moveH]
  by_cases h : ll.head = some nid
  · simp [h, sameCore_refl]
  · simp only [if_neg h]
    exact sameCore_trans (addH_core _ _) (removeN_core _ _)

theorem sameCore_lookup {ar' ar : List (Nat × NodeData)} (h : sameCore ar' ar)
    {m : Nat} {d : NodeData} (hd : lookupL ar m = some d) :
    ∃ d', lookupL ar' m = some d' ∧ coreOf d' = coreOf d := by
  have := h m
  rw [hd] at this
  cases h' : lookupL ar' m with
  | none => rw [h'] at this; simp at this
  | some d' =>
      rw [h'] at this
      simp at this
      exact ⟨d', rfl, this⟩

theorem sameCore_lookup_none {ar' ar : List (Nat × NodeData)} (h : sameCore ar' ar)
    {m : Nat} (hd : lookupL ar m = none) : lookupL ar' m = none := by
  have := h m
  rw [hd] at this
  cases h' : lookupL ar' m with
  | none => rfl
  | some d' => rw [h'] at this; simp at this

theorem updateNode_eq_record {ll : LL} {nid : Nat} {d : NodeData} (f : NodeData → NodeData)
    (h : lookupL ll.nodes nid = some d) :
    updateNode ll nid f = { ll with nodes := setL ll.nodes nid (f d) } := by
  simp [updateNode, h]

theorem removeNStep1_of_prev_none {ll : LL} {d : NodeData} (h : d.prev = none) :
    removeNStep1 ll d = { ll with head := d.next } := by
  rw [removeNStep1, h]

theorem removeNStep1_of_prev_some {ll : LL} {d : NodeData} {p : Nat} {dp : NodeData}
    (h : d.prev = some p) (hdp : lookupL ll.nodes p = some dp) :
    removeNStep1 ll d = { ll with nodes := setL ll.nodes p { dp with next := d.next } } := by
  rw [removeNStep1, h]
  exact updateNode_eq_record _ hdp

theorem removeNStep2_of_next_none {ll1 : LL} {d : NodeData} (h : d.next = none) :
    removeNStep2 ll1 d = { ll1 with tail := d.prev } := by
  rw [removeNStep2, h]

theorem removeNStep2_of_next_some {ll1 : LL} {d : NodeData} {q : Nat} {dq : NodeData}
    (h : d.next = some q) (hdq : lookupL ll1.nodes q = some dq) :
    removeNStep2 ll1 d = { ll1 with nodes := setL ll1.nodes q { dq with prev := d.prev } } := by
  rw [removeNStep2, h]
  exact updateNode_eq_record _ hdq

theorem mem_of_getLastq {l : List Nat} {p : Nat} (h : l.getLast? = some p) : p ∈ l := by
  rcases List.mem_getLast?_eq_getLast (Option.mem_def.mpr h) with ⟨hne, rfl⟩
  exact List.getLast_mem hne

/-- Unlinking a node from a well-formed list yields the well-formed list
with that node dropped, in place. -/
theorem removeN_listOK {ll : LL} {l₁ l₂ : List Nat} {nid : Nat}
    (h : ListOK ll (l₁ ++ nid :: l₂)) :
    ListOK (removeN ll nid) (l₁ ++ l₂) := by
  obtain ⟨nd₁, ndc, disj⟩ := List.nodup_append.mp h.nodup
  obtain ⟨hnidl₂, nd₂⟩ := List.nodup_cons.mp ndc
  have hdisj12 : ∀ a ∈ l₁, a ∉ l₂ := fun a ha hb => disj ha (List.mem_cons_of_mem _ hb)
  have hnodup' : (l₁ ++ l₂).Nodup :=
    List.nodup_append.mpr ⟨nd₁, nd₂, fun a ha hb => hdisj12 a ha hb⟩
  have hsplit := dll_append.mp h.chain
  have hC1 : dll ll.nodes none l₁ (some nid) := by
    have := hsplit.1
    simpa [nextOf] using this
  obtain ⟨d, hd, hdprev, hdnext, hrest⟩ := (dll_cons ..).mp hsplit.2
  rw [removeN, hd]
  show ListOK (removeNStep2 (removeNStep1 ll d) d) (l₁ ++ l₂)
  cases hl1 : l₁.getLast? with
  | none =>
      have hl1e : l₁ = [] := List.getLast?_eq_none_iff.mp hl1
      subst hl1e
      have hdprev' : d.prev = none := by
        rw [hdprev, lastOf_none]
        simp
      rw [removeNStep1_of_prev_none hdprev']
      cases l₂ with
      | nil =>
          have hdnext' : d.next = none := by simpa [nextOf] using hdnext
          rw [removeNStep2_of_next_none hdnext']
          exact ⟨by simp, by simp [hdnext'], by simp [hdprev'], by simp⟩
      | cons q r =>
          have hdnext' : d.next = some q := by simpa [nextOf] using hdnext
          obtain ⟨dq, hdq, hdqprev, hdqnext, hr⟩ := (dll_cons ..).mp hrest
          have hqr : q ∉ r := (List.nodup_cons.mp nd₂).1
          have hdq1 : lookupL ({ ll with head := d.next } : LL).nodes q = some dq := hdq
          rw [removeNStep2_of_next_some hdnext' hdq1]
          refine ⟨?_, by simp [hdnext'], ?_, by simpa using hnodup'⟩
          · have hset : dll (setL ll.nodes q { dq with prev := none }) none (q :: r) _ :=
              dll_set_head_prev hrest hqr hdq
            simpa [hdprev'] using hset
          · have := h.tail_eq
            rw [this]
            simp [List.getLast?_cons_cons]
  | some p =>
      have hpmem : p ∈ l₁ := mem_of_getLastq hl1
      have hl1ne : l₁ ≠ [] := by rintro rfl; simp at hl1
      have hdprev' : d.prev = some p := by rw [hdprev, lastOf_none, hl1]
      obtain ⟨dp, hdp⟩ := dll_mem_lookup hC1 hpmem
      rw [removeNStep1_of_prev_some hdprev' hdp]
      cases l₂ with
      | nil =>
          have hdnext' : d.next = none := by simpa [nextOf] using hdnext
          rw [removeNStep2_of_next_none hdnext']
          refine ⟨?_, ?_, ?_, by simpa using hnodup'⟩
          · have hset : dll (setL ll.nodes p { dp with next := none }) _ l₁ none :=
              dll_set_last_next hC1 nd₁ hl1 hdp
            have h2 : ({ dp with next := d.next } : NodeData) = { dp with next := none } := by
              rw [hdnext']
            rw [h2]
            simpa using hset
          · have := h.head_eq
            rw [this, headq_append, nextOf_ne_nil hl1ne]
            simp
          · rw [hdprev']
            simp [hl1]
      | cons q r =>
          have hdnext' : d.next = some q := by simpa [nextOf] using hdnext
          obtain ⟨dq, hdq, hdqprev, hdqnext, hr⟩ := (dll_cons ..).mp hrest
          have hqr : q ∉ r := (List.nodup_cons.mp nd₂).1
          have hqmem2 : q ∈ q :: r := List.mem_cons_self _ _
          have hpq : q ≠ p := fun he => hdisj12 p hpmem (he ▸ hqmem2)
          have hdq1 : lookupL (setL ll.nodes p { dp with next := d.next }) q = some dq := by
            rw [lookupL_setL_ne _ _ hpq]
            exact hdq
          rw [removeNStep2_of_next_some hdnext' hdq1]
          refine ⟨?_, ?_, ?_, hnodup'⟩
          · apply dll_append.mpr
            constructor
            · have hstep : dll (setL ll.nodes p { dp with next := some q }) none l₁ (some q) :=
                dll_set_last_next hC1 nd₁ hl1 hdp
              have h2 : ({ dp with next := d.next } : NodeData) = { dp with next := some q } := by
                rw [hdnext']
              rw [h2]
              refine dll_frame (fun n hn => ?_) hstep
              have hnq : n ≠ q := fun he => hdisj12 n hn (he ▸ hqmem2)
              exact lookupL_setL_ne _ _ hnq
            · have hrest1 : dll (setL ll.nodes p { dp with next := d.next }) (some nid)
                  (q :: r) none := by
                refine dll_frame (fun n hn => ?_) hrest
                have hnp : n ≠ p := fun he => hdisj12 p hpmem (he ▸ hn)
                exact lookupL_setL_ne _ _ hnp
              have hset : dll (setL (setL ll.nodes p { dp with next := d.next }) q
                  { dq with prev := d.prev }) d.prev (q :: r) _ :=
                dll_set_head_prev hrest1 hqr hdq1
              rw [hdprev'] at hset
              rw [lastOf_none, hl1, hdprev']
              exact hset
          · have := h.head_eq
            rw [this, headq_append, nextOf_ne_nil hl1ne, headq_append, nextOf_ne_nil hl1ne]
          · have := h.tail_eq
            rw [this, List.getLast?_append_cons, List.getLast?_cons_cons,
              ← List.getLast?_append_cons]

theorem addHStep2_of_head_none {ll1 : LL} (nid : Nat) (h : ll1.head = none) :
    addHStep2 ll1 nid = ll1 := by
  rw [addHStep2, h]

theorem addHStep2_of_head_some {ll1 : LL} (nid : Nat) {hh : Nat}
    (h : ll1.head = some hh) :
    addHStep2 ll1 nid = updateNode ll1 hh (fun dh => { dh with prev := some nid }) := by
  rw [addHStep2, h]

theorem addHStep4_of_tail_none {ll3 : LL} (nid : Nat) (h : ll3.tail = none) :
    addHStep4 ll3 nid = { ll3 with tail := some nid } := by
  rw [addHStep4, h]

theorem addHStep4_of_tail_some {ll3 : LL} (nid : Nat) {t : Nat} (h : ll3.tail = some t) :
    addHStep4 ll3 nid = ll3 := by
  rw [addHStep4, h]

/-- Pushing a fresh node to the front of a well-formed list. -/
theorem addH_listOK {ll : LL} {l : List Nat} {nid : Nat} {d : NodeData}
    (h : ListOK ll l) (hnid : nid ∉ l) (hd : lookupL ll.nodes nid = some d) :
    ListOK (addH ll nid) (nid :: l) := by
  rw [addH, updateNode_eq_record _ hd]
  cases l with
  | nil =>
      have hhd : ll.head = none := by simpa using h.head_eq
      have htl : ll.tail = none := by simpa using h.tail_eq
      rw [addHStep2_of_head_none nid (by simpa using hhd)]
      rw [addHStep4_of_tail_none nid (by simpa using htl)]
      refine ⟨?_, by simp, by simp, by simp⟩
      refine (dll_cons ..).mpr ⟨{ d with prev := none, next := ll.head }, ?_, rfl, ?_, by simp⟩
      · exact lookupL_setL_self ..
      · simp [hhd, nextOf]
  | cons hN t =>
      have hhd : ll.head = some hN := by simpa using h.head_eq
      have hNmem : hN ∈ hN :: t := List.mem_cons_self _ _
      have hNnid : hN ≠ nid := fun he => hnid (he ▸ hNmem)
      obtain ⟨dh, hdh⟩ := dll_mem_lookup h.chain hNmem
      have hdh1 : lookupL (setL ll.nodes nid { d with prev := none, next := ll.head }) hN
          = some dh := by
        rw [lookupL_setL_ne _ _ hNnid]
        exact hdh
      rw [addHStep2_of_head_some nid (by simpa using hhd), updateNode_eq_record _ hdh1]
      have htl : ll.tail = (hN :: t).getLast? := h.tail_eq
      have htl' : ∃ tl, ll.tail = some tl := by
        rw [htl, List.getLast?_eq_getLast_of_ne_nil (by simp)]
        exact ⟨_, rfl⟩
      obtain ⟨tl, htl2⟩ := htl'
      rw [addHStep4_of_tail_some nid (by simpa using htl2)]
      refine ⟨?_, by simp, ?_, List.nodup_cons.mpr ⟨hnid, h.nodup⟩⟩
      · refine (dll_cons ..).mpr
          ⟨{ d with prev := none, next := ll.head }, ?_, rfl, by simp [hhd, nextOf], ?_⟩
        · rw [lookupL_setL_ne _ _ (Ne.symm hNnid)]
          exact lookupL_setL_self ..
        · have hch1 : dll (setL ll.nodes nid { d with prev := none, next := ll.head }) none
              (hN :: t) none := by
            refine dll_frame (fun n hn => ?_) h.chain
            exact lookupL_setL_ne _ _ (fun he => hnid (he ▸ hn))
          have hhNt : hN ∉ t := (List.nodup_cons.mp h.nodup).1
          exact dll_set_head_prev hch1 hhNt hdh1
      · simpa [List.getLast?_cons_cons] using htl

/-- Moving a member node to the front of a well-formed list. -/
theorem moveH_listOK {ll : LL} {l : List Nat} {nid : Nat}
    (h : ListOK ll l) (hmem : nid ∈ l) :
    ListOK (moveH ll nid) (nid :: l.erase nid) := by
  rw [moveH]
  by_cases hh : ll.head = some nid
  · rw [if_pos hh]
    have hhd : l.head? = some nid := h.head_eq ▸ hh
    cases l with
    | nil => simp at hhd
    | cons a t =>
        have ha : a = nid := by simpa using hhd
        subst ha
        rw [List.erase_cons_head]
        exact h
  · rw [if_neg hh]
    obtain ⟨s, t, rfl⟩ := List.append_of_mem hmem
    have hnods : nid ∉ s := by
      obtain ⟨_, _, disj⟩ := List.nodup_append.mp h.nodup
      exact fun hs => disj hs (List.mem_cons_self _ _)
    have hnodt : nid ∉ t := by
      obtain ⟨_, ndc, _⟩ := List.nodup_append.mp h.nodup
      exact (List.nodup_cons.mp ndc).1
    have h1 := removeN_listOK h
    obtain ⟨d, hd⟩ := dll_mem_lookup h.chain hmem
    obtain ⟨d', hd', _⟩ := sameCore_lookup (removeN_core ll nid) hd
    have hmem' : nid ∉ s ++ t := by
      simp only [List.mem_append]
      rintro (hs | ht)
      · exact hnods hs
      · exact hnodt ht
    have h2 := addH_listOK h1 hmem' hd'
    rw [List.erase_append_right _ hnods, List.erase_cons_head]
    exact h2

theorem key_eq_of_core {d d' : NodeData} (h : coreOf d' = coreOf d) : d'.key = d.key :=
  congrArg Prod.fst h

theorem value_eq_of_core {d d' : NodeData} (h : coreOf d' = coreOf d) : d'.value = d.value :=
  congrArg (fun t => t.2.1) h

theorem expiresAt_eq_of_core {d d' : NodeData} (h : coreOf d' = coreOf d) :
    d'.expiresAt = d.expiresAt :=
  congrArg (fun t => t.2.2) h

/-- Correspondence between the `dataMap` index and the recency list: the
well-formed list `l` carries exactly the nodes the index maps to, and each
live node records its own key. -/
structure Corr (mp : List (Nat × Nat)) (ll : LL) (l : List Nat) : Prop where
  lok : ListOK ll l
  keysND : (mp.map Prod.fst).Nodup
  m2l : ∀ k nid, lookupL mp k = some nid →
      nid ∈ l ∧ ∃ d, lookupL ll.nodes nid = some d ∧ d.key = some k
  l2m : ∀ nid, nid ∈ l → ∃ k, lookupL mp k = some nid

/-- Two keys mapping to the same node coincide. -/
theorem Corr.key_inj {mp : List (Nat × Nat)} {ll : LL} {l : List Nat}
    (hc : Corr mp ll l) {k₁ k₂ nid : Nat}
    (h₁ : lookupL mp k₁ = some nid) (h₂ : lookupL mp k₂ = some nid) : k₁ = k₂ := by
  obtain ⟨_, d₁, hd₁, hk₁⟩ := hc.m2l k₁ nid h₁
  obtain ⟨_, d₂, hd₂, hk₂⟩ := hc.m2l k₂ nid h₂
  have hdd : d₁ = d₂ := by rw [hd₁] at hd₂; exact Option.some.inj hd₂
  subst hdd
  rw [hk₁] at hk₂
  exact Option.some.inj hk₂

/-- Deleting a mapped key and unlinking its node keeps the correspondence. -/
theorem corr_remove {mp : List (Nat × Nat)} {ll : LL} {l : List Nat} {k nid : Nat}
    (hc : Corr mp ll l) (hk : lookupL mp k = some nid) :
    Corr (delL mp k) (removeN ll nid) (l.erase nid) := by
  obtain ⟨hmem, d, hd, hdk⟩ := hc.m2l k nid hk
  obtain ⟨s', t', rfl⟩ := List.append_of_mem hmem
  have hnods : nid ∉ s' := by
    obtain ⟨_, _, disj⟩ := List.nodup_append.mp hc.lok.nodup
    exact fun hs => disj hs (List.mem_cons_self _ _)
  have hnodt : nid ∉ t' := by
    obtain ⟨_, ndc, _⟩ := List.nodup_append.mp hc.lok.nodup
    exact (List.nodup_cons.mp ndc).1
  rw [List.erase_append_right _ hnods, List.erase_cons_head]
  have hcore := removeN_core ll nid
  refine ⟨removeN_listOK hc.lok, nodup_keys_delL _ hc.keysND, ?_, ?_⟩
  · intro k' nid' hk'
    have hkk : k' ≠ k := by
      intro he
      subst he
      rw [lookupL_delL_self hc.keysND] at hk'
      exact absurd hk' (by simp)
    rw [lookupL_delL_ne _ hkk] at hk'
    obtain ⟨hmem', d', hd', hdk'⟩ := hc.m2l k' nid' hk'
    have hne : nid' ≠ nid := by
      intro he
      subst he
      rw [hd] at hd'
      injection hd' with hdd
      subst hdd
      rw [hdk] at hdk'
      injection hdk' with h
      exact hkk h.symm
    constructor
    · simp only [List.mem_append, List.mem_cons] at hmem'
      rcases hmem' with hs | hs | hs
      · exact List.mem_append.mpr (Or.inl hs)
      · exact absurd hs hne
      · exact List.mem_append.mpr (Or.inr hs)
    · obtain ⟨d'', hd'', hcc⟩ := sameCore_lookup hcore hd'
      exact ⟨d'', hd'', (key_eq_of_core hcc).trans hdk'⟩
  · intro nid' hmem'
    have hmem'' : nid' ∈ s' ++ nid :: t' := by
      simp only [List.mem_append, List.mem_cons] at hmem' ⊢
      tauto
    obtain ⟨k', hk'⟩ := hc.l2m nid' hmem''
    have hne : nid' ≠ nid := by
      intro he
      subst he
      simp only [List.mem_append] at hmem'
      rcases hmem' with hs | hs
      · exact hnods hs
      · exact hnodt hs
    have hkk : k' ≠ k := by
      intro he
      subst he
      rw [hk] at hk'
      injection hk' with h
      exact hne h.symm
    exact ⟨k', by rw [lookupL_delL_ne _ hkk]; exact hk'⟩

/-- Moving a mapped node to the head keeps the correspondence (the `get` hit
path). -/
theorem corr_touch {mp : List (Nat × Nat)} {ll : LL} {l : List Nat} {nid : Nat}
    (hc : Corr mp ll l) (hmem : nid ∈ l) :
    Corr mp (moveH ll nid) (nid :: l.erase nid) := by
  have hcore := moveH_core ll nid
  refine ⟨moveH_listOK hc.lok hmem, hc.keysND, ?_, ?_⟩
  · intro k' nid' hk'
    obtain ⟨hmem', d', hd', hdk'⟩ := hc.m2l k' nid' hk'
    obtain ⟨d'', hd'', hcc⟩ := sameCore_lookup hcore hd'
    refine ⟨?_, d'', hd'', (key_eq_of_core hcc).trans hdk'⟩
    by_cases he : nid' = nid
    · subst he; exact List.mem_cons_self _ _
    · exact List.mem_cons_of_mem _ ((List.mem_erase_of_ne he).mpr hmem')
  · intro nid' hmem'
    rcases List.mem_cons.mp hmem' with rfl | hmem'
    · exact hc.l2m nid' hmem
    · exact hc.l2m nid' (List.mem_of_mem_erase hmem')

/-- Inserting a fresh key with a fresh node at the head keeps the
correspondence (the miss paths of `get` and `put`). -/
theorem corr_insert {mp : List (Nat × Nat)} {ll : LL} {l : List Nat} {k nid : Nat}
    {d : NodeData} (hc : Corr mp ll l) (hk : lookupL mp k = none)
    (hnid : lookupL ll.nodes nid = none) (hdk : d.key = some k) :
    Corr (setL mp k nid) (addH { ll with nodes := ll.nodes ++ [(nid, d)] } nid) (nid :: l) := by
  have hnidl : nid ∉ l := by
    intro hm
    obtain ⟨d₀, hd₀⟩ := dll_mem_lookup hc.lok.chain hm
    rw [hnid] at hd₀
    exact absurd hd₀ (by simp)
  have hlookext : ∀ n ∈ l, lookupL (ll.nodes ++ [(nid, d)]) n = lookupL ll.nodes n := by
    intro n hn
    rw [lookupL_append]
    obtain ⟨d₀, hd₀⟩ := dll_mem_lookup hc.lok.chain hn
    rw [hd₀]
  have hlookn : lookupL (ll.nodes ++ [(nid, d)]) nid = some d := by
    rw [lookupL_append, hnid]
    simp [lookupL]
  have hlok1 : ListOK ({ ll with nodes := ll.nodes ++ [(nid, d)] } : LL) l :=
    ⟨dll_frame hlookext hc.lok.chain, hc.lok.head_eq, hc.lok.tail_eq, hc.lok.nodup⟩
  have hlok2 := addH_listOK hlok1 hnidl hlookn
  have hcore := addH_core ({ ll with nodes := ll.nodes ++ [(nid, d)] } : LL) nid
  have hkeyne : ∀ k', lookupL mp k' ≠ none → k' ≠ k := by
    intro k' hne he
    subst he
    exact hne hk
  refine ⟨hlok2, nodup_keys_setL _ _ hc.keysND, ?_, ?_⟩
  · intro k' nid' hk'
    by_cases he : k' = k
    · subst he
      rw [lookupL_setL_self] at hk'
      injection hk' with h
      subst h
      obtain ⟨d'', hd'', hcc⟩ := sameCore_lookup hcore hlookn
      exact ⟨List.mem_cons_self _ _, d'', hd'', (key_eq_of_core hcc).trans hdk⟩
    · rw [lookupL_setL_ne _ _ he] at hk'
      obtain ⟨hmem', d', hd', hdk'⟩ := hc.m2l k' nid' hk'
      obtain ⟨d'', hd'', hcc⟩ := sameCore_lookup hcore ((hlookext nid' hmem').symm ▸ hd')
      exact ⟨List.mem_cons_of_mem _ hmem', d'', hd'', (key_eq_of_core hcc).trans hdk'⟩
  · intro nid' hmem'
    rcases List.mem_cons.mp hmem' with rfl | hmem'
    · exact ⟨k, lookupL_setL_self ..⟩
    · obtain ⟨k', hk'⟩ := hc.l2m nid' hmem'
      have hne : k' ≠ k := hkeyne k' (by rw [hk']; simp)
      exact ⟨k', by rw [lookupL_setL_ne _ _ hne]; exact hk'⟩

/-- Updating a mapped node's value / expiry in place and moving it to the
head keeps the correspondence (the `put` update path). -/
theorem corr_update {mp : List (Nat × Nat)} {ll : LL} {l : List Nat} {k nid : Nat}
    (hc : Corr mp ll l) (hk : lookupL mp k = some nid)
    (f : NodeData → NodeData) (hfk : ∀ d, (f d).key = d.key)
    (hfp : ∀ d, (f d).prev = d.prev) (hfn : ∀ d, (f d).next = d.next) :
    Corr mp (moveH (updateNode ll nid f) nid) (nid :: l.erase nid) := by
  obtain ⟨hmem, d, hd, hdk⟩ := hc.m2l k nid hk
  have hptr : ∀ n ∈ l, (lookupL (updateNode ll nid f).nodes n).map ptrOf
      = (lookupL ll.nodes n).map ptrOf := by
    intro n _
    rw [updateNode_nodes_eq f hd]
    by_cases he : n = nid
    · subst he
      rw [lookupL_setL_self, hd]
      simp [ptrOf, hfp, hfn]
    · rw [lookupL_setL_ne _ _ he]
  have hkeep : ∀ n d₀, lookupL ll.nodes n = some d₀ →
      ∃ d₁, lookupL (updateNode ll nid f).nodes n = some d₁ ∧ d₁.key = d₀.key := by
    intro n d₀ hd₀
    rw [updateNode_nodes_eq f hd]
    by_cases he : n = nid
    · subst he
      rw [hd] at hd₀
      have hdd : d = d₀ := Option.some.inj hd₀
      refine ⟨f d, lookupL_setL_self .., ?_⟩
      rw [hfk d, hdd]
    · exact ⟨d₀, by rw [lookupL_setL_ne _ _ he]; exact hd₀, rfl⟩
  have hlok1 : ListOK (updateNode ll nid f) l :=
    ⟨dll_ptr_frame hptr hc.lok.chain,
      (updateNode_head ll nid f) ▸ hc.lok.head_eq,
      (updateNode_tail ll nid f) ▸ hc.lok.tail_eq, hc.lok.nodup⟩
  have hlok2 := moveH_listOK hlok1 hmem
  have hcore := moveH_core (updateNode ll nid f) nid
  refine ⟨hlok2, hc.keysND, ?_, ?_⟩
  · intro k' nid' hk'
    obtain ⟨hmem', d', hd', hdk'⟩ := hc.m2l k' nid' hk'
    obtain ⟨d₁, hd₁, hk₁⟩ := hkeep nid' d' hd'
    obtain ⟨d₂, hd₂, hcc⟩ := sameCore_lookup hcore hd₁
    refine ⟨?_, d₂, hd₂, ((key_eq_of_core hcc).trans hk₁).trans hdk'⟩
    by_cases he : nid' = nid
    · subst he; exact List.mem_cons_self _ _
    · exact List.mem_cons_of_mem _ ((List.mem_erase_of_ne he).mpr hmem')
  · intro nid' hmem'
    rcases List.mem_cons.mp hmem' with rfl | hmem'
    · exact ⟨k, hk⟩
    · exact hc.l2m nid' (List.mem_of_mem_erase hmem')

/-! ### The full machine invariant -/

/-- The promise identities a promise description references. -/
def descRefs : PromDesc → List Nat
  | PromDesc.prim => []
  | PromDesc.pureP _ => []
  | PromDesc.catchSwallow src => [src]
  | PromDesc.thenSaver src none _ _ => [src]
  | PromDesc.thenSaver src (some e) _ _ => [src, e]
  | PromDesc.thenConst src _ => [src]

/-- Freshness: every identity in the state is below its counter, so newly
allocated identities never collide. -/
structure Fresh (s : State) : Prop where
  promDom : ∀ p, p ∈ s.proms.map Prod.fst → p < s.nextProm
  nodeDom : ∀ n, n ∈ s.ll.nodes.map Prod.fst → n < s.nextNode
  nodeVal : ∀ n d, lookupL s.ll.nodes n = some d → d.value < s.nextProm
  obsW : ∀ ob, ob ∈ s.observers → ob.watched < s.nextProm
  descRef : ∀ p pr q, lookupL s.proms p = some pr → q ∈ descRefs pr.desc → q < s.nextProm

/-- Distinct nodes hold distinct promise identities (promises are assigned
as node values exactly once, when freshly created). -/
def ValInj (s : State) : Prop :=
  ∀ n₁ d₁ n₂ d₂, lookupL s.ll.nodes n₁ = some d₁ → lookupL s.ll.nodes n₂ = some d₂ →
    d₁.value = d₂.value → n₁ = n₂

/-- A `save` observer's recorded node is the only node that can hold the
watched promise as its value. -/
def ObsOK (s : State) : Prop :=
  ∀ ob, ob ∈ s.observers → ob.kind = ObsKind.save →
    ∀ n d, lookupL s.ll.nodes n = some d → d.value = ob.watched → n = ob.nid

/-- Structural invariants of the promise graph, giving the serialization
guarantees: a combinator settles only after its source, a saver's promise
runs only after its `thenSaver` fired, a `thenConst` fulfils with its
recorded value, and at most one `thenSaver` references a given saver
promise. -/
structure PromOK (s : State) : Prop where
  catchSrc : ∀ p src, descOf s p = some (PromDesc.catchSwallow src) →
      isSettled s p → isSettled s src
  thenSrc : ∀ p src sv k v, descOf s p = some (PromDesc.thenSaver src sv k v) →
      phaseOf s p = PromPhase.started ∨ isSettled s p → isSettled s src
  savRef : ∀ p src e k v, descOf s p = some (PromDesc.thenSaver src (some e) k v) →
      phaseOf s e ≠ PromPhase.notStarted → phaseOf s p ≠ PromPhase.pending
  savAfter : ∀ p src e k v, descOf s p = some (PromDesc.thenSaver src (some e) k v) →
      isSettled s p → isSettled s e ∨ phaseOf s e = PromPhase.notStarted
  constOk : ∀ p src v w, descOf s p = some (PromDesc.thenConst src v) →
      phaseOf s p = PromPhase.settled (Outcome.ok w) → w = v
  constSrc : ∀ p src v, descOf s p = some (PromDesc.thenConst src v) →
      isSettled s p → isSettled s src
  refUniq : ∀ p₁ p₂ s₁ s₂ e k₁ v₁ k₂ v₂,
      descOf s p₁ = some (PromDesc.thenSaver s₁ (some e) k₁ v₁) →
      descOf s p₂ = some (PromDesc.thenSaver s₂ (some e) k₂ v₂) → p₁ = p₂
  savPrim : ∀ p src e k v, descOf s p = some (PromDesc.thenSaver src (some e) k v) →
      descOf s e = some PromDesc.prim
  evStart : ∀ e k v, Event.saverStart e k v ∈ s.events →
      ∃ p src, descOf s p = some (PromDesc.thenSaver src (some e) k v)

/-- The machine invariant: index/list correspondence, freshness, value
injectivity, observer coherence and promise-graph coherence. (The capacity
bound `dataMap.length ≤ capacity` is tracked separately as `SizeLe`.) -/
structure Inv (s : State) : Prop where
  corr : ∃ l, Corr s.dataMap s.ll l
  fresh : Fresh s
  vinj : ValInj s
  obsOK : ObsOK s
  prom : PromOK s

/-- The capacity bound of §3 of the spec. -/
def SizeLe (s : State) : Prop :=
  s.dataMap.length ≤ s.capacity

theorem inv_initState (cap : Nat) (dttl : Option Nat) (tmr : Bool) :
    Inv (initState cap dttl tmr) := by
  refine ⟨⟨[], ?_⟩, ?_, ?_, ?_, ?_⟩
  · exact ⟨⟨by simp, rfl, rfl, by simp⟩, by simp [initState], fun k nid h => by simp [initState, lookupL] at h,
      fun nid h => by simp at h⟩
  · exact ⟨fun p h => by simp [initState] at h, fun n h => by simp [initState] at h,
      fun n d h => by simp [initState, lookupL] at h, fun ob h => by simp [initState] at h,
      fun p pr q h _ => by simp [initState, lookupL] at h⟩
  · intro n₁ d₁ n₂ d₂ h₁
    simp [initState, lookupL] at h₁
  · intro ob h
    simp [initState] at h
  · refine ⟨?_, ?_, ?_, ?_, ?_, ?_, ?_, ?_, ?_⟩
    all_goals intros
    all_goals simp_all [initState, descOf, phaseOf, lookupL, isSettled]

theorem sizeLe_initState (cap : Nat) (dttl : Option Nat) (tmr : Bool) :
    SizeLe (initState cap dttl tmr) := by
  simp [SizeLe, initState]

/-! ### Effect lemmas for the promise store -/

theorem setPhase_absent {s : State} {p : Nat} (ph : PromPhase)
    (h : lookupL s.proms p = none) : setPhase s p ph = s := by
  simp [setPhase, h]

theorem setPhase_eq {s : State} {p : Nat} {pr : Prom} (ph : PromPhase)
    (h : lookupL s.proms p = some pr) :
    setPhase s p ph = { s with proms := setL s.proms p ⟨pr.desc, ph⟩ } := by
  simp [setPhase, h]

theorem setPhase_dataMap (s : State) (p : Nat) (ph : PromPhase) :
    (setPhase s p ph).dataMap = s.dataMap := by
  cases h : lookupL s.proms p <;> simp [setPhase, h]

theorem setPhase_ll (s : State) (p : Nat) (ph : PromPhase) :
    (setPhase s p ph).ll = s.ll := by
  cases h : lookupL s.proms p <;> simp [setPhase, h]

theorem setPhase_observers (s : State) (p : Nat) (ph : PromPhase) :
    (setPhase s p ph).observers = s.observers := by
  cases h : lookupL s.proms p <;> simp [setPhase, h]

theorem setPhase_events (s : State) (p : Nat) (ph : PromPhase) :
    (setPhase s p ph).events = s.events := by
  cases h : lookupL s.proms p <;> simp [setPhase, h]

theorem setPhase_nextProm (s : State) (p : Nat) (ph : PromPhase) :
    (setPhase s p ph).nextProm = s.nextProm := by
  cases h : lookupL s.proms p <;> simp [setPhase, h]

theorem setPhase_nextNode (s : State) (p : Nat) (ph : PromPhase) :
    (setPhase s p ph).nextNode = s.nextNode := by
  cases h : lookupL s.proms p <;> simp [setPhase, h]

theorem setPhase_capacity (s : State) (p : Nat) (ph : PromPhase) :
    (setPhase s p ph).capacity = s.capacity := by
  cases h : lookupL s.proms p <;> simp [setPhase, h]

theorem setPhase_promKeys (s : State) (p : Nat) (ph : PromPhase) :
    (setPhase s p ph).proms.map Prod.fst = s.proms.map Prod.fst := by
  cases h : lookupL s.proms p with
  | none => simp [setPhase, h]
  | some pr =>
      rw [setPhase_eq _ h]
      simp only
      rw [keys_setL]
      simp [lookupL_mem_keys h]

theorem setPhase_descOf (s : State) (p : Nat) (ph : PromPhase) (q : Nat) :
    descOf (setPhase s p ph) q = descOf s q := by
  cases h : lookupL s.proms p with
  | none => simp [setPhase, h]
  | some pr =>
      rw [setPhase_eq _ h]
      by_cases he : q = p
      · subst he
        simp [descOf, lookupL_setL_self, h]
      · simp [descOf, lookupL_setL_ne _ _ he]

theorem setPhase_phaseOf_self {s : State} {p : Nat} {pr : Prom} (ph : PromPhase)
    (h : lookupL s.proms p = some pr) : phaseOf (setPhase s p ph) p = ph := by
  rw [setPhase_eq _ h]
  simp [phaseOf, lookupL_setL_self]

theorem setPhase_phaseOf_ne (s : State) (p : Nat) (ph : PromPhase) {q : Nat}
    (h : q ≠ p) : phaseOf (setPhase s p ph) q = phaseOf s q := by
  cases h' : lookupL s.proms p with
  | none => simp [setPhase, h']
  | some pr =>
      rw [setPhase_eq _ h']
      simp [phaseOf, lookupL_setL_ne _ _ h]

theorem allocProm_descOf_old {s : State} {q : Nat} {dq : PromDesc}
    (d : PromDesc) (ph : PromPhase) (h : descOf s q = some dq) :
    descOf (allocProm s d ph).2 q = some dq := by
  simp only [descOf, allocProm] at h ⊢
  rw [lookupL_append]
  cases h' : lookupL s.proms q with
  | none => rw [h'] at h; simp at h
  | some pr => rw [h'] at h; simpa using h

theorem allocProm_phaseOf_old {s : State} {q : Nat}
    (d : PromDesc) (ph : PromPhase) (hq : q ≠ s.nextProm) :
    phaseOf (allocProm s d ph).2 q = phaseOf s q := by
  simp only [phaseOf, allocProm]
  rw [lookupL_append]
  cases h' : lookupL s.proms q with
  | none => simp [lookupL, Ne.symm hq]
  | some pr => simp

theorem allocProm_phaseOf_new {s : State} (hf : Fresh s) (d : PromDesc) (ph : PromPhase) :
    phaseOf (allocProm s d ph).2 s.nextProm = ph := by
  have hnone : lookupL s.proms s.nextProm = none := by
    apply lookupL_eq_none_of_not_mem
    intro hmem
    exact absurd (hf.promDom _ hmem) (by omega)
  simp only [phaseOf, allocProm]
  rw [lookupL_append, hnone]
  simp [lookupL]

theorem allocProm_descOf_new {s : State} (hf : Fresh s) (d : PromDesc) (ph : PromPhase) :
    descOf (allocProm s d ph).2 s.nextProm = some d := by
  have hnone : lookupL s.proms s.nextProm = none := by
    apply lookupL_eq_none_of_not_mem
    intro hmem
    exact absurd (hf.promDom _ hmem) (by omega)
  simp only [descOf, allocProm]
  rw [lookupL_append, hnone]
  simp [lookupL]

theorem lookup_isSome_of_mem_keys {β : Type} {l : List (Nat × β)} {k : Nat}
    (h : k ∈ l.map Prod.fst) : ∃ v, lookupL l k = some v := by
  induction l with
  | nil => simp at h
  | cons a rest ih =>
      obtain ⟨k₀, v₀⟩ := a
      by_cases hk : k₀ = k
      · subst hk; exact ⟨v₀, by simp [lookupL]⟩
      · simp only [List.map_cons, List.mem_cons] at h
        rcases h with h | h
        · exact absurd h.symm hk
        · obtain ⟨v, hv⟩ := ih h
          exact ⟨v, by simp [lookupL, hk, hv]⟩

theorem length_delL_le {β : Type} (l : List (Nat × β)) (k : Nat) :
    (delL l k).length ≤ l.length := by
  by_cases h : k ∈ l.map Prod.fst
  · have := length_delL_of_mem h
    omega
  · rw [length_delL_of_not_mem h]

theorem descOf_of_lookup {s : State} {p : Nat} {pr : Prom}
    (h : lookupL s.proms p = some pr) : descOf s p = some pr.desc := by
  simp [descOf, h]

theorem phaseOf_of_lookup {s : State} {p : Nat} {pr : Prom}
    (h : lookupL s.proms p = some pr) : phaseOf s p = pr.phase := by
  simp [phaseOf, h]

theorem isSettled_setPhase {s : State} (p : Nat) (o : Outcome) {q : Nat}
    (h : isSettled s q) : isSettled (setPhase s p (PromPhase.settled o)) q := by
  by_cases he : q = p
  · subst he
    cases hL : lookupL s.proms q with
    | none => rw [setPhase_absent _ hL]; exact h
    | some pr => exact ⟨o, setPhase_phaseOf_self _ hL⟩
  · obtain ⟨o', ho'⟩ := h
    exact ⟨o', by rw [setPhase_phaseOf_ne _ _ _ he]; exact ho'⟩

/-- Generic invariant-component transfer to a state with the same core node
data (pointer-only list surgery) and arbitrary new index. -/
theorem fresh_mk {s : State} (hf : Fresh s) (mp' : List (Nat × Nat)) {ll' : LL}
    (hsc : sameCore ll'.nodes s.ll.nodes)
    (hkeys : ll'.nodes.map Prod.fst = s.ll.nodes.map Prod.fst) :
    Fresh { s with dataMap := mp', ll := ll' } := by
  refine ⟨hf.promDom, ?_, ?_, hf.obsW, hf.descRef⟩
  · intro n hn
    simp only at hn
    rw [hkeys] at hn
    exact hf.nodeDom n hn
  · intro n d hd
    simp only at hd
    have := hsc n
    rw [hd] at this
    cases h' : lookupL s.ll.nodes n with
    | none => rw [h'] at this; simp at this
    | some d₀ =>
        rw [h'] at this
        simp only [Option.map_some'] at this
        have hv : d.value = d₀.value := by
          have := this
          simpa using value_eq_of_core (by simpa using this)
        rw [hv]
        exact hf.nodeVal n d₀ h'

theorem sameCore_lookup_rev {ar' ar : List (Nat × NodeData)} (h : sameCore ar' ar)
    {m : Nat} {d' : NodeData} (hd : lookupL ar' m = some d') :
    ∃ d, lookupL ar m = some d ∧ coreOf d' = coreOf d := by
  have := h m
  rw [hd] at this
  cases h' : lookupL ar m with
  | none => rw [h'] at this; simp at this
  | some d =>
      rw [h'] at this
      simp only [Option.map_some'] at this
      exact ⟨d, rfl, by simpa using this⟩

theorem valInj_mk {s : State} (hv : ValInj s) (mp' : List (Nat × Nat)) {ll' : LL}
    (hsc : sameCore ll'.nodes s.ll.nodes) :
    ValInj { s with dataMap := mp', ll := ll' } := by
  intro n₁ d₁ n₂ d₂ h₁ h₂ hval
  simp only at h₁ h₂
  obtain ⟨e₁, he₁, hc₁⟩ := sameCore_lookup_rev hsc h₁
  obtain ⟨e₂, he₂, hc₂⟩ := sameCore_lookup_rev hsc h₂
  refine hv n₁ e₁ n₂ e₂ he₁ he₂ ?_
  rw [← value_eq_of_core hc₁, ← value_eq_of_core hc₂]
  exact hval

theorem obsOK_mk {s : State} (ho : ObsOK s) (mp' : List (Nat × Nat)) {ll' : LL}
    (hsc : sameCore ll'.nodes s.ll.nodes) :
    ObsOK { s with dataMap := mp', ll := ll' } := by
  intro ob hob hk n d hd hval
  simp only at hd hob
  obtain ⟨e, he, hc⟩ := sameCore_lookup_rev hsc hd
  refine ho ob hob hk n e he ?_
  rw [← value_eq_of_core hc]
  exact hval

theorem updateNode_keys (l : LL) (m : Nat) (f : NodeData → NodeData) :
    (updateNode l m f).nodes.map Prod.fst = l.nodes.map Prod.fst := by
  cases h : lookupL l.nodes m with
  | none => simp [updateNode, h]
  | some d =>
      rw [updateNode_nodes_eq f h]
      rw [keys_setL]
      simp [lookupL_mem_keys h]

theorem removeNStep1_keys (ll : LL) (d : NodeData) :
    (removeNStep1 ll d).nodes.map Prod.fst = ll.nodes.map Prod.fst := by
  rw [removeNStep1]
  cases d.prev <;> simp [updateNode_keys]

theorem removeNStep2_keys (ll1 : LL) (d : NodeData) :
    (removeNStep2 ll1 d).nodes.map Prod.fst = ll1.nodes.map Prod.fst := by
  rw [removeNStep2]
  cases d.next <;> simp [updateNode_keys]

theorem removeN_keys (ll : LL) (nid : Nat) :
    (removeN ll nid).nodes.map Prod.fst = ll.nodes.map Prod.fst := by
  rw [removeN]
  cases h : lookupL ll.nodes nid with
  | none => rfl
  | some d => rw [removeNStep2_keys, removeNStep1_keys]

theorem addHStep2_keys (ll1 : LL) (nid : Nat) :
    (addHStep2 ll1 nid).nodes.map Prod.fst = ll1.nodes.map Prod.fst := by
  rw [addHStep2]
  cases ll1.head <;> simp [updateNode_keys]

theorem addH_keys (ll : LL) (nid : Nat) :
    (addH ll nid).nodes.map Prod.fst = ll.nodes.map Prod.fst := by
  rw [addH, addHStep4_nodes]
  rw [show ({ addHStep2 (updateNode ll nid fun d => { d with prev := none, next := ll.head }) nid with
      head := some nid } : LL).nodes
    = (addHStep2 (updateNode ll nid fun d => { d with prev := none, next := ll.head }) nid).nodes from rfl]
  rw [addHStep2_keys, updateNode_keys]

theorem moveH_keys (ll : LL) (nid : Nat) :
    (moveH ll nid).nodes.map Prod.fst = ll.nodes.map Prod.fst := by
  rw [moveH]
  by_cases hh : ll.head = some nid
  · simp [hh]
  · simp only [if_neg hh]
    rw [addH_keys, removeN_keys]

theorem promOK_transfer {s s' : State} (h : PromOK s) (hp : s'.proms = s.proms)
    (he : s'.events = s.events) : PromOK s' := by
  have hd : ∀ p, descOf s' p = descOf s p := fun p => by unfold descOf; rw [hp]
  have hph : ∀ p, phaseOf s' p = phaseOf s p := fun p => by unfold phaseOf; rw [hp]
  have hs : ∀ p, isSettled s' p ↔ isSettled s p := fun p => by
    unfold isSettled
    rw [hph]
  refine ⟨?_, ?_, ?_, ?_, ?_, ?_, ?_, ?_, ?_⟩
  · intro p src h1 h2
    rw [hd] at h1
    rw [hs] at h2 ⊢
    exact h.catchSrc p src h1 h2
  · intro p src sv k v h1 h2
    rw [hd] at h1
    rw [hph, hs] at h2
    rw [hs]
    exact h.thenSrc p src sv k v h1 h2
  · intro p src e k v h1 h2
    rw [hd] at h1
    rw [hph] at h2 ⊢
    exact h.savRef p src e k v h1 h2
  · intro p src e k v h1 h2
    rw [hd] at h1
    rw [hs] at h2
    rw [hs, hph]
    exact h.savAfter p src e k v h1 h2
  · intro p src v w h1 h2
    rw [hd] at h1
    rw [hph] at h2
    exact h.constOk p src v w h1 h2
  · intro p src v h1 h2
    rw [hd] at h1
    rw [hs] at h2 ⊢
    exact h.constSrc p src v h1 h2
  · intro p₁ p₂ s₁ s₂ e k₁ v₁ k₂ v₂ h1 h2
    rw [hd] at h1 h2
    exact h.refUniq p₁ p₂ s₁ s₂ e k₁ v₁ k₂ v₂ h1 h2
  · intro p src e k v h1
    rw [hd] at h1
    rw [hd]
    exact h.savPrim p src e k v h1
  · intro e k v h1
    rw [he] at h1
    obtain ⟨p, src, h2⟩ := h.evStart e k v h1
    exact ⟨p, src, by rw [hd]; exact h2⟩

/-- The removal pattern shared by `invalidate`, expiry checks, eviction, the
sweeper loop and the failure observers. -/
theorem inv_remove {s : State} (hI : Inv s) {k nid : Nat}
    (hk : lookupL s.dataMap k = some nid) :
    Inv { s with dataMap := delL s.dataMap k, ll := removeN s.ll nid } := by
  obtain ⟨l, hc⟩ := hI.corr
  exact ⟨⟨l.erase nid, corr_remove hc hk⟩,
    fresh_mk hI.fresh _ (removeN_core s.ll nid) (removeN_keys s.ll nid),
    valInj_mk hI.vinj _ (removeN_core s.ll nid),
    obsOK_mk hI.obsOK _ (removeN_core s.ll nid), promOK_transfer hI.prom rfl rfl⟩

theorem inv_evictTail {s : State} (hI : Inv s) {t : Nat} (htl : s.ll.tail = some t) :
    Inv (evictTail s t) := by
  rw [evictTail]
  cases hdt : lookupL s.ll.nodes t with
  | none => exact hI
  | some d =>
      obtain ⟨l, hc⟩ := hI.corr
      have htmem : t ∈ l := mem_of_getLastq (hc.lok.tail_eq ▸ htl)
      obtain ⟨k₀, hk₀⟩ := hc.l2m t htmem
      obtain ⟨_, d₀, hd₀, hk₀d⟩ := hc.m2l k₀ t hk₀
      have hdd : d = d₀ := by rw [hdt] at hd₀; exact Option.some.inj hd₀
      subst hdd
      show Inv (evictTailGo s t d)
      rw [evictTailGo, hk₀d]
      exact inv_remove hI hk₀

theorem inv_evict {s : State} (hI : Inv s) : Inv (evictIfNeeded s) := by
  rw [evictIfNeeded]
  split
  · cases htl : s.ll.tail with
    | none => exact hI
    | some t => exact inv_evictTail hI htl
  · exact hI

theorem length_evict_of_over {s : State} (hI : Inv s)
    (hpos : s.dataMap.length > s.capacity) :
    (evictIfNeeded s).dataMap.length + 1 = s.dataMap.length := by
  obtain ⟨l, hc⟩ := hI.corr
  have hne : s.dataMap ≠ [] := by
    intro he
    rw [he] at hpos
    simp at hpos
  obtain ⟨⟨ka, na⟩, rest, hrest⟩ : ∃ a rest, s.dataMap = a :: rest := by
    cases hmp : s.dataMap with
    | nil => exact absurd hmp hne
    | cons a rest => exact ⟨a, rest, rfl⟩
  have hka : lookupL s.dataMap ka = some na := by
    rw [hrest]
    simp [lookupL]
  obtain ⟨hnam, _, _, _⟩ := hc.m2l ka na hka
  have hlne : l ≠ [] := by
    intro he
    rw [he] at hnam
    simp at hnam
  have htl : ∃ t, s.ll.tail = some t := by
    rw [hc.lok.tail_eq, List.getLast?_eq_getLast_of_ne_nil hlne]
    exact ⟨_, rfl⟩
  obtain ⟨t, htl⟩ := htl
  have htmem : t ∈ l := mem_of_getLastq (hc.lok.tail_eq ▸ htl)
  obtain ⟨k₀, hk₀⟩ := hc.l2m t htmem
  obtain ⟨_, d₀, hd₀, hk₀d⟩ := hc.m2l k₀ t hk₀
  rw [evictIfNeeded, if_pos hpos, htl]
  show (evictTail s t).dataMap.length + 1 = s.dataMap.length
  rw [evictTail, hd₀]
  show (evictTailGo s t d₀).dataMap.length + 1 = s.dataMap.length
  rw [evictTailGo, hk₀d]
  show (delL s.dataMap k₀).length + 1 = s.dataMap.length
  exact length_delL_of_mem (lookupL_mem_keys hk₀)

theorem evict_of_le {s : State} (h : ¬ s.dataMap.length > s.capacity) :
    evictIfNeeded s = s := by
  rw [evictIfNeeded, if_neg h]

/-! ### Invariant preservation: promise reactions -/

theorem corr_setPhase {s : State} (hc : ∃ l, Corr s.dataMap s.ll l) (p : Nat) (ph : PromPhase) :
    ∃ l, Corr (setPhase s p ph).dataMap (setPhase s p ph).ll l := by
  rw [setPhase_dataMap, setPhase_ll]
  exact hc

theorem setPhase_lookup_desc {s : State} {p : Nat} {ph : PromPhase} {q : Nat} {pr' : Prom}
    (h : lookupL (setPhase s p ph).proms q = some pr') :
    ∃ pr, lookupL s.proms q = some pr ∧ pr'.desc = pr.desc := by
  cases hL : lookupL s.proms p with
  | none => rw [setPhase_absent _ hL] at h; exact ⟨pr', h, rfl⟩
  | some pr₀ =>
      rw [setPhase_eq _ hL] at h
      simp only at h
      by_cases he : q = p
      · subst he
        rw [lookupL_setL_self] at h
        exact ⟨pr₀, hL, by rw [← Option.some.inj h]⟩
      · rw [lookupL_setL_ne _ _ he] at h
        exact ⟨pr', h, rfl⟩

theorem fresh_setPhase {s : State} (hf : Fresh s) (p : Nat) (ph : PromPhase) :
    Fresh (setPhase s p ph) := by
  refine ⟨?_, ?_, ?_, ?_, ?_⟩
  · intro q hq
    rw [setPhase_promKeys] at hq
    rw [setPhase_nextProm]
    exact hf.promDom q hq
  · intro n hn
    rw [setPhase_ll] at hn
    rw [setPhase_nextNode]
    exact hf.nodeDom n hn
  · intro n d hd
    rw [setPhase_ll] at hd
    rw [setPhase_nextProm]
    exact hf.nodeVal n d hd
  · intro ob hob
    rw [setPhase_observers] at hob
    rw [setPhase_nextProm]
    exact hf.obsW ob hob
  · intro q pr' r hq hr
    obtain ⟨pr, hpr, hdesc⟩ := setPhase_lookup_desc hq
    rw [setPhase_nextProm]
    rw [hdesc] at hr
    exact hf.descRef q pr r hpr hr

theorem valInj_setPhase {s : State} (hv : ValInj s) (p : Nat) (ph : PromPhase) :
    ValInj (setPhase s p ph) := by
  intro n₁ d₁ n₂ d₂ h₁ h₂ hval
  rw [setPhase_ll] at h₁ h₂
  exact hv n₁ d₁ n₂ d₂ h₁ h₂ hval

theorem obsOK_setPhase {s : State} (ho : ObsOK s) (p : Nat) (ph : PromPhase) :
    ObsOK (setPhase s p ph) := by
  intro ob hob hk n d hd hval
  rw [setPhase_observers] at hob
  rw [setPhase_ll] at hd
  exact ho ob hob hk n d hd hval

/-- Settling one unsettled promise preserves the promise-graph invariant,
given the local facts the firing rule guarantees. -/
theorem promOK_setPhase_settled {s : State} {p : Nat} {pr : Prom} {o : Outcome}
    (hP : PromOK s) (hL : lookupL s.proms p = some pr)
    (hpnn : pr.phase ≠ PromPhase.notStarted)
    (hcatch : ∀ src, pr.desc = PromDesc.catchSwallow src → isSettled s src)
    (hthen : ∀ src sv k v, pr.desc = PromDesc.thenSaver src sv k v → isSettled s src)
    (hthenE : ∀ src e k v, pr.desc = PromDesc.thenSaver src (some e) k v →
      isSettled s e ∨ phaseOf s e = PromPhase.notStarted)
    (hconst : ∀ src v, pr.desc = PromDesc.thenConst src v →
      isSettled s src ∧ ∀ w, o = Outcome.ok w → w = v) :
    PromOK (setPhase s p (PromPhase.settled o)) := by
  set s' := setPhase s p (PromPhase.settled o) with hs'
  have hdesc : ∀ q, descOf s' q = descOf s q := fun q => setPhase_descOf s p _ q
  have hphne : ∀ {q : Nat}, q ≠ p → phaseOf s' q = phaseOf s q :=
    fun hq => setPhase_phaseOf_ne s p _ hq
  have hphp : phaseOf s' p = PromPhase.settled o := setPhase_phaseOf_self _ hL
  have hmono : ∀ q, isSettled s q → isSettled s' q := fun q h => isSettled_setPhase p o h
  have hdp : descOf s p = some pr.desc := descOf_of_lookup hL
  have hpold : phaseOf s p = pr.phase := phaseOf_of_lookup hL
  refine ⟨?_, ?_, ?_, ?_, ?_, ?_, ?_, ?_, ?_⟩
  · intro q src h1 h2
    rw [hdesc] at h1
    by_cases hq : q = p
    · subst hq
      rw [hdp] at h1
      exact hmono _ (hcatch src (Option.some.inj h1))
    · rw [show isSettled s' q = isSettled s q from by unfold isSettled; rw [hphne hq]] at h2
      exact hmono _ (hP.catchSrc q src h1 h2)
  · intro q src sv k v h1 h2
    rw [hdesc] at h1
    by_cases hq : q = p
    · subst hq
      rw [hdp] at h1
      exact hmono _ (hthen src sv k v (Option.some.inj h1))
    · rw [hphne hq, show isSettled s' q = isSettled s q from by unfold isSettled; rw [hphne hq]] at h2
      exact hmono _ (hP.thenSrc q src sv k v h1 h2)
  · intro q src e k v h1 h2
    rw [hdesc] at h1
    by_cases hq : q = p
    · subst hq
      rw [hphp]
      simp
    · rw [hphne hq]
      by_cases he : e = p
      · subst he
        refine hP.savRef q src e k v h1 ?_
        rw [hpold]
        exact hpnn
      · rw [hphne he] at h2
        exact hP.savRef q src e k v h1 h2
  · intro q src e k v h1 h2
    rw [hdesc] at h1
    by_cases hq : q = p
    · subst hq
      rw [hdp] at h1
      rcases hthenE src e k v (Option.some.inj h1) with hse | hns
      · exact Or.inl (hmono _ hse)
      · have he : e ≠ q := by
          intro hep
          rw [hep, hpold] at hns
          exact hpnn hns
        exact Or.inr (by rw [hphne he]; exact hns)
    · rw [show isSettled s' q = isSettled s q from by unfold isSettled; rw [hphne hq]] at h2
      rcases hP.savAfter q src e k v h1 h2 with hse | hns
      · exact Or.inl (hmono _ hse)
      · have he : e ≠ p := by
          intro hep
          rw [hep, hpold] at hns
          exact hpnn hns
        exact Or.inr (by rw [hphne he]; exact hns)
  · intro q src v w h1 h2
    rw [hdesc] at h1
    by_cases hq : q = p
    · subst hq
      rw [hdp] at h1
      rw [hphp] at h2
      have ho : o = Outcome.ok w := PromPhase.settled.inj h2
      exact (hconst src v (Option.some.inj h1)).2 w ho
    · rw [hphne hq] at h2
      exact hP.constOk q src v w h1 h2
  · intro q src v h1 h2
    rw [hdesc] at h1
    by_cases hq : q = p
    · subst hq
      rw [hdp] at h1
      exact hmono _ (hconst src v (Option.some.inj h1)).1
    · rw [show isSettled s' q = isSettled s q from by unfold isSettled; rw [hphne hq]] at h2
      exact hmono _ (hP.constSrc q src v h1 h2)
  · intro p₁ p₂ s₁ s₂ e k₁ v₁ k₂ v₂ h1 h2
    rw [hdesc] at h1 h2
    exact hP.refUniq p₁ p₂ s₁ s₂ e k₁ v₁ k₂ v₂ h1 h2
  · intro q src e k v h1
    rw [hdesc] at h1
    rw [hdesc]
    exact hP.savPrim q src e k v h1
  · intro e k v h1
    rw [show s'.events = s.events from setPhase_events s p _] at h1
    obtain ⟨q, src, h2⟩ := hP.evStart e k v h1
    exact ⟨q, src, by rw [hdesc]; exact h2⟩

/-- Full invariant preservation by settling one unsettled promise. -/
theorem inv_setPhase_settled {s : State} {p : Nat} {pr : Prom} {o : Outcome}
    (hI : Inv s) (hL : lookupL s.proms p = some pr)
    (hpnn : pr.phase ≠ PromPhase.notStarted)
    (hcatch : ∀ src, pr.desc = PromDesc.catchSwallow src → isSettled s src)
    (hthen : ∀ src sv k v, pr.desc = PromDesc.thenSaver src sv k v → isSettled s src)
    (hthenE : ∀ src e k v, pr.desc = PromDesc.thenSaver src (some e) k v →
      isSettled s e ∨ phaseOf s e = PromPhase.notStarted)
    (hconst : ∀ src v, pr.desc = PromDesc.thenConst src v →
      isSettled s src ∧ ∀ w, o = Outcome.ok w → w = v) :
    Inv (setPhase s p (PromPhase.settled o)) :=
  ⟨corr_setPhase hI.corr p _, fresh_setPhase hI.fresh p _, valInj_setPhase hI.vinj p _,
    obsOK_setPhase hI.obsOK p _,
    promOK_setPhase_settled hI.prom hL hpnn hcatch hthen hthenE hconst⟩

theorem inv_settlePrim {s : State} (hI : Inv s) (p : Nat) (o : Outcome) :
    Inv (applyAct (Action.settlePrim p o) s) := by
  show Inv (match lookupL s.proms p with
    | some ⟨PromDesc.prim, PromPhase.pending⟩ => setPhase s p (PromPhase.settled o)
    | _ => s)
  split
  · rename_i hL
    exact inv_setPhase_settled hI hL (by simp) (fun src h => nomatch h)
      (fun src sv k v h => nomatch h) (fun src e k v h => nomatch h)
      (fun src v h => nomatch h)
  · exact hI

theorem inv_fireCatch {s : State} (hI : Inv s) (p : Nat) :
    Inv (applyAct (Action.fireCatch p) s) := by
  show Inv (match lookupL s.proms p with
    | some ⟨PromDesc.catchSwallow src, PromPhase.pending⟩ =>
        match phaseOf s src with
        | PromPhase.settled (Outcome.ok w) => setPhase s p (PromPhase.settled (Outcome.ok w))
        | PromPhase.settled (Outcome.err e) =>
            if messageSafe e then
              setPhase s p (PromPhase.settled (Outcome.ok JSVal.undef))
            else
              setPhase s p (PromPhase.settled (Outcome.err (JSVal.errObj "TypeError")))
        | _ => s
    | _ => s)
  split
  · rename_i src hL
    split
    · rename_i w hw
      refine inv_setPhase_settled hI hL (by simp) ?_
        (fun src' sv k v h => nomatch h) (fun src' e k v h => nomatch h)
        (fun src' v h => nomatch h)
      intro src' h
      injection h with h
      subst h
      exact ⟨_, hw⟩
    · rename_i e he
      have hcatch : ∀ src', (⟨PromDesc.catchSwallow src, PromPhase.pending⟩ : Prom).desc
          = PromDesc.catchSwallow src' → isSettled s src' := by
        intro src' h
        injection h with h
        subst h
        exact ⟨_, he⟩
      split
      · exact inv_setPhase_settled hI hL (by simp) hcatch
          (fun src' sv k v h => nomatch h) (fun src' e' k v h => nomatch h)
          (fun src' v h => nomatch h)
      · exact inv_setPhase_settled hI hL (by simp) hcatch
          (fun src' sv k v h => nomatch h) (fun src' e' k v h => nomatch h)
          (fun src' v h => nomatch h)
    · exact hI
  · exact hI

theorem inv_fireThenConst {s : State} (hI : Inv s) (p : Nat) :
    Inv (applyAct (Action.fireThenConst p) s) := by
  show Inv (match lookupL s.proms p with
    | some ⟨PromDesc.thenConst src v, PromPhase.pending⟩ =>
        match phaseOf s src with
        | PromPhase.settled (Outcome.ok _) => setPhase s p (PromPhase.settled (Outcome.ok v))
        | PromPhase.settled (Outcome.err e) => setPhase s p (PromPhase.settled (Outcome.err e))
        | _ => s
    | _ => s)
  split
  · rename_i src v hL
    split
    · rename_i w hw
      refine inv_setPhase_settled hI hL (by simp) (fun src' h => nomatch h)
        (fun src' sv k v' h => nomatch h) (fun src' e k v' h => nomatch h) ?_
      intro src' v' h
      injection h with h1 h2
      subst h1
      subst h2
      refine ⟨⟨_, hw⟩, ?_⟩
      intro w' hw'
      injection hw' with hw'
      exact hw'.symm
    · rename_i e he
      refine inv_setPhase_settled hI hL (by simp) (fun src' h => nomatch h)
        (fun src' sv k v' h => nomatch h) (fun src' e' k v' h => nomatch h) ?_
      intro src' v' h
      injection h with h1 h2
      subst h1
      subst h2
      exact ⟨⟨_, he⟩, fun w' hw' => nomatch hw'⟩
    · exact hI
  · exact hI

theorem inv_adoptSaver {s : State} (hI : Inv s) (p : Nat) :
    Inv (applyAct (Action.adoptSaver p) s) := by
  show Inv (match lookupL s.proms p with
    | some ⟨PromDesc.thenSaver _ (some e) _ _, PromPhase.started⟩ =>
        match phaseOf s e with
        | PromPhase.settled o => setPhase s p (PromPhase.settled o)
        | _ => s
    | _ => s)
  split
  · rename_i src e k v hL
    split
    · rename_i o ho
      refine inv_setPhase_settled hI hL (by simp) (fun src' h => nomatch h) ?_ ?_
        (fun src' v' h => nomatch h)
      · intro src' sv k' v' h
        injection h with h1 h2 h3 h4
        subst h1
        exact hI.prom.thenSrc p src sv k' v'
          (by rw [descOf_of_lookup hL]; simp [h2, h3, h4])
          (Or.inl (by rw [phaseOf_of_lookup hL]))
      · intro src' e' k' v' h
        injection h with h1 h2 h3 h4
        have he : e = e' := by injection h2
        subst he
        exact Or.inl ⟨o, ho⟩
    · exact hI
  · exact hI

theorem inv_fireThenSaverSettle {s : State} (hI : Inv s) {p src : Nat} {savP : Option Nat}
    {k : Nat} {v : JSVal} {o o' : Outcome}
    (hL : lookupL s.proms p = some ⟨PromDesc.thenSaver src savP k v, PromPhase.pending⟩)
    (hsrc : phaseOf s src = PromPhase.settled o') :
    Inv (setPhase s p (PromPhase.settled o)) := by
  refine inv_setPhase_settled hI hL (by simp) (fun src' h => nomatch h) ?_ ?_
    (fun src' v' h => nomatch h)
  · intro src' sv k' v' h
    injection h with h1 h2 h3 h4
    subst h1
    exact ⟨_, hsrc⟩
  · intro src' e' k' v' h
    injection h with h1 h2 h3 h4
    right
    by_contra hne
    refine hI.prom.savRef p src' e' k' v' ?_ hne ?_
    · rw [descOf_of_lookup hL]
      simp [← h1, h2, h3, h4]
    · rw [phaseOf_of_lookup hL]

theorem setPhase_lookup_ne (s : State) (p : Nat) (ph : PromPhase) {q : Nat} (h : q ≠ p) :
    lookupL (setPhase s p ph).proms q = lookupL s.proms q := by
  cases hL : lookupL s.proms p with
  | none => rw [setPhase_absent _ hL]
  | some pr =>
      rw [setPhase_eq _ hL]
      simp only
      exact lookupL_setL_ne _ _ h

theorem inv_events_append {s : State} (hI : Inv s) (ev : Event)
    (hev : ∀ e k v, ev = Event.saverStart e k v →
      ∃ p src, descOf s p = some (PromDesc.thenSaver src (some e) k v)) :
    Inv { s with events := s.events ++ [ev] } := by
  refine ⟨hI.corr,
    ⟨hI.fresh.promDom, hI.fresh.nodeDom, hI.fresh.nodeVal, hI.fresh.obsW, hI.fresh.descRef⟩,
    hI.vinj, hI.obsOK, ?_⟩
  refine ⟨hI.prom.catchSrc, hI.prom.thenSrc, hI.prom.savRef, hI.prom.savAfter,
    hI.prom.constOk, hI.prom.constSrc, hI.prom.refUniq, hI.prom.savPrim, ?_⟩
  intro e k v h1
  have h1' : Event.saverStart e k v ∈ s.events ++ [ev] := h1
  rcases List.mem_append.mp h1' with h2 | h2
  · exact hI.prom.evStart e k v h2
  · simp only [List.mem_singleton] at h2
    exact hev e k v h2.symm

/-- Invariant preservation for the saver-starting branch of the
`thenSaver` reaction. -/
theorem inv_fireThenSaverStart {s : State} (hI : Inv s) {p src e k : Nat} {v w : JSVal}
    (hL : lookupL s.proms p = some ⟨PromDesc.thenSaver src (some e) k v, PromPhase.pending⟩)
    (hsrc : phaseOf s src = PromPhase.settled (Outcome.ok w)) :
    Inv (let s1 := setPhase s p PromPhase.started
         let s2 := setPhase s1 e PromPhase.pending
         { s2 with events := s2.events ++ [Event.saverStart e k v] }) := by
  have hdp : descOf s p = some (PromDesc.thenSaver src (some e) k v) := descOf_of_lookup hL
  have hpp : phaseOf s p = PromPhase.pending := phaseOf_of_lookup hL
  have hdeprim : descOf s e = some PromDesc.prim := hI.prom.savPrim p src e k v hdp
  have hpe : phaseOf s e = PromPhase.notStarted := by
    by_contra h
    exact hI.prom.savRef p src e k v hdp h hpp
  have hep : e ≠ p := by
    intro h
    rw [h, hdp] at hdeprim
    exact nomatch Option.some.inj hdeprim
  have hLe : lookupL s.proms e = some ⟨PromDesc.prim, PromPhase.notStarted⟩ := by
    cases hLe' : lookupL s.proms e with
    | none => rw [descOf, hLe'] at hdeprim; exact absurd hdeprim (by simp)
    | some pr =>
        have h1 : pr.desc = PromDesc.prim := by
          rw [descOf, hLe'] at hdeprim
          simpa using hdeprim
        have h2 : pr.phase = PromPhase.notStarted := by
          rw [phaseOf, hLe'] at hpe
          exact hpe
        cases pr
        simp only at h1 h2
        rw [h1, h2]
  set s1 := setPhase s p PromPhase.started with hs1
  have hLe1 : lookupL s1.proms e = some ⟨PromDesc.prim, PromPhase.notStarted⟩ := by
    rw [hs1, setPhase_lookup_ne s p _ hep]
    exact hLe
  set s2 := setPhase s1 e PromPhase.pending with hs2
  have hD : ∀ q, descOf s2 q = descOf s q := by
    intro q
    rw [hs2, setPhase_descOf, hs1, setPhase_descOf]
  have hPp : phaseOf s2 p = PromPhase.started := by
    rw [hs2, setPhase_phaseOf_ne _ _ _ (Ne.symm hep), hs1, setPhase_phaseOf_self _ hL]
  have hPe : phaseOf s2 e = PromPhase.pending := setPhase_phaseOf_self _ hLe1
  have hPo : ∀ q, q ≠ p → q ≠ e → phaseOf s2 q = phaseOf s q := by
    intro q hqp hqe
    rw [hs2, setPhase_phaseOf_ne _ _ _ hqe, hs1, setPhase_phaseOf_ne _ _ _ hqp]
  have hmono : ∀ q, isSettled s q → isSettled s2 q := by
    rintro q ⟨o, ho⟩
    have hqp : q ≠ p := by intro h; rw [h, hpp] at ho; exact nomatch ho
    have hqe : q ≠ e := by intro h; rw [h, hpe] at ho; exact nomatch ho
    exact ⟨o, by rw [hPo q hqp hqe]; exact ho⟩
  have hback : ∀ q, isSettled s2 q → isSettled s q := by
    rintro q ⟨o, ho⟩
    have hqp : q ≠ p := by intro h; rw [h, hPp] at ho; exact nomatch ho
    have hqe : q ≠ e := by intro h; rw [h, hPe] at ho; exact nomatch ho
    exact ⟨o, by rw [← hPo q hqp hqe]; exact ho⟩
  have hqp_of_desc : ∀ {q : Nat} {dq : PromDesc}, descOf s q = some dq →
      (∀ src' sv' k' v', dq ≠ PromDesc.thenSaver src' sv' k' v') → q ≠ p := by
    intro q dq hq hne h
    rw [h, hdp] at hq
    exact hne src (some e) k v (Option.some.inj hq).symm
  have hqe_of_desc : ∀ {q : Nat} {dq : PromDesc}, descOf s q = some dq →
      dq ≠ PromDesc.prim → q ≠ e := by
    intro q dq hq hne h
    rw [h, hdeprim] at hq
    exact hne (Option.some.inj hq).symm
  have hP2 : PromOK s2 := by
    refine ⟨?_, ?_, ?_, ?_, ?_, ?_, ?_, ?_, ?_⟩
    · intro q src' h1 h2
      rw [hD] at h1
      have hqp : q ≠ p := hqp_of_desc h1 (fun _ _ _ _ h => nomatch h)
      have hqe : q ≠ e := hqe_of_desc h1 (fun h => nomatch h)
      exact hmono _ (hI.prom.catchSrc q src' h1 (hback q h2))
    · intro q src' sv k' v' h1 h2
      rw [hD] at h1
      by_cases hqp : q = p
      · subst hqp
        rw [hdp] at h1
        injection (Option.some.inj h1) with e1 e2 e3 e4
        subst e1
        exact hmono _ ⟨_, hsrc⟩
      · have hqe : q ≠ e := hqe_of_desc h1 (fun h => nomatch h)
        rcases h2 with h2 | h2
        · rw [hPo q hqp hqe] at h2
          exact hmono _ (hI.prom.thenSrc q src' sv k' v' h1 (Or.inl h2))
        · exact hmono _ (hI.prom.thenSrc q src' sv k' v' h1 (Or.inr (hback q h2)))
    · intro q src' e' k' v' h1 h2
      rw [hD] at h1
      by_cases hqp : q = p
      · subst hqp
        rw [hPp]
        simp
      · have hqe : q ≠ e := hqe_of_desc h1 (fun h => nomatch h)
        rw [hPo q hqp hqe]
        by_cases hee : e' = e
        · subst hee
          exact absurd (hI.prom.refUniq q p src' src e' k' v' k v h1 hdp) hqp
        · by_cases hep' : e' = p
          · subst hep'
            have := hI.prom.savPrim q src' e' k' v' h1
            rw [hdp] at this
            exact nomatch Option.some.inj this
          · rw [hPo e' hep' hee] at h2
            exact hI.prom.savRef q src' e' k' v' h1 h2
    · intro q src' e' k' v' h1 h2
      rw [hD] at h1
      by_cases hqp : q = p
      · subst hqp
        obtain ⟨o, ho⟩ := h2
        rw [hPp] at ho
        exact nomatch ho
      · have hqe : q ≠ e := hqe_of_desc h1 (fun h => nomatch h)
        rcases hI.prom.savAfter q src' e' k' v' h1 (hback q h2) with hse | hns
        · exact Or.inl (hmono _ hse)
        · by_cases hee : e' = e
          · subst hee
            exact absurd (hI.prom.refUniq q p src' src e' k' v' k v h1 hdp) hqp
          · by_cases hep' : e' = p
            · subst hep'
              have := hI.prom.savPrim q src' e' k' v' h1
              rw [hdp] at this
              exact nomatch Option.some.inj this
            · exact Or.inr (by rw [hPo e' hep' hee]; exact hns)
    · intro q src' v' w' h1 h2
      rw [hD] at h1
      have hqp : q ≠ p := hqp_of_desc h1 (fun _ _ _ _ h => nomatch h)
      have hqe : q ≠ e := hqe_of_desc h1 (fun h => nomatch h)
      rw [hPo q hqp hqe] at h2
      exact hI.prom.constOk q src' v' w' h1 h2
    · intro q src' v' h1 h2
      rw [hD] at h1
      exact hmono _ (hI.prom.constSrc q src' v' h1 (hback q h2))
    · intro p₁ p₂ s₁' s₂' e' k₁ v₁ k₂ v₂ h1 h2
      rw [hD] at h1 h2
      exact hI.prom.refUniq p₁ p₂ s₁' s₂' e' k₁ v₁ k₂ v₂ h1 h2
    · intro q src' e' k' v' h1
      rw [hD] at h1
      rw [hD]
      exact hI.prom.savPrim q src' e' k' v' h1
    · intro e' k' v' h1
      have he : s2.events = s.events := by
        rw [hs2, setPhase_events, hs1, setPhase_events]
      rw [he] at h1
      obtain ⟨q, src', h2⟩ := hI.prom.evStart e' k' v' h1
      exact ⟨q, src', by rw [hD]; exact h2⟩
  have hI2 : Inv s2 :=
    ⟨corr_setPhase (corr_setPhase hI.corr p _) e _,
      fresh_setPhase (fresh_setPhase hI.fresh p _) e _,
      valInj_setPhase (valInj_setPhase hI.vinj p _) e _,
      obsOK_setPhase (obsOK_setPhase hI.obsOK p _) e _, hP2⟩
  refine inv_events_append hI2 _ ?_
  intro e' k' v' hev
  injection hev with he1 he2 he3
  subst he1
  subst he2
  subst he3
  exact ⟨p, src, by rw [hD]; exact hdp⟩

theorem inv_fireThenSaver {s : State} (hI : Inv s) (p : Nat) :
    Inv (applyAct (Action.fireThenSaver p) s) := by
  show Inv (match lookupL s.proms p with
    | some ⟨PromDesc.thenSaver src savP k v, PromPhase.pending⟩ =>
        match phaseOf s src with
        | PromPhase.settled (Outcome.err e) => setPhase s p (PromPhase.settled (Outcome.err e))
        | PromPhase.settled (Outcome.ok _) =>
            match savP with
            | none => setPhase s p (PromPhase.settled (Outcome.ok JSVal.undef))
            | some e =>
                let s1 := setPhase s p PromPhase.started
                let s2 := setPhase s1 e PromPhase.pending
                { s2 with events := s2.events ++ [Event.saverStart e k v] }
        | _ => s
    | _ => s)
  split
  · rename_i src savP k v hL
    split
    · rename_i e he
      exact inv_fireThenSaverSettle hI hL he
    · rename_i w hw
      cases savP with
      | none => exact inv_fireThenSaverSettle hI hL hw
      | some e => exact inv_fireThenSaverStart hI hL hw
    · exact hI
  · exact hI

/-! ### Invariant preservation: allocation and the cache operations -/

theorem allocProm_lookup_old {s : State} (d : PromDesc) (ph : PromPhase) {q : Nat} {pr : Prom}
    (h : lookupL s.proms q = some pr) :
    lookupL (allocProm s d ph).2.proms q = some pr := by
  simp only [allocProm]
  rw [lookupL_append, h]

theorem allocProm_lookup_rev {s : State} (hf : Fresh s) (d : PromDesc) (ph : PromPhase)
    {q : Nat} {pr : Prom} (h : lookupL (allocProm s d ph).2.proms q = some pr) :
    (q = s.nextProm ∧ pr = ⟨d, ph⟩) ∨ lookupL s.proms q = some pr := by
  have h0 : lookupL (s.proms ++ [(s.nextProm, (⟨d, ph⟩ : Prom))]) q = some pr := h
  rw [lookupL_append] at h0
  cases h' : lookupL s.proms q with
  | some pr' =>
      rw [h'] at h0
      have h2 : some pr' = some pr := h0
      exact Or.inr h2
  | none =>
      rw [h'] at h0
      have h2 : lookupL [(s.nextProm, (⟨d, ph⟩ : Prom))] q = some pr := h0
      rw [lookupL] at h2
      by_cases he : s.nextProm = q
      · rw [if_pos he] at h2
        exact Or.inl ⟨he.symm, (Option.some.inj h2).symm⟩
      · rw [if_neg he] at h2
        exact nomatch h2

theorem fresh_allocProm {s : State} {d : PromDesc} {ph : PromPhase} (hf : Fresh s)
    (hrefs : ∀ q ∈ descRefs d, q < s.nextProm) :
    Fresh (allocProm s d ph).2 := by
  refine ⟨?_, hf.nodeDom, ?_, ?_, ?_⟩
  · intro q hq
    simp only [allocProm, List.map_append] at hq ⊢
    rcases List.mem_append.mp hq with h | h
    · exact Nat.lt_succ_of_lt (hf.promDom q h)
    · simp at h
      omega
  · intro n dn hd
    exact Nat.lt_succ_of_lt (hf.nodeVal n dn hd)
  · intro ob hob
    exact Nat.lt_succ_of_lt (hf.obsW ob hob)
  · intro q pr r hq hr
    simp only [allocProm]
    rcases allocProm_lookup_rev hf d ph hq with ⟨he, hpr⟩ | hold
    · subst hpr
      simp only at hr
      exact Nat.lt_succ_of_lt (hrefs r hr)
    · exact Nat.lt_succ_of_lt (hf.descRef q pr r hold hr)

theorem promOK_allocProm {s : State} {d : PromDesc} {ph : PromPhase}
    (hP : PromOK s) (hf : Fresh s)
    (h1 : ∀ src, d = PromDesc.catchSwallow src → ∀ o, ph ≠ PromPhase.settled o)
    (h2 : ∀ src sv k v, d = PromDesc.thenSaver src sv k v → ph = PromPhase.pending)
    (h3 : ∀ src e k v, d = PromDesc.thenSaver src (some e) k v →
        phaseOf s e = PromPhase.notStarted ∧ descOf s e = some PromDesc.prim ∧
        (∀ q pr, lookupL s.proms q = some pr → ∀ r ∈ descRefs pr.desc, r ≠ e))
    (h4 : ∀ src v, d = PromDesc.thenConst src v → ∀ o, ph ≠ PromPhase.settled o) :
    PromOK (allocProm s d ph).2 := by
  set p₀ := s.nextProm with hp₀
  set s' := (allocProm s d ph).2 with hs'
  have hDnew : descOf s' p₀ = some d := allocProm_descOf_new hf d ph
  have hPnew : phaseOf s' p₀ = ph := allocProm_phaseOf_new hf d ph
  have hDrev : ∀ {q dq}, descOf s' q = some dq →
      (q = p₀ ∧ dq = d) ∨ descOf s q = some dq := by
    intro q dq hq
    rw [descOf] at hq
    cases hLq : lookupL s'.proms q with
    | none => rw [hLq] at hq; exact nomatch hq
    | some pr =>
        rw [hLq] at hq
        rcases allocProm_lookup_rev hf d ph hLq with ⟨he, hpr⟩ | hold
        · subst hpr
          have hq2 : some d = some dq := hq
          exact Or.inl ⟨he, (Option.some.inj hq2).symm⟩
        · right
          rw [descOf, hold]
          exact hq
  have hDold : ∀ {q dq}, descOf s q = some dq → descOf s' q = some dq := by
    intro q dq hq
    rw [descOf] at hq ⊢
    cases hLq : lookupL s.proms q with
    | none => rw [hLq] at hq; exact nomatch hq
    | some pr => rw [allocProm_lookup_old d ph hLq]; rw [hLq] at hq; exact hq
  have hqlt : ∀ {q dq}, descOf s q = some dq → q < p₀ := by
    intro q dq hq
    rw [descOf] at hq
    cases hLq : lookupL s.proms q with
    | none => rw [hLq] at hq; exact nomatch hq
    | some pr => exact hf.promDom q (lookupL_mem_keys hLq)
  have hPold : ∀ {q : Nat}, q ≠ p₀ → phaseOf s' q = phaseOf s q :=
    fun hq => allocProm_phaseOf_old d ph hq
  have hSold : ∀ {q : Nat}, q ≠ p₀ → (isSettled s' q ↔ isSettled s q) := by
    intro q hq
    unfold isSettled
    rw [hPold hq]
  have hreflt : ∀ {q dq r}, descOf s q = some dq → r ∈ descRefs dq → r < p₀ := by
    intro q dq r hq hr
    rw [descOf] at hq
    cases hLq : lookupL s.proms q with
    | none => rw [hLq] at hq; exact nomatch hq
    | some pr =>
        rw [hLq] at hq
        have hpd : pr.desc = dq := Option.some.inj hq
        exact hf.descRef q pr r hLq (hpd ▸ hr)
  refine ⟨?_, ?_, ?_, ?_, ?_, ?_, ?_, ?_, ?_⟩
  · intro q src hq hset
    rcases hDrev hq with ⟨he, hd⟩ | hold
    · subst he
      subst hd
      obtain ⟨o, ho⟩ := hset
      rw [hPnew] at ho
      exact absurd ho (h1 src rfl o)
    · have hqp : q ≠ p₀ := fun h => absurd (hqlt hold) (by omega)
      have hsrcp : src ≠ p₀ := by
        intro hcon
        have hlt := hreflt hold
          (show src ∈ descRefs (PromDesc.catchSwallow src) from by simp [descRefs])
        omega
      rw [hSold hqp] at hset
      rw [hSold hsrcp]
      exact hP.catchSrc q src hold hset
  · intro q src sv k v hq hset
    rcases hDrev hq with ⟨he, hd⟩ | hold
    · subst he
      subst hd
      rcases hset with hst | hset
      · rw [hPnew, h2 src sv k v rfl] at hst
        exact nomatch hst
      · obtain ⟨o, ho⟩ := hset
        rw [hPnew, h2 src sv k v rfl] at ho
        exact nomatch ho
    · have hqp : q ≠ p₀ := fun h => absurd (hqlt hold) (by omega)
      have hsrcp : src ≠ p₀ := by
        intro hcon
        have hlt := hreflt hold
          (show src ∈ descRefs (PromDesc.thenSaver src sv k v) from by cases sv <;> simp [descRefs])
        omega
      rw [hPold hqp, hSold hqp] at hset
      rw [hSold hsrcp]
      exact hP.thenSrc q src sv k v hold hset
  · intro q src e k v hq hne
    rcases hDrev hq with ⟨he, hd⟩ | hold
    · subst he
      subst hd
      obtain ⟨hph, hdp, _⟩ := h3 src e k v rfl
      have helt : e < p₀ := hqlt hdp
      have hep : e ≠ p₀ := by omega
      exact absurd (by rw [hPold hep]; exact hph) hne
    · have hqp : q ≠ p₀ := fun h => absurd (hqlt hold) (by omega)
      have hep : e ≠ p₀ := by
        intro hcon
        have hlt := hreflt hold
          (show e ∈ descRefs (PromDesc.thenSaver src (some e) k v) from by simp [descRefs])
        omega
      rw [hPold hep] at hne
      rw [hPold hqp]
      exact hP.savRef q src e k v hold hne
  · intro q src e k v hq hset
    rcases hDrev hq with ⟨he, hd⟩ | hold
    · subst he
      subst hd
      obtain ⟨o, ho⟩ := hset
      rw [hPnew, h2 src (some e) k v rfl] at ho
      exact nomatch ho
    · have hqp : q ≠ p₀ := fun h => absurd (hqlt hold) (by omega)
      have hep : e ≠ p₀ := by
        intro hcon
        have hlt := hreflt hold
          (show e ∈ descRefs (PromDesc.thenSaver src (some e) k v) from by simp [descRefs])
        omega
      rw [hSold hqp] at hset
      rcases hP.savAfter q src e k v hold hset with hse | hns
      · exact Or.inl ((hSold hep).mpr hse)
      · exact Or.inr (by rw [hPold hep]; exact hns)
  · intro q src v w hq hph
    rcases hDrev hq with ⟨he, hd⟩ | hold
    · subst he
      subst hd
      rw [hPnew] at hph
      exact absurd hph (h4 src v rfl _)
    · have hqp : q ≠ p₀ := fun h => absurd (hqlt hold) (by omega)
      rw [hPold hqp] at hph
      exact hP.constOk q src v w hold hph
  · intro q src v hq hset
    rcases hDrev hq with ⟨he, hd⟩ | hold
    · subst he
      subst hd
      obtain ⟨o, ho⟩ := hset
      rw [hPnew] at ho
      exact absurd ho (h4 src v rfl o)
    · have hqp : q ≠ p₀ := fun h => absurd (hqlt hold) (by omega)
      have hsrcp : src ≠ p₀ := by
        intro hcon
        have hlt := hreflt hold
          (show src ∈ descRefs (PromDesc.thenConst src v) from by simp [descRefs])
        omega
      rw [hSold hqp] at hset
      rw [hSold hsrcp]
      exact hP.constSrc q src v hold hset
  · intro p₁ p₂ s₁ s₂ e k₁ v₁ k₂ v₂ hq1 hq2
    have hnoOld : ∀ {sq kq : Nat} {vq : JSVal} {sq' kq' : Nat} {vq' : JSVal},
        d = PromDesc.thenSaver sq' (some e) kq' vq' →
        ∀ pq, descOf s pq = some (PromDesc.thenSaver sq (some e) kq vq) → False := by
      intro sq kq vq sq' kq' vq' hdd pq hq
      obtain ⟨_, _, h3c⟩ := h3 sq' e kq' vq' hdd
      rw [descOf] at hq
      cases hLq : lookupL s.proms pq with
      | none => rw [hLq] at hq; exact nomatch hq
      | some pr =>
          rw [hLq] at hq
          have hpd : pr.desc = PromDesc.thenSaver sq (some e) kq vq := Option.some.inj hq
          exact h3c pq pr hLq e (by rw [hpd]; simp [descRefs]) rfl
    rcases hDrev hq1 with ⟨he1, hd1⟩ | hold1 <;> rcases hDrev hq2 with ⟨he2, hd2⟩ | hold2
    · rw [he1, he2]
    · exact (hnoOld hd1.symm p₂ hold2).elim
    · exact (hnoOld hd2.symm p₁ hold1).elim
    · exact hP.refUniq p₁ p₂ s₁ s₂ e k₁ v₁ k₂ v₂ hold1 hold2
  · intro q src e k v hq
    rcases hDrev hq with ⟨he, hd⟩ | hold
    · subst he
      subst hd
      exact hDold (h3 src e k v rfl).2.1
    · exact hDold (hP.savPrim q src e k v hold)
  · intro e k v hq
    have hev : Event.saverStart e k v ∈ s.events := hq
    obtain ⟨q, src, h2'⟩ := hP.evStart e k v hev
    exact ⟨q, src, hDold h2'⟩

theorem inv_allocProm {s : State} {d : PromDesc} {ph : PromPhase} (hI : Inv s)
    (hrefs : ∀ q ∈ descRefs d, q < s.nextProm)
    (h1 : ∀ src, d = PromDesc.catchSwallow src → ∀ o, ph ≠ PromPhase.settled o)
    (h2 : ∀ src sv k v, d = PromDesc.thenSaver src sv k v → ph = PromPhase.pending)
    (h3 : ∀ src e k v, d = PromDesc.thenSaver src (some e) k v →
        phaseOf s e = PromPhase.notStarted ∧ descOf s e = some PromDesc.prim ∧
        (∀ q pr, lookupL s.proms q = some pr → ∀ r ∈ descRefs pr.desc, r ≠ e))
    (h4 : ∀ src v, d = PromDesc.thenConst src v → ∀ o, ph ≠ PromPhase.settled o) :
    Inv (allocProm s d ph).2 :=
  ⟨hI.corr, fresh_allocProm hI.fresh hrefs, hI.vinj, hI.obsOK,
    promOK_allocProm hI.prom hI.fresh h1 h2 h3 h4⟩

theorem inv_advanceTime {s : State} (hI : Inv s) (dt : Nat) :
    Inv (applyAct (Action.advanceTime dt) s) :=
  ⟨hI.corr,
    ⟨hI.fresh.promDom, hI.fresh.nodeDom, hI.fresh.nodeVal, hI.fresh.obsW, hI.fresh.descRef⟩,
    hI.vinj, hI.obsOK, promOK_transfer hI.prom rfl rfl⟩

theorem inv_invalidate {s : State} (hI : Inv s) (k : Nat) :
    Inv (doInvalidate s k) := by
  rw [doInvalidate]
  cases hk : lookupL s.dataMap k with
  | none => exact hI
  | some nid => exact inv_remove hI hk

theorem care_absent {s : State} {k nid : Nat} (h : lookupL s.ll.nodes nid = none) :
    checkAndRemoveExpired s k nid = (false, s) := by
  rw [checkAndRemoveExpired, h]

theorem care_expired {s : State} {k nid : Nat} {d : NodeData}
    (h : lookupL s.ll.nodes nid = some d) (hx : isExpiredN s.now d = true) :
    checkAndRemoveExpired s k nid
      = (true, { s with dataMap := delL s.dataMap k, ll := removeN s.ll nid }) := by
  rw [checkAndRemoveExpired, h]
  simp [hx]

theorem care_live {s : State} {k nid : Nat} {d : NodeData}
    (h : lookupL s.ll.nodes nid = some d) (hx : isExpiredN s.now d = false) :
    checkAndRemoveExpired s k nid = (false, s) := by
  rw [checkAndRemoveExpired, h]
  simp [hx]

theorem inv_care {s : State} (hI : Inv s) {k nid : Nat}
    (hk : lookupL s.dataMap k = some nid) :
    Inv (checkAndRemoveExpired s k nid).2 := by
  cases hd : lookupL s.ll.nodes nid with
  | none => rw [care_absent hd]; exact hI
  | some d =>
      cases hx : isExpiredN s.now d with
      | true => rw [care_expired hd hx]; exact inv_remove hI hk
      | false => rw [care_live hd hx]; exact hI

theorem doHas_snd (s : State) (k : Nat) :
    (doHas s k).2 = match lookupL s.dataMap k with
      | none => s
      | some nid => (checkAndRemoveExpired s k nid).2 := by
  rw [doHas]
  cases hk : lookupL s.dataMap k with
  | none => rfl
  | some nid =>
      show (if (checkAndRemoveExpired s k nid).1 then
          ((false : Bool), (checkAndRemoveExpired s k nid).2)
        else ((true : Bool), (checkAndRemoveExpired s k nid).2)).2
        = (checkAndRemoveExpired s k nid).2
      by_cases hr : (checkAndRemoveExpired s k nid).1 <;> simp [hr]

theorem inv_doHas {s : State} (hI : Inv s) (k : Nat) : Inv (doHas s k).2 := by
  rw [doHas_snd]
  cases hk : lookupL s.dataMap k with
  | none => exact hI
  | some nid => exact inv_care hI hk

theorem inv_removeKeys {s : State} (hI : Inv s) (ks : List Nat) :
    Inv (removeKeys ks s) := by
  induction ks generalizing s with
  | nil => exact hI
  | cons kk kt ih =>
      rw [removeKeys]
      cases hk : lookupL s.dataMap kk with
      | none => exact ih hI
      | some nid => exact ih (inv_remove hI hk)

theorem inv_doCleanup {s : State} (hI : Inv s) : Inv (doCleanup s) :=
  inv_removeKeys hI _

theorem lookup_append_single_rev {β : Type} {l : List (Nat × β)} {n₀ : Nat} {b : β}
    {n : Nat} {v : β} (h : lookupL (l ++ [(n₀, b)]) n = some v) :
    (n = n₀ ∧ v = b) ∨ lookupL l n = some v := by
  rw [lookupL_append] at h
  cases h' : lookupL l n with
  | some v' =>
      rw [h'] at h
      have h2 : some v' = some v := h
      exact Or.inr h2
  | none =>
      rw [h'] at h
      have h2 : lookupL [(n₀, b)] n = some v := h
      rw [lookupL] at h2
      by_cases he : n₀ = n
      · rw [if_pos he] at h2
        exact Or.inl ⟨he.symm, (Option.some.inj h2).symm⟩
      · rw [if_neg he] at h2
        exact nomatch h2

theorem evictTail_extras (s : State) (t : Nat) :
    (evictTail s t).nextProm = s.nextProm ∧ (evictTail s t).nextNode = s.nextNode ∧
    (evictTail s t).observers = s.observers ∧ (evictTail s t).events = s.events ∧
    (evictTail s t).proms = s.proms ∧ (evictTail s t).capacity = s.capacity ∧
    (evictTail s t).now = s.now ∧ (evictTail s t).defaultTtlMs = s.defaultTtlMs ∧
    (evictTail s t).hasTimer = s.hasTimer := by
  rw [evictTail]
  cases hdt : lookupL s.ll.nodes t with
  | none => exact ⟨rfl, rfl, rfl, rfl, rfl, rfl, rfl, rfl, rfl⟩
  | some d =>
      show (evictTailGo s t d).nextProm = s.nextProm ∧ (evictTailGo s t d).nextNode = s.nextNode ∧
        (evictTailGo s t d).observers = s.observers ∧ (evictTailGo s t d).events = s.events ∧
        (evictTailGo s t d).proms = s.proms ∧ (evictTailGo s t d).capacity = s.capacity ∧
        (evictTailGo s t d).now = s.now ∧ (evictTailGo s t d).defaultTtlMs = s.defaultTtlMs ∧
        (evictTailGo s t d).hasTimer = s.hasTimer
      rw [evictTailGo]
      cases d.key <;> exact ⟨rfl, rfl, rfl, rfl, rfl, rfl, rfl, rfl, rfl⟩

theorem evictIfNeeded_extras (s : State) :
    (evictIfNeeded s).nextProm = s.nextProm ∧ (evictIfNeeded s).nextNode = s.nextNode ∧
    (evictIfNeeded s).observers = s.observers ∧ (evictIfNeeded s).events = s.events ∧
    (evictIfNeeded s).proms = s.proms ∧ (evictIfNeeded s).capacity = s.capacity ∧
    (evictIfNeeded s).now = s.now ∧ (evictIfNeeded s).defaultTtlMs = s.defaultTtlMs ∧
    (evictIfNeeded s).hasTimer = s.hasTimer := by
  rw [evictIfNeeded]
  split
  · cases htl : s.ll.tail with
    | none => exact ⟨rfl, rfl, rfl, rfl, rfl, rfl, rfl, rfl, rfl⟩
    | some t => exact evictTail_extras s t
  · exact ⟨rfl, rfl, rfl, rfl, rfl, rfl, rfl, rfl, rfl⟩

theorem evictTail_core (s : State) (t : Nat) :
    sameCore (evictTail s t).ll.nodes s.ll.nodes := by
  rw [evictTail]
  cases hdt : lookupL s.ll.nodes t with
  | none => exact sameCore_refl _
  | some d =>
      show sameCore (evictTailGo s t d).ll.nodes s.ll.nodes
      rw [evictTailGo]
      cases d.key <;> exact removeN_core _ _

theorem evictIfNeeded_core (s : State) :
    sameCore (evictIfNeeded s).ll.nodes s.ll.nodes := by
  rw [evictIfNeeded]
  split
  · cases htl : s.ll.tail with
    | none => exact sameCore_refl _
    | some t => exact evictTail_core s t
  · exact sameCore_refl _

theorem inv_obs_append {s : State} (hI : Inv s) (ob : Obs)
    (hw : ob.watched < s.nextProm)
    (hsave : ob.kind = ObsKind.save →
      ∀ n d, lookupL s.ll.nodes n = some d → d.value = ob.watched → n = ob.nid) :
    Inv { s with observers := s.observers ++ [ob] } := by
  refine ⟨hI.corr, ⟨hI.fresh.promDom, hI.fresh.nodeDom, hI.fresh.nodeVal, ?_, hI.fresh.descRef⟩,
    hI.vinj, ?_, promOK_transfer hI.prom rfl rfl⟩
  · intro ob' hob'
    have hob2 : ob' ∈ s.observers ++ [ob] := hob'
    rcases List.mem_append.mp hob2 with h | h
    · exact hI.fresh.obsW ob' h
    · simp only [List.mem_singleton] at h
      subst h
      exact hw
  · intro ob' hob' hk n d hd hval
    have hob2 : ob' ∈ s.observers ++ [ob] := hob'
    rcases List.mem_append.mp hob2 with h | h
    · exact hI.obsOK ob' h hk n d hd hval
    · simp only [List.mem_singleton] at h
      subst h
      exact hsave hk n d hd hval

/-! ### Invariant preservation: `clear` and `destroy` -/

theorem clearWalk_zero (cur : Option Nat) (s : State) : clearWalk 0 cur s = s := by
  cases cur <;> rfl

theorem clearWalk_none (fuel : Nat) (s : State) : clearWalk fuel none s = s := by
  cases fuel <;> rfl

theorem clearWalk_stuck {s : State} {n : Nat} (fuel : Nat)
    (hd : lookupL s.ll.nodes n = none) : clearWalk (fuel + 1) (some n) s = s := by
  show (match lookupL s.ll.nodes n with
    | none => s
    | some d => clearWalk fuel d.next (clearStep s n)) = s
  rw [hd]

theorem clearWalk_some {s : State} {n : Nat} {d : NodeData} (fuel : Nat)
    (hd : lookupL s.ll.nodes n = some d) :
    clearWalk (fuel + 1) (some n) s = clearWalk fuel d.next (clearStep s n) := by
  show (match lookupL s.ll.nodes n with
    | none => s
    | some d => clearWalk fuel d.next (clearStep s n)) = _
  rw [hd]

theorem clearStep_frame (s : State) (n : Nat) :
    (clearStep s n).dataMap = s.dataMap ∧ (clearStep s n).capacity = s.capacity ∧
    (clearStep s n).observers = s.observers ∧ (clearStep s n).events = s.events ∧
    (clearStep s n).hasTimer = s.hasTimer ∧ (clearStep s n).now = s.now :=
  ⟨rfl, rfl, rfl, rfl, rfl, rfl⟩

theorem clearWalk_frame (fuel : Nat) : ∀ (cur : Option Nat) (s : State),
    (clearWalk fuel cur s).dataMap = s.dataMap ∧
    (clearWalk fuel cur s).capacity = s.capacity ∧
    (clearWalk fuel cur s).observers = s.observers ∧
    (clearWalk fuel cur s).events = s.events ∧
    (clearWalk fuel cur s).hasTimer = s.hasTimer ∧
    (clearWalk fuel cur s).now = s.now := by
  induction fuel with
  | zero => intro cur s; rw [clearWalk_zero]; exact ⟨rfl, rfl, rfl, rfl, rfl, rfl⟩
  | succ fuel ih =>
      intro cur s
      cases cur with
      | none => rw [clearWalk_none]; exact ⟨rfl, rfl, rfl, rfl, rfl, rfl⟩
      | some n =>
          cases hd : lookupL s.ll.nodes n with
          | none => rw [clearWalk_stuck fuel hd]; exact ⟨rfl, rfl, rfl, rfl, rfl, rfl⟩
          | some d =>
              rw [clearWalk_some fuel hd]
              obtain ⟨h1, h2, h3, h4, h5, h6⟩ := ih d.next (clearStep s n)
              exact ⟨h1, h2, h3, h4, h5, h6⟩

theorem clearStep_inv {s : State} {n : Nat} {d : NodeData}
    (hF : Fresh s) (hV : ValInj s) (hO : ObsOK s) (hP : PromOK s)
    (hd : lookupL s.ll.nodes n = some d) :
    Fresh (clearStep s n) ∧ ValInj (clearStep s n) ∧
    ObsOK (clearStep s n) ∧ PromOK (clearStep s n) := by
  have hFA : Fresh (allocProm s (PromDesc.pureP (Outcome.ok JSVal.undef))
      (PromPhase.settled (Outcome.ok JSVal.undef))).2 :=
    fresh_allocProm hF (by simp [descRefs])
  have hmem : n ∈ s.ll.nodes.map Prod.fst := lookupL_mem_keys hd
  have hlook : ∀ {m dm}, lookupL (clearStep s n).ll.nodes m = some dm →
      (m = n ∧ dm = (⟨none, s.nextProm, none, none, none⟩ : NodeData)) ∨
      (m ≠ n ∧ lookupL s.ll.nodes m = some dm) := by
    intro m dm hm
    have hm2 : lookupL (setL s.ll.nodes n (⟨none, s.nextProm, none, none, none⟩ : NodeData)) m
        = some dm := hm
    by_cases he : m = n
    · subst he
      rw [lookupL_setL_self] at hm2
      exact Or.inl ⟨rfl, (Option.some.inj hm2).symm⟩
    · rw [lookupL_setL_ne _ _ he] at hm2
      exact Or.inr ⟨he, hm2⟩
  refine ⟨?_, ?_, ?_, ?_⟩
  · refine ⟨hFA.promDom, ?_, ?_, ?_, hFA.descRef⟩
    · intro m hm
      have hm2 : m ∈ (setL s.ll.nodes n
          (⟨none, s.nextProm, none, none, none⟩ : NodeData)).map Prod.fst := hm
      rw [keys_setL, if_pos hmem] at hm2
      exact hF.nodeDom m hm2
    · intro m dm hm
      rcases hlook hm with ⟨_, rfl⟩ | ⟨_, hold⟩
      · show s.nextProm < s.nextProm + 1
        omega
      · have := hF.nodeVal m dm hold
        show dm.value < s.nextProm + 1
        omega
    · intro ob hob
      have : ob.watched < s.nextProm := hF.obsW ob hob
      show ob.watched < s.nextProm + 1
      omega
  · intro n₁ d₁ n₂ d₂ h₁ h₂ hval
    rcases hlook h₁ with ⟨he₁, rfl⟩ | ⟨hne₁, hold₁⟩ <;>
      rcases hlook h₂ with ⟨he₂, rfl⟩ | ⟨hne₂, hold₂⟩
    · rw [he₁, he₂]
    · exfalso
      have := hF.nodeVal n₂ d₂ hold₂
      simp only at hval
      omega
    · exfalso
      have := hF.nodeVal n₁ d₁ hold₁
      simp only at hval
      omega
    · exact hV n₁ d₁ n₂ d₂ hold₁ hold₂ hval
  · intro ob hob hk m dm hm hval
    have hob2 : ob ∈ s.observers := hob
    have hwlt : ob.watched < s.nextProm := hF.obsW ob hob2
    rcases hlook hm with ⟨_, rfl⟩ | ⟨_, hold⟩
    · exfalso
      simp only at hval
      omega
    · exact hO ob hob2 hk m dm hold hval
  · refine promOK_transfer (promOK_allocProm hP hF ?_ ?_ ?_ ?_) rfl rfl
    · intro src h
      exact nomatch h
    · intro src sv k v h
      exact nomatch h
    · intro src e k v h
      exact nomatch h
    · intro src v h
      exact nomatch h

theorem clearWalk_inv (fuel : Nat) : ∀ (cur : Option Nat) (s : State),
    Fresh s → ValInj s → ObsOK s → PromOK s →
    Fresh (clearWalk fuel cur s) ∧ ValInj (clearWalk fuel cur s) ∧
    ObsOK (clearWalk fuel cur s) ∧ PromOK (clearWalk fuel cur s) := by
  induction fuel with
  | zero => intro cur s hF hV hO hP; rw [clearWalk_zero]; exact ⟨hF, hV, hO, hP⟩
  | succ fuel ih =>
      intro cur s hF hV hO hP
      cases cur with
      | none => rw [clearWalk_none]; exact ⟨hF, hV, hO, hP⟩
      | some n =>
          cases hd : lookupL s.ll.nodes n with
          | none => rw [clearWalk_stuck fuel hd]; exact ⟨hF, hV, hO, hP⟩
          | some d =>
              rw [clearWalk_some fuel hd]
              obtain ⟨hF', hV', hO', hP'⟩ := clearStep_inv hF hV hO hP hd
              exact ih d.next (clearStep s n) hF' hV' hO' hP'

theorem inv_doClear {s : State} (hI : Inv s) : Inv (doClear s) := by
  have hF1 : Fresh { s with dataMap := ([] : List (Nat × Nat)) } :=
    ⟨hI.fresh.promDom, hI.fresh.nodeDom, hI.fresh.nodeVal, hI.fresh.obsW, hI.fresh.descRef⟩
  have hV1 : ValInj { s with dataMap := ([] : List (Nat × Nat)) } := hI.vinj
  have hO1 : ObsOK { s with dataMap := ([] : List (Nat × Nat)) } := hI.obsOK
  have hP1 : PromOK { s with dataMap := ([] : List (Nat × Nat)) } :=
    promOK_transfer hI.prom rfl rfl
  set s1 := { s with dataMap := ([] : List (Nat × Nat)) } with hs1
  set s2 := clearWalk s1.nextNode s1.ll.head s1 with hs2
  obtain ⟨hF2, hV2, hO2, hP2⟩ := clearWalk_inv s1.nextNode s1.ll.head s1 hF1 hV1 hO1 hP1
  have hdm : s2.dataMap = ([] : List (Nat × Nat)) :=
    (clearWalk_frame s1.nextNode s1.ll.head s1).1
  show Inv { s2 with ll := { s2.ll with head := none, tail := none } }
  refine ⟨⟨[], ?_, ?_, ?_, ?_⟩, ?_, hV2, hO2, promOK_transfer hP2 rfl rfl⟩
  · exact ⟨trivial, rfl, rfl, List.nodup_nil⟩
  · show (s2.dataMap.map Prod.fst).Nodup
    rw [hdm]
    exact List.nodup_nil
  · intro k nid h
    have h2 : lookupL s2.dataMap k = some nid := h
    rw [hdm] at h2
    exact nomatch h2
  · intro nid h
    exact absurd h (List.not_mem_nil nid)
  · exact ⟨hF2.promDom, hF2.nodeDom, hF2.nodeVal, hF2.obsW, hF2.descRef⟩

theorem inv_doDestroy {s : State} (hI : Inv s) : Inv (doDestroy s) := by
  rw [doDestroy]
  apply inv_doClear
  exact ⟨hI.corr,
    ⟨hI.fresh.promDom, hI.fresh.nodeDom, hI.fresh.nodeVal, hI.fresh.obsW, hI.fresh.descRef⟩,
    hI.vinj, hI.obsOK, promOK_transfer hI.prom rfl rfl⟩

theorem inv_timerTick {s : State} (hI : Inv s) : Inv (applyAct Action.timerTick s) := by
  show Inv (if s.hasTimer then doCleanup s else s)
  by_cases h : s.hasTimer
  · rw [if_pos h]; exact inv_doCleanup hI
  · rw [if_neg h]; exact hI

/-- The shared insert-then-evict step of `get`'s miss path and `put`'s
create path: append a fresh node holding a fresh promise, bind the key,
push to head, evict if over capacity. -/
theorem inv_insertStep {s : State} (hI : Inv s) {k vp : Nat} {exp : Option Nat}
    (hk : lookupL s.dataMap k = none)
    (hvp : ∀ n d, lookupL s.ll.nodes n = some d → d.value < vp)
    (hvplt : vp < s.nextProm)
    (hobsw : ∀ ob ∈ s.observers, ob.watched < vp) :
    Inv { s with
        dataMap := setL s.dataMap k s.nextNode
        ll := addH { s.ll with
          nodes := s.ll.nodes ++ [(s.nextNode, ⟨some k, vp, exp, none, none⟩)] } s.nextNode
        nextNode := s.nextNode + 1 } ∧
    Inv (evictIfNeeded
      { s with
        dataMap := setL s.dataMap k s.nextNode
        ll := addH { s.ll with
          nodes := s.ll.nodes ++ [(s.nextNode, ⟨some k, vp, exp, none, none⟩)] } s.nextNode
        nextNode := s.nextNode + 1 }) := by
  set nid := s.nextNode with hnid
  set dn : NodeData := ⟨some k, vp, exp, none, none⟩ with hdn
  have hnidfresh : lookupL s.ll.nodes nid = none := by
    apply lookupL_eq_none_of_not_mem
    intro hmem
    exact absurd (hI.fresh.nodeDom nid hmem) (by omega)
  obtain ⟨l, hc⟩ := hI.corr
  set llExt : LL := { s.ll with nodes := s.ll.nodes ++ [(nid, dn)] } with hllExt
  have hcore := addH_core llExt nid
  have hlook : ∀ {n d}, lookupL (addH llExt nid).nodes n = some d →
      (n = nid ∧ coreOf d = coreOf dn) ∨
      (∃ d₀, lookupL s.ll.nodes n = some d₀ ∧ coreOf d = coreOf d₀) := by
    intro n d hd
    obtain ⟨d₁, hd₁, hc₁⟩ := sameCore_lookup_rev hcore hd
    rcases lookup_append_single_rev hd₁ with ⟨he, hde⟩ | hold
    · exact Or.inl ⟨he, by rw [hc₁, hde]⟩
    · exact Or.inr ⟨d₁, hold, hc₁⟩
  have hMid : Inv { s with
      dataMap := setL s.dataMap k s.nextNode
      ll := addH { s.ll with
        nodes := s.ll.nodes ++ [(s.nextNode, ⟨some k, vp, exp, none, none⟩)] } s.nextNode
      nextNode := s.nextNode + 1 } := ?_
  refine ⟨hMid, inv_evict hMid⟩
  refine ⟨?_, ?_, ?_, ?_, promOK_transfer hI.prom rfl rfl⟩
  · exact ⟨nid :: l, corr_insert hc hk hnidfresh rfl⟩
  · refine ⟨hI.fresh.promDom, ?_, ?_, hI.fresh.obsW, hI.fresh.descRef⟩
    · intro n hn
      have hn2 : n ∈ (addH llExt nid).nodes.map Prod.fst := hn
      rw [addH_keys] at hn2
      have hn3 : n ∈ s.ll.nodes.map Prod.fst ++ [nid] := by
        simpa [hllExt] using hn2
      rcases List.mem_append.mp hn3 with h | h
      · have := hI.fresh.nodeDom n h
        show n < nid + 1
        omega
      · simp only [List.mem_singleton] at h
        show n < nid + 1
        omega
    · intro n d hd
      rcases hlook hd with ⟨_, hcd⟩ | ⟨d₀, hd₀, hcd⟩
      · rw [value_eq_of_core hcd]
        exact hvplt
      · rw [value_eq_of_core hcd]
        exact hI.fresh.nodeVal n d₀ hd₀
  · intro n₁ d₁ n₂ d₂ h₁ h₂ hval
    rcases hlook h₁ with ⟨he₁, hc₁⟩ | ⟨e₁, he₁, hc₁⟩ <;>
      rcases hlook h₂ with ⟨he₂, hc₂⟩ | ⟨e₂, he₂, hc₂⟩
    · rw [he₁, he₂]
    · exfalso
      have hv₁ : d₁.value = vp := value_eq_of_core hc₁
      have hv₂ : d₂.value = e₂.value := value_eq_of_core hc₂
      have := hvp n₂ e₂ he₂
      omega
    · exfalso
      have hv₂ : d₂.value = vp := value_eq_of_core hc₂
      have hv₁ : d₁.value = e₁.value := value_eq_of_core hc₁
      have := hvp n₁ e₁ he₁
      omega
    · refine hI.vinj n₁ e₁ n₂ e₂ he₁ he₂ ?_
      rw [← value_eq_of_core hc₁, ← value_eq_of_core hc₂]
      exact hval
  · intro ob hob hkind n d hd hval
    have hob2 : ob ∈ s.observers := hob
    have hwlt := hobsw ob hob2
    rcases hlook hd with ⟨he, hcd⟩ | ⟨d₀, hd₀, hcd⟩
    · exfalso
      have : d.value = vp := value_eq_of_core hcd
      omega
    · refine hI.obsOK ob hob2 hkind n d₀ hd₀ ?_
      rw [← value_eq_of_core hcd]
      exact hval

/-! ### Invariant preservation: `get` -/

theorem getMiss_props {s : State} (hI : Inv s) {k : Nat} (ttl : Option Nat)
    (hk : lookupL s.dataMap k = none) :
    Inv (getMiss s k ttl).2 ∧
    (getMiss s k ttl).2.capacity = s.capacity ∧
    (SizeLe s → SizeLe (getMiss s k ttl).2) := by
  have h1 : Inv (allocProm s PromDesc.prim PromPhase.pending).2 :=
    inv_allocProm hI (by simp [descRefs]) (fun _ h => nomatch h) (fun _ _ _ _ h => nomatch h)
      (fun _ _ _ _ h => nomatch h) (fun _ _ h => nomatch h)
  set sB : State := { (allocProm s PromDesc.prim PromPhase.pending).2 with
    events := (allocProm s PromDesc.prim PromPhase.pending).2.events
      ++ [Event.loaderCall k s.nextProm] } with hsB
  have h2 : Inv sB :=
    inv_events_append h1 (Event.loaderCall k s.nextProm) (fun _ _ _ h => nomatch h)
  have hk' : lookupL sB.dataMap k = none := hk
  have hvp : ∀ n d, lookupL sB.ll.nodes n = some d → d.value < s.nextProm := by
    intro n d hd
    exact hI.fresh.nodeVal n d hd
  have hvplt : s.nextProm < sB.nextProm := Nat.lt_succ_self s.nextProm
  have hobsw : ∀ ob ∈ sB.observers, ob.watched < s.nextProm := by
    intro ob hob
    exact hI.fresh.obsW ob hob
  set sMid : State := { sB with
      dataMap := setL sB.dataMap k sB.nextNode
      ll := addH { sB.ll with nodes := sB.ll.nodes ++
        [(sB.nextNode, (⟨some k, s.nextProm, expiryOf sB.now (effTtl sB ttl), none, none⟩ : NodeData))] } sB.nextNode
      nextNode := sB.nextNode + 1 } with hsMid
  have hins : Inv sMid ∧ Inv (evictIfNeeded sMid) := inv_insertStep h2 hk' hvp hvplt hobsw
  have hw : s.nextProm < (evictIfNeeded sMid).nextProm := by
    rw [(evictIfNeeded_extras sMid).1]
    exact Nat.lt_succ_self s.nextProm
  have hnotmem : k ∉ sB.dataMap.map Prod.fst := by
    intro hm
    obtain ⟨w, hw'⟩ := lookup_isSome_of_mem_keys hm
    have hw2 : lookupL s.dataMap k = some w := hw'
    rw [hk] at hw2
    exact nomatch hw2
  have hlen : sMid.dataMap.length = s.dataMap.length + 1 := by
    show (setL sB.dataMap k sB.nextNode).length = s.dataMap.length + 1
    exact length_setL_of_not_mem _ hnotmem
  have hcapMid : sMid.capacity = s.capacity := rfl
  refine ⟨?_, ?_, ?_⟩
  · exact inv_obs_append hins.2 ⟨ObsKind.load, s.nextProm, k, sB.nextNode, false⟩ hw
      (fun h => nomatch h)
  · show (evictIfNeeded sMid).capacity = s.capacity
    rw [(evictIfNeeded_extras sMid).2.2.2.2.2.1]
    exact hcapMid
  · intro hS
    show (evictIfNeeded sMid).dataMap.length ≤ (evictIfNeeded sMid).capacity
    rw [(evictIfNeeded_extras sMid).2.2.2.2.2.1, hcapMid]
    by_cases hover : sMid.dataMap.length > sMid.capacity
    · have h1 := length_evict_of_over hins.1 hover
      have hS' : s.dataMap.length ≤ s.capacity := hS
      omega
    · rw [evict_of_le hover]
      omega

theorem inv_getMiss {s : State} (hI : Inv s) {k : Nat} (ttl : Option Nat)
    (hk : lookupL s.dataMap k = none) : Inv (getMiss s k ttl).2 :=
  (getMiss_props hI ttl hk).1

theorem inv_doGet {s : State} (hI : Inv s) (k : Nat) (ttl : Option Nat) :
    Inv (doGet s k ttl).2 := by
  cases hk : lookupL s.dataMap k with
  | none =>
      rw [doGet, hk]
      exact inv_getMiss hI ttl hk
  | some nid =>
      rw [doGet, hk]
      show Inv (if (checkAndRemoveExpired s k nid).1
        then getMiss (checkAndRemoveExpired s k nid).2 k ttl
        else match lookupL (checkAndRemoveExpired s k nid).2.ll.nodes nid with
          | some d => (d.value, { (checkAndRemoveExpired s k nid).2 with
              ll := moveH (checkAndRemoveExpired s k nid).2.ll nid })
          | none => (0, (checkAndRemoveExpired s k nid).2)).2
      cases hd : lookupL s.ll.nodes nid with
      | none =>
          rw [care_absent hd]
          show Inv (match lookupL s.ll.nodes nid with
            | some d => (d.value, { s with ll := moveH s.ll nid })
            | none => (0, s)).2
          rw [hd]
          exact hI
      | some d =>
          cases hx : isExpiredN s.now d with
          | true =>
              rw [care_expired hd hx]
              show Inv (getMiss { s with dataMap := delL s.dataMap k, ll := removeN s.ll nid } k ttl).2
              obtain ⟨l, hc⟩ := hI.corr
              exact inv_getMiss (inv_remove hI hk) ttl (lookupL_delL_self hc.keysND)
          | false =>
              rw [care_live hd hx]
              show Inv (match lookupL s.ll.nodes nid with
                | some d => (d.value, { s with ll := moveH s.ll nid })
                | none => (0, s)).2
              rw [hd]
              show Inv { s with ll := moveH s.ll nid }
              obtain ⟨l, hc⟩ := hI.corr
              have hmem : nid ∈ l := (hc.m2l k nid hk).1
              exact ⟨⟨nid :: l.erase nid, corr_touch hc hmem⟩,
                fresh_mk hI.fresh _ (moveH_core s.ll nid) (moveH_keys s.ll nid),
                valInj_mk hI.vinj _ (moveH_core s.ll nid),
                obsOK_mk hI.obsOK _ (moveH_core s.ll nid),
                promOK_transfer hI.prom rfl rfl⟩

theorem doGet_props {s : State} (hI : Inv s) (k : Nat) (ttl : Option Nat) :
    (doGet s k ttl).2.capacity = s.capacity ∧
    (SizeLe s → SizeLe (doGet s k ttl).2) := by
  cases hk : lookupL s.dataMap k with
  | none =>
      rw [doGet, hk]
      have h := getMiss_props hI ttl hk
      exact ⟨h.2.1, fun hS => h.2.2 hS⟩
  | some nid =>
      rw [doGet, hk]
      show ((if (checkAndRemoveExpired s k nid).1
        then getMiss (checkAndRemoveExpired s k nid).2 k ttl
        else match lookupL (checkAndRemoveExpired s k nid).2.ll.nodes nid with
          | some d => (d.value, { (checkAndRemoveExpired s k nid).2 with
              ll := moveH (checkAndRemoveExpired s k nid).2.ll nid })
          | none => (0, (checkAndRemoveExpired s k nid).2)).2.capacity = s.capacity) ∧
        (SizeLe s → SizeLe (if (checkAndRemoveExpired s k nid).1
        then getMiss (checkAndRemoveExpired s k nid).2 k ttl
        else match lookupL (checkAndRemoveExpired s k nid).2.ll.nodes nid with
          | some d => (d.value, { (checkAndRemoveExpired s k nid).2 with
              ll := moveH (checkAndRemoveExpired s k nid).2.ll nid })
          | none => (0, (checkAndRemoveExpired s k nid).2)).2)
      cases hd : lookupL s.ll.nodes nid with
      | none =>
          rw [care_absent hd]
          show ((match lookupL s.ll.nodes nid with
            | some d => (d.value, { s with ll := moveH s.ll nid })
            | none => (0, s)).2.capacity = s.capacity) ∧
            (SizeLe s → SizeLe (match lookupL s.ll.nodes nid with
            | some d => (d.value, { s with ll := moveH s.ll nid })
            | none => (0, s)).2)
          rw [hd]
          exact ⟨rfl, fun hS => hS⟩
      | some d =>
          cases hx : isExpiredN s.now d with
          | true =>
              rw [care_expired hd hx]
              obtain ⟨l, hc⟩ := hI.corr
              have h := getMiss_props (inv_remove hI hk) ttl (lookupL_delL_self hc.keysND)
              refine ⟨h.2.1, ?_⟩
              intro hS
              apply h.2.2
              show (delL s.dataMap k).length ≤ s.capacity
              exact Nat.le_trans (length_delL_le s.dataMap k) hS
          | false =>
              rw [care_live hd hx]
              show ((match lookupL s.ll.nodes nid with
                | some d => (d.value, { s with ll := moveH s.ll nid })
                | none => (0, s)).2.capacity = s.capacity) ∧
                (SizeLe s → SizeLe (match lookupL s.ll.nodes nid with
                | some d => (d.value, { s with ll := moveH s.ll nid })
                | none => (0, s)).2)
              rw [hd]
              exact ⟨rfl, fun hS => hS⟩

/-! ### Invariant preservation: `put` -/

theorem putChain_frame (s0 : State) (lastP : Nat) (ws : Bool) (k : Nat) (v : JSVal) :
    (putChain s0 lastP ws k v).2.dataMap = s0.dataMap ∧
    (putChain s0 lastP ws k v).2.ll = s0.ll ∧
    (putChain s0 lastP ws k v).2.observers = s0.observers ∧
    (putChain s0 lastP ws k v).2.events = s0.events ∧
    (putChain s0 lastP ws k v).2.now = s0.now ∧
    (putChain s0 lastP ws k v).2.capacity = s0.capacity ∧
    (putChain s0 lastP ws k v).2.nextNode = s0.nextNode ∧
    (putChain s0 lastP ws k v).2.hasTimer = s0.hasTimer ∧
    (putChain s0 lastP ws k v).2.defaultTtlMs = s0.defaultTtlMs := by
  cases ws <;> exact ⟨rfl, rfl, rfl, rfl, rfl, rfl, rfl, rfl, rfl⟩

theorem putChain_sp_eq (s0 : State) (lastP : Nat) (ws : Bool) (k : Nat) (v : JSVal) :
    (putChain s0 lastP ws k v).1.2.2.2 = s0.nextProm + (if ws then 3 else 2) := by
  cases ws <;> rfl

theorem putChain_nextProm (s0 : State) (lastP : Nat) (ws : Bool) (k : Nat) (v : JSVal) :
    (putChain s0 lastP ws k v).2.nextProm = s0.nextProm + (if ws then 4 else 3) := by
  cases ws <;> rfl

theorem inv_putChain {s0 : State} (hI : Inv s0) {lastP : Nat} (hlt : lastP < s0.nextProm)
    (ws : Bool) (k : Nat) (v : JSVal) :
    Inv (putChain s0 lastP ws k v).2 := by
  have hI1 : Inv (allocProm s0 (PromDesc.catchSwallow lastP) PromPhase.pending).2 :=
    inv_allocProm hI (by simp [descRefs]; omega)
      (fun _ _ o h => nomatch h) (fun _ _ _ _ h => nomatch h)
      (fun _ _ _ _ h => nomatch h) (fun _ _ h => nomatch h)
  cases ws with
  | false =>
      have hI3 : Inv (allocProm (allocProm s0 (PromDesc.catchSwallow lastP) PromPhase.pending).2
          (PromDesc.thenSaver s0.nextProm none k v) PromPhase.pending).2 := by
        refine inv_allocProm hI1 ?_
          (fun _ h => nomatch h) (fun _ _ _ _ _ => rfl)
          (fun src e k' v' hh => nomatch (PromDesc.thenSaver.inj hh).2.1)
          (fun _ _ h => nomatch h)
        intro q hq
        simp [descRefs] at hq
        subst hq
        exact Nat.lt_succ_self _
      refine inv_allocProm hI3 ?_
        (fun _ h => nomatch h) (fun _ _ _ _ h => nomatch h)
        (fun _ _ _ _ h => nomatch h) (fun _ _ hh o h => nomatch h)
      intro q hq
      simp [descRefs] at hq
      subst hq
      exact Nat.lt_succ_self _
  | true =>
      set s1 := (allocProm s0 (PromDesc.catchSwallow lastP) PromPhase.pending).2 with hs1
      have hn1 : s1.nextProm = s0.nextProm + 1 := rfl
      have hI2 : Inv (allocProm s1 PromDesc.prim PromPhase.notStarted).2 :=
        inv_allocProm hI1 (by simp [descRefs])
          (fun _ h => nomatch h) (fun _ _ _ _ h => nomatch h)
          (fun _ _ _ _ h => nomatch h) (fun _ _ h => nomatch h)
      set s2 := (allocProm s1 PromDesc.prim PromPhase.notStarted).2 with hs2
      have hn2 : s2.nextProm = s1.nextProm + 1 := rfl
      have hI3 : Inv (allocProm s2
          (PromDesc.thenSaver s0.nextProm (some s1.nextProm) k v) PromPhase.pending).2 := by
        refine inv_allocProm hI2 ?_ (fun _ h => nomatch h) (fun _ _ _ _ _ => rfl) ?_
          (fun _ _ h => nomatch h)
        · intro q hq
          simp [descRefs] at hq
          rcases hq with rfl | rfl
          · omega
          · omega
        · intro src e k' v' hh
          obtain ⟨_, hsv, _, _⟩ := PromDesc.thenSaver.inj hh
          have he : e = s1.nextProm := (Option.some.inj hsv).symm
          subst he
          refine ⟨allocProm_phaseOf_new hI1.fresh _ _, allocProm_descOf_new hI1.fresh _ _, ?_⟩
          intro q pr hq r hr
          rcases allocProm_lookup_rev hI1.fresh _ _ hq with ⟨_, rfl⟩ | hold
          · exact absurd hr (by simp [descRefs])
          · have := hI1.fresh.descRef q pr r hold hr
            omega
      refine inv_allocProm hI3 ?_
        (fun _ h => nomatch h) (fun _ _ _ _ h => nomatch h)
        (fun _ _ _ _ h => nomatch h) (fun _ _ hh o h => nomatch h)
      intro q hq
      simp [descRefs] at hq
      subst hq
      exact Nat.lt_succ_self _

theorem inv_putStore {s4 : State} (hI : Inv s4) {k sp : Nat} (eff : Option Nat)
    (hvp : ∀ n d, lookupL s4.ll.nodes n = some d → d.value < sp)
    (hsp : sp < s4.nextProm)
    (hobsw : ∀ ob ∈ s4.observers, ob.watched < sp) :
    Inv (putStore s4 k sp eff).2 ∧
    (∀ n d, lookupL (putStore s4 k sp eff).2.ll.nodes n = some d →
      d.value = sp → n = (putStore s4 k sp eff).1) ∧
    (putStore s4 k sp eff).2.nextProm = s4.nextProm ∧
    (putStore s4 k sp eff).2.observers = s4.observers ∧
    (putStore s4 k sp eff).2.capacity = s4.capacity ∧
    (SizeLe s4 → SizeLe (putStore s4 k sp eff).2) := by
  cases hk : lookupL s4.dataMap k with
  | none =>
      rw [putStore, hk]
      set nid := s4.nextNode with hnid
      set dn : NodeData := ⟨some k, sp, expiryOf s4.now eff, none, none⟩ with hdn
      show Inv (evictIfNeeded { s4 with
          dataMap := setL s4.dataMap k nid
          ll := addH { s4.ll with nodes := s4.ll.nodes ++ [(nid, dn)] } nid
          nextNode := nid + 1 }) ∧ _
      set sMid : State := { s4 with
        dataMap := setL s4.dataMap k nid
        ll := addH { s4.ll with nodes := s4.ll.nodes ++ [(nid, dn)] } nid
        nextNode := nid + 1 } with hsMid
      have hlook : ∀ {m dm}, lookupL (evictIfNeeded sMid).ll.nodes m = some dm →
          (m = nid ∧ coreOf dm = coreOf dn) ∨
          (∃ d₀, lookupL s4.ll.nodes m = some d₀ ∧ coreOf dm = coreOf d₀) := by
        intro m dm hm
        obtain ⟨d₁, hd₁, hc₁⟩ := sameCore_lookup_rev (evictIfNeeded_core sMid) hm
        obtain ⟨d₂, hd₂, hc₂⟩ := sameCore_lookup_rev
          (addH_core { s4.ll with nodes := s4.ll.nodes ++ [(nid, dn)] } nid) hd₁
        rcases lookup_append_single_rev hd₂ with ⟨he, hde⟩ | hold
        · exact Or.inl ⟨he, by rw [hc₁, hc₂, hde]⟩
        · exact Or.inr ⟨d₂, hold, by rw [hc₁, hc₂]⟩
      have hnotmem : k ∉ s4.dataMap.map Prod.fst := by
        intro hm
        obtain ⟨w, hw⟩ := lookup_isSome_of_mem_keys hm
        rw [hk] at hw
        exact nomatch hw
      have hlen : sMid.dataMap.length = s4.dataMap.length + 1 := by
        show (setL s4.dataMap k nid).length = s4.dataMap.length + 1
        exact length_setL_of_not_mem _ hnotmem
      have hcapMid : sMid.capacity = s4.capacity := rfl
      refine ⟨(inv_insertStep hI hk hvp hsp hobsw).2, ?_, ?_, ?_, ?_, ?_⟩
      · intro n d hd hval
        rcases hlook hd with ⟨he, _⟩ | ⟨d₀, hd₀, hcd⟩
        · exact he
        · exfalso
          have := hvp n d₀ hd₀
          have : d.value = d₀.value := value_eq_of_core hcd
          omega
      · rw [(evictIfNeeded_extras sMid).1]
      · rw [(evictIfNeeded_extras sMid).2.2.1]
      · rw [(evictIfNeeded_extras sMid).2.2.2.2.2.1]
      · intro hS
        have hMid : Inv sMid := (inv_insertStep hI hk hvp hsp hobsw).1
        show (evictIfNeeded sMid).dataMap.length ≤ (evictIfNeeded sMid).capacity
        rw [(evictIfNeeded_extras sMid).2.2.2.2.2.1]
        by_cases hover : sMid.dataMap.length > sMid.capacity
        · have h1 := length_evict_of_over hMid hover
          have hS' : s4.dataMap.length ≤ s4.capacity := hS
          omega
        · rw [evict_of_le hover]
          omega
  | some nid =>
      rw [putStore, hk]
      obtain ⟨l, hc⟩ := hI.corr
      obtain ⟨hmem, d, hd, hdk⟩ := hc.m2l k nid hk
      set f : NodeData → NodeData :=
        (fun d => { d with value := sp, expiresAt := expiryOf s4.now eff }) with hf
      set llU : LL := updateNode s4.ll nid f with hllU
      show Inv { s4 with ll := moveH llU nid } ∧ _
      have hlookU : ∀ {m dm}, lookupL llU.nodes m = some dm →
          (m = nid ∧ dm = f d) ∨ (m ≠ nid ∧ lookupL s4.ll.nodes m = some dm) := by
        intro m dm hm
        rw [hllU, updateNode, hd] at hm
        by_cases he : m = nid
        · subst he
          rw [lookupL_setL_self] at hm
          exact Or.inl ⟨rfl, (Option.some.inj hm).symm⟩
        · rw [lookupL_setL_ne _ _ he] at hm
          exact Or.inr ⟨he, hm⟩
      have hlook : ∀ {m dm}, lookupL (moveH llU nid).nodes m = some dm →
          (m = nid ∧ coreOf dm = coreOf (f d)) ∨
          (m ≠ nid ∧ ∃ d₀, lookupL s4.ll.nodes m = some d₀ ∧ coreOf dm = coreOf d₀) := by
        intro m dm hm
        obtain ⟨d₁, hd₁, hc₁⟩ := sameCore_lookup_rev (moveH_core llU nid) hm
        rcases hlookU hd₁ with ⟨he, hde⟩ | ⟨hne, hold⟩
        · exact Or.inl ⟨he, by rw [hc₁, hde]⟩
        · exact Or.inr ⟨hne, d₁, hold, hc₁⟩
      refine ⟨⟨⟨nid :: l.erase nid, ?_⟩, ?_, ?_, ?_, promOK_transfer hI.prom rfl rfl⟩, ?_, rfl,
        rfl, rfl, fun hS => hS⟩
      · exact corr_update hc hk f (fun d => rfl) (fun d => rfl) (fun d => rfl)
      · refine ⟨hI.fresh.promDom, ?_, ?_, hI.fresh.obsW, hI.fresh.descRef⟩
        · intro m hm
          have hm2 : m ∈ (moveH llU nid).nodes.map Prod.fst := hm
          rw [moveH_keys, hllU, updateNode_keys] at hm2
          exact hI.fresh.nodeDom m hm2
        · intro m dm hm
          rcases hlook hm with ⟨_, hcd⟩ | ⟨_, d₀, hd₀, hcd⟩
          · rw [value_eq_of_core hcd]
            show sp < s4.nextProm
            exact hsp
          · rw [value_eq_of_core hcd]
            exact hI.fresh.nodeVal m d₀ hd₀
      · intro n₁ d₁ n₂ d₂ h₁ h₂ hval
        rcases hlook h₁ with ⟨he₁, hc₁⟩ | ⟨hne₁, e₁, he₁, hc₁⟩ <;>
          rcases hlook h₂ with ⟨he₂, hc₂⟩ | ⟨hne₂, e₂, he₂, hc₂⟩
        · rw [he₁, he₂]
        · exfalso
          have hv₁ : d₁.value = sp := value_eq_of_core hc₁
          have hv₂ : d₂.value = e₂.value := value_eq_of_core hc₂
          have := hvp n₂ e₂ he₂
          omega
        · exfalso
          have hv₂ : d₂.value = sp := value_eq_of_core hc₂
          have hv₁ : d₁.value = e₁.value := value_eq_of_core hc₁
          have := hvp n₁ e₁ he₁
          omega
        · refine hI.vinj n₁ e₁ n₂ e₂ he₁ he₂ ?_
          rw [← value_eq_of_core hc₁, ← value_eq_of_core hc₂]
          exact hval
      · intro ob hob hkind n dm hdm hval
        have hob2 : ob ∈ s4.observers := hob
        have hwlt := hobsw ob hob2
        rcases hlook hdm with ⟨he, hcd⟩ | ⟨_, d₀, hd₀, hcd⟩
        · exfalso
          have : dm.value = sp := value_eq_of_core hcd
          omega
        · refine hI.obsOK ob hob2 hkind n d₀ hd₀ ?_
          rw [← value_eq_of_core hcd]
          exact hval
      · intro n dm hdm hval
        rcases hlook hdm with ⟨he, _⟩ | ⟨_, d₀, hd₀, hcd⟩
        · exact he
        · exfalso
          have := hvp n d₀ hd₀
          have : dm.value = d₀.value := value_eq_of_core hcd
          omega

theorem inv_putTail {s0 : State} (hI : Inv s0) {lastP : Nat} (hlt : lastP < s0.nextProm)
    (ws : Bool) (k : Nat) (v : JSVal) (ttl : Option Nat) :
    Inv { (putStore (putChain s0 lastP ws k v).2 k (putChain s0 lastP ws k v).1.2.2.2
        (effTtl (putChain s0 lastP ws k v).2 ttl)).2 with
      observers :=
        (putStore (putChain s0 lastP ws k v).2 k (putChain s0 lastP ws k v).1.2.2.2
          (effTtl (putChain s0 lastP ws k v).2 ttl)).2.observers ++
        [(⟨ObsKind.save, (putChain s0 lastP ws k v).1.2.2.2, k,
          (putStore (putChain s0 lastP ws k v).2 k (putChain s0 lastP ws k v).1.2.2.2
            (effTtl (putChain s0 lastP ws k v).2 ttl)).1, false⟩ : Obs)] } ∧
    (putStore (putChain s0 lastP ws k v).2 k (putChain s0 lastP ws k v).1.2.2.2
      (effTtl (putChain s0 lastP ws k v).2 ttl)).2.capacity = s0.capacity ∧
    (SizeLe s0 → SizeLe (putStore (putChain s0 lastP ws k v).2 k
      (putChain s0 lastP ws k v).1.2.2.2 (effTtl (putChain s0 lastP ws k v).2 ttl)).2) := by
  set s4 := (putChain s0 lastP ws k v).2 with hs4
  set sp := (putChain s0 lastP ws k v).1.2.2.2 with hsp'
  have hI4 : Inv s4 := inv_putChain hI hlt ws k v
  have hspe : sp = s0.nextProm + (if ws then 3 else 2) := putChain_sp_eq s0 lastP ws k v
  have hnp4 : s4.nextProm = s0.nextProm + (if ws then 4 else 3) := putChain_nextProm s0 lastP ws k v
  obtain ⟨hdm, hll, hobs, _⟩ := putChain_frame s0 lastP ws k v
  have hvp : ∀ n d, lookupL s4.ll.nodes n = some d → d.value < sp := by
    intro n d hd
    rw [hll] at hd
    have := hI.fresh.nodeVal n d hd
    cases ws <;> simp at hspe <;> omega
  have hsplt : sp < s4.nextProm := by
    rw [hspe, hnp4]
    cases ws <;> simp
  have hobsw : ∀ ob ∈ s4.observers, ob.watched < sp := by
    intro ob hob
    rw [hobs] at hob
    have := hI.fresh.obsW ob hob
    cases ws <;> simp at hspe <;> omega
  obtain ⟨hIr, huniq, hnp, hobs', hcap, hsize⟩ := inv_putStore hI4 (effTtl s4 ttl) hvp hsplt hobsw
  obtain ⟨_, _, _, _, _, hcapF, _, _, _⟩ := putChain_frame s0 lastP ws k v
  refine ⟨inv_obs_append hIr _ ?_ ?_, ?_, ?_⟩
  · show sp < (putStore s4 k sp (effTtl s4 ttl)).2.nextProm
    rw [hnp]
    exact hsplt
  · intro _ n d hd hval
    exact huniq n d hd hval
  · rw [hcap]
    exact hcapF
  · intro hS0
    apply hsize
    show s4.dataMap.length ≤ s4.capacity
    rw [hdm, hcapF]
    exact hS0

theorem doPut_props {s : State} (hI : Inv s) (k : Nat) (v : JSVal) (ws : Bool)
    (ttl : Option Nat) :
    Inv (doPut s k v ws ttl).st ∧
    (doPut s k v ws ttl).st.capacity = s.capacity ∧
    (SizeLe s → SizeLe (doPut s k v ws ttl).st) := by
  cases hk : lookupL s.dataMap k with
  | none =>
      rw [doPut, hk]
      have hIL : Inv (allocProm s (PromDesc.pureP (Outcome.ok JSVal.undef))
          (PromPhase.settled (Outcome.ok JSVal.undef))).2 :=
        inv_allocProm hI (by simp [descRefs]) (fun _ h => nomatch h)
          (fun _ _ _ _ h => nomatch h) (fun _ _ _ _ h => nomatch h) (fun _ _ h => nomatch h)
      have h := inv_putTail hIL (Nat.lt_succ_self s.nextProm) ws k v ttl
      exact ⟨h.1, h.2.1, fun hS => h.2.2 hS⟩
  | some nid =>
      rw [doPut, hk]
      obtain ⟨l, hc⟩ := hI.corr
      obtain ⟨hmem, d, hd, hdk⟩ := hc.m2l k nid hk
      show (Inv (let lp :=
          match lookupL s.ll.nodes nid with
          | some d => (d.value, s)
          | none => (0, s)
        let r := putStore (putChain lp.2 lp.1 ws k v).2 k
          (putChain lp.2 lp.1 ws k v).1.2.2.2 (effTtl (putChain lp.2 lp.1 ws k v).2 ttl)
        ({ r.2 with observers := r.2.observers ++ [(⟨ObsKind.save,
          (putChain lp.2 lp.1 ws k v).1.2.2.2, k, r.1, false⟩ : Obs)] } : State))) ∧
        (let lp :=
          match lookupL s.ll.nodes nid with
          | some d => (d.value, s)
          | none => (0, s)
        (putStore (putChain lp.2 lp.1 ws k v).2 k
          (putChain lp.2 lp.1 ws k v).1.2.2.2
          (effTtl (putChain lp.2 lp.1 ws k v).2 ttl)).2.capacity = s.capacity) ∧
        (SizeLe s →
          let lp :=
            match lookupL s.ll.nodes nid with
            | some d => (d.value, s)
            | none => (0, s)
          SizeLe (putStore (putChain lp.2 lp.1 ws k v).2 k
            (putChain lp.2 lp.1 ws k v).1.2.2.2
            (effTtl (putChain lp.2 lp.1 ws k v).2 ttl)).2)
      rw [hd]
      have h := inv_putTail hI (hI.fresh.nodeVal nid d hd) ws k v ttl
      exact ⟨h.1, h.2.1, fun hS => h.2.2 hS⟩

theorem inv_doPut {s : State} (hI : Inv s) (k : Nat) (v : JSVal) (ws : Bool)
    (ttl : Option Nat) : Inv (doPut s k v ws ttl).st :=
  (doPut_props hI k v ws ttl).1

/-! ### Invariant preservation: observers firing -/

theorem inv_obs_set {s : State} (hI : Inv s) (i : Nat) {ob : Obs}
    (hob : s.observers.get? i = some ob) :
    Inv { s with observers := s.observers.set i { ob with fired := true } } := by
  have hmem : ob ∈ s.observers := List.get?_mem hob
  refine ⟨hI.corr, ⟨hI.fresh.promDom, hI.fresh.nodeDom, hI.fresh.nodeVal, ?_, hI.fresh.descRef⟩,
    hI.vinj, ?_, promOK_transfer hI.prom rfl rfl⟩
  · intro ob' hob'
    have hob2 : ob' ∈ s.observers.set i { ob with fired := true } := hob'
    rcases List.mem_or_eq_of_mem_set hob2 with h | h
    · exact hI.fresh.obsW ob' h
    · subst h
      exact hI.fresh.obsW ob hmem
  · intro ob' hob' hk n d hd hval
    have hob2 : ob' ∈ s.observers.set i { ob with fired := true } := hob'
    rcases List.mem_or_eq_of_mem_set hob2 with h | h
    · exact hI.obsOK ob' h hk n d hd hval
    · subst h
      exact hI.obsOK ob hmem hk n d hd hval

theorem inv_fireObs {s : State} (hI : Inv s) (i : Nat) :
    Inv (applyAct (Action.fireObs i) s) := by
  show Inv (match s.observers.get? i with
    | none => s
    | some ob =>
        if ob.fired then s
        else
          match phaseOf s ob.watched with
          | PromPhase.settled (Outcome.err _) =>
              let s1 := { s with observers := s.observers.set i { ob with fired := true } }
              match ob.kind with
              | ObsKind.load =>
                  if lookupL s1.dataMap ob.key = some ob.nid then
                    { s1 with dataMap := delL s1.dataMap ob.key, ll := removeN s1.ll ob.nid }
                  else s1
              | ObsKind.save =>
                  match lookupL s1.dataMap ob.key with
                  | none => s1
                  | some nid' =>
                      match lookupL s1.ll.nodes nid' with
                      | none => s1
                      | some d' =>
                          if d'.value = ob.watched then
                            { s1 with dataMap := delL s1.dataMap ob.key, ll := removeN s1.ll ob.nid }
                          else s1
          | _ => s)
  cases hget : s.observers.get? i with
  | none => exact hI
  | some ob =>
      show Inv (if ob.fired then s
        else
          match phaseOf s ob.watched with
          | PromPhase.settled (Outcome.err _) =>
              let s1 := { s with observers := s.observers.set i { ob with fired := true } }
              match ob.kind with
              | ObsKind.load =>
                  if lookupL s1.dataMap ob.key = some ob.nid then
                    { s1 with dataMap := delL s1.dataMap ob.key, ll := removeN s1.ll ob.nid }
                  else s1
              | ObsKind.save =>
                  match lookupL s1.dataMap ob.key with
                  | none => s1
                  | some nid' =>
                      match lookupL s1.ll.nodes nid' with
                      | none => s1
                      | some d' =>
                          if d'.value = ob.watched then
                            { s1 with dataMap := delL s1.dataMap ob.key, ll := removeN s1.ll ob.nid }
                          else s1
          | _ => s)
      have hmem : ob ∈ s.observers := List.get?_mem hget
      have hI1 : Inv { s with observers := s.observers.set i { ob with fired := true } } :=
        inv_obs_set hI i hget
      set s1 : State := { s with observers := s.observers.set i { ob with fired := true } }
        with hs1
      cases hfired : ob.fired with
      | true => exact hI
      | false =>
          show Inv (match phaseOf s ob.watched with
            | PromPhase.settled (Outcome.err _) =>
                match ob.kind with
                | ObsKind.load =>
                    if lookupL s1.dataMap ob.key = some ob.nid then
                      { s1 with dataMap := delL s1.dataMap ob.key, ll := removeN s1.ll ob.nid }
                    else s1
                | ObsKind.save =>
                    match lookupL s1.dataMap ob.key with
                    | none => s1
                    | some nid' =>
                        match lookupL s1.ll.nodes nid' with
                        | none => s1
                        | some d' =>
                            if d'.value = ob.watched then
                              { s1 with dataMap := delL s1.dataMap ob.key, ll := removeN s1.ll ob.nid }
                            else s1
            | _ => s)
          cases hph : phaseOf s ob.watched with
          | notStarted => exact hI
          | pending => exact hI
          | started => exact hI
          | settled o =>
              cases o with
              | ok w => exact hI
              | err e =>
                  show Inv (match ob.kind with
                    | ObsKind.load =>
                        if lookupL s1.dataMap ob.key = some ob.nid then
                          { s1 with dataMap := delL s1.dataMap ob.key, ll := removeN s1.ll ob.nid }
                        else s1
                    | ObsKind.save =>
                        match lookupL s1.dataMap ob.key with
                        | none => s1
                        | some nid' =>
                            match lookupL s1.ll.nodes nid' with
                            | none => s1
                            | some d' =>
                                if d'.value = ob.watched then
                                  { s1 with dataMap := delL s1.dataMap ob.key, ll := removeN s1.ll ob.nid }
                                else s1)
                  cases hkind : ob.kind with
                  | load =>
                      by_cases hkk : lookupL s1.dataMap ob.key = some ob.nid
                      · rw [if_pos hkk]
                        exact inv_remove hI1 hkk
                      · rw [if_neg hkk]
                        exact hI1
                  | save =>
                      cases hkk : lookupL s1.dataMap ob.key with
                      | none => exact hI1
                      | some nid' =>
                          show Inv (match lookupL s1.ll.nodes nid' with
                            | none => s1
                            | some d' =>
                                if d'.value = ob.watched then
                                  { s1 with dataMap := delL s1.dataMap ob.key, ll := removeN s1.ll ob.nid }
                                else s1)
                          cases hd' : lookupL s1.ll.nodes nid' with
                          | none => exact hI1
                          | some d' =>
                              show Inv (if d'.value = ob.watched then
                                  { s1 with
                                    dataMap := delL s1.dataMap ob.key
                                    ll := removeN s1.ll ob.nid }
                                else s1)
                              by_cases hvl : d'.value = ob.watched
                              · rw [if_pos hvl]
                                have hd'0 : lookupL s.ll.nodes nid' = some d' := hd'
                                have hnid : nid' = ob.nid :=
                                  hI.obsOK ob hmem hkind nid' d' hd'0 hvl
                                rw [hnid] at hkk
                                exact inv_remove hI1 hkk
                              · rw [if_neg hvl]
                                exact hI1

/-! ### Invariant preservation: the dispatcher -/

theorem inv_applyAct (a : Action) {s : State} (hI : Inv s) : Inv (applyAct a s) := by
  cases a with
  | get k ttl => exact inv_doGet hI k ttl
  | put k v ws ttl => exact inv_doPut hI k v ws ttl
  | invalidate k => exact inv_invalidate hI k
  | clear => exact inv_doClear hI
  | destroy => exact inv_doDestroy hI
  | cleanupExpired => exact inv_doCleanup hI
  | has k => exact inv_doHas hI k
  | timerTick => exact inv_timerTick hI
  | advanceTime dt => exact inv_advanceTime hI dt
  | settlePrim p o => exact inv_settlePrim hI p o
  | fireCatch p => exact inv_fireCatch hI p
  | fireThenSaver p => exact inv_fireThenSaver hI p
  | adoptSaver p => exact inv_adoptSaver hI p
  | fireThenConst p => exact inv_fireThenConst hI p
  | fireObs i => exact inv_fireObs hI i

/-! ### Frame lemmas: capacity and map size across actions -/

theorem care_frame (s : State) (k nid : Nat) :
    (checkAndRemoveExpired s k nid).2.capacity = s.capacity ∧
    (checkAndRemoveExpired s k nid).2.dataMap.length ≤ s.dataMap.length := by
  cases hd : lookupL s.ll.nodes nid with
  | none => rw [care_absent hd]; exact ⟨rfl, Nat.le_refl _⟩
  | some d =>
      cases hx : isExpiredN s.now d with
      | true => rw [care_expired hd hx]; exact ⟨rfl, length_delL_le s.dataMap k⟩
      | false => rw [care_live hd hx]; exact ⟨rfl, Nat.le_refl _⟩

theorem doHas_frame (s : State) (k : Nat) :
    (doHas s k).2.capacity = s.capacity ∧
    (doHas s k).2.dataMap.length ≤ s.dataMap.length := by
  rw [doHas_snd]
  cases hk : lookupL s.dataMap k with
  | none => exact ⟨rfl, Nat.le_refl _⟩
  | some nid => exact care_frame s k nid

theorem removeKeys_frame : ∀ (ks : List Nat) (s : State),
    (removeKeys ks s).capacity = s.capacity ∧
    (removeKeys ks s).dataMap.length ≤ s.dataMap.length := by
  intro ks
  induction ks with
  | nil => intro s; exact ⟨rfl, Nat.le_refl _⟩
  | cons k rest ih =>
      intro s
      show ((match lookupL s.dataMap k with
        | none => removeKeys rest s
        | some nid =>
            removeKeys rest { s with dataMap := delL s.dataMap k, ll := removeN s.ll nid }).capacity
          = s.capacity) ∧
        ((match lookupL s.dataMap k with
        | none => removeKeys rest s
        | some nid =>
            removeKeys rest { s with dataMap := delL s.dataMap k, ll := removeN s.ll nid }).dataMap.length
          ≤ s.dataMap.length)
      cases hk : lookupL s.dataMap k with
      | none => exact ih s
      | some nid =>
          obtain ⟨h1, h2⟩ := ih { s with dataMap := delL s.dataMap k, ll := removeN s.ll nid }
          exact ⟨h1, Nat.le_trans h2 (length_delL_le s.dataMap k)⟩

theorem doCleanup_frame (s : State) :
    (doCleanup s).capacity = s.capacity ∧
    (doCleanup s).dataMap.length ≤ s.dataMap.length :=
  removeKeys_frame _ s

theorem doClear_frame (s : State) :
    (doClear s).capacity = s.capacity ∧ (doClear s).dataMap = [] := by
  obtain ⟨h1, h2, _⟩ := clearWalk_frame s.nextNode s.ll.head { s with dataMap := ([] : List (Nat × Nat)) }
  exact ⟨h2, h1⟩

theorem doInvalidate_frame (s : State) (k : Nat) :
    (doInvalidate s k).capacity = s.capacity ∧
    (doInvalidate s k).dataMap.length ≤ s.dataMap.length := by
  rw [doInvalidate]
  cases hk : lookupL s.dataMap k with
  | none => exact ⟨rfl, Nat.le_refl _⟩
  | some nid => exact ⟨rfl, length_delL_le s.dataMap k⟩

theorem fr_settlePrim (s : State) (p : Nat) (o : Outcome) :
    (applyAct (Action.settlePrim p o) s).dataMap = s.dataMap ∧
    (applyAct (Action.settlePrim p o) s).capacity = s.capacity := by
  constructor <;>
  · simp only [applyAct]
    repeat' split
    all_goals simp [setPhase_dataMap, setPhase_capacity]

theorem fr_fireCatch (s : State) (p : Nat) :
    (applyAct (Action.fireCatch p) s).dataMap = s.dataMap ∧
    (applyAct (Action.fireCatch p) s).capacity = s.capacity := by
  constructor <;>
  · simp only [applyAct]
    repeat' split
    all_goals simp [setPhase_dataMap, setPhase_capacity]

theorem fr_fireThenSaver (s : State) (p : Nat) :
    (applyAct (Action.fireThenSaver p) s).dataMap = s.dataMap ∧
    (applyAct (Action.fireThenSaver p) s).capacity = s.capacity := by
  constructor <;>
  · simp only [applyAct]
    repeat' split
    all_goals simp [setPhase_dataMap, setPhase_capacity]

theorem fr_adoptSaver (s : State) (p : Nat) :
    (applyAct (Action.adoptSaver p) s).dataMap = s.dataMap ∧
    (applyAct (Action.adoptSaver p) s).capacity = s.capacity := by
  constructor <;>
  · simp only [applyAct]
    repeat' split
    all_goals simp [setPhase_dataMap, setPhase_capacity]

theorem fr_fireThenConst (s : State) (p : Nat) :
    (applyAct (Action.fireThenConst p) s).dataMap = s.dataMap ∧
    (applyAct (Action.fireThenConst p) s).capacity = s.capacity := by
  constructor <;>
  · simp only [applyAct]
    repeat' split
    all_goals simp [setPhase_dataMap, setPhase_capacity]

theorem fr_fireObs (s : State) (i : Nat) :
    (applyAct (Action.fireObs i) s).capacity = s.capacity ∧
    (applyAct (Action.fireObs i) s).dataMap.length ≤ s.dataMap.length := by
  constructor <;>
  · simp only [applyAct]
    repeat' split
    all_goals simp [length_delL_le]

theorem putStore_capacity (s4 : State) (k sp : Nat) (eff : Option Nat) :
    (putStore s4 k sp eff).2.capacity = s4.capacity := by
  cases hk : lookupL s4.dataMap k with
  | none =>
      rw [putStore, hk]
      exact (evictIfNeeded_extras _).2.2.2.2.2.1
  | some nid =>
      rw [putStore, hk]

theorem capacity_applyAct (a : Action) (s : State) :
    (applyAct a s).capacity = s.capacity := by
  cases a with
  | get k ttl =>
      show (doGet s k ttl).2.capacity = s.capacity
      cases hk : lookupL s.dataMap k with
      | none =>
          rw [doGet, hk]
          show (getMiss s k ttl).2.capacity = s.capacity
          exact (evictIfNeeded_extras _).2.2.2.2.2.1
      | some nid =>
          rw [doGet, hk]
          show (if (checkAndRemoveExpired s k nid).1
            then getMiss (checkAndRemoveExpired s k nid).2 k ttl
            else match lookupL (checkAndRemoveExpired s k nid).2.ll.nodes nid with
              | some d => (d.value, { (checkAndRemoveExpired s k nid).2 with
                  ll := moveH (checkAndRemoveExpired s k nid).2.ll nid })
              | none => (0, (checkAndRemoveExpired s k nid).2)).2.capacity = s.capacity
          by_cases hb : (checkAndRemoveExpired s k nid).1
          · rw [if_pos hb]
            show (getMiss (checkAndRemoveExpired s k nid).2 k ttl).2.capacity = s.capacity
            have h1 : (getMiss (checkAndRemoveExpired s k nid).2 k ttl).2.capacity
                = (checkAndRemoveExpired s k nid).2.capacity :=
              (evictIfNeeded_extras _).2.2.2.2.2.1
            rw [h1]
            exact (care_frame s k nid).1
          · rw [if_neg hb]
            cases hd : lookupL (checkAndRemoveExpired s k nid).2.ll.nodes nid with
            | none => exact (care_frame s k nid).1
            | some d => exact (care_frame s k nid).1
  | put k v ws ttl =>
      show (doPut s k v ws ttl).st.capacity = s.capacity
      have key : ∀ (lp : Nat × State), lp.2.capacity = s.capacity →
          (putStore (putChain lp.2 lp.1 ws k v).2 k (putChain lp.2 lp.1 ws k v).1.2.2.2
            (effTtl (putChain lp.2 lp.1 ws k v).2 ttl)).2.capacity = s.capacity := by
        intro lp hcap
        rw [putStore_capacity, (putChain_frame _ _ _ _ _).2.2.2.2.2.1]
        exact hcap
      refine key (match lookupL s.dataMap k with
        | some nid =>
            match lookupL s.ll.nodes nid with
            | some d => (d.value, s)
            | none => (0, s)
        | none => allocProm s (PromDesc.pureP (Outcome.ok JSVal.undef))
            (PromPhase.settled (Outcome.ok JSVal.undef))) ?_
      cases hk : lookupL s.dataMap k with
      | none => rfl
      | some nid =>
          cases hd : lookupL s.ll.nodes nid with
          | none =>
              show (match lookupL s.ll.nodes nid with
                | some d => (d.value, s)
                | none => (0, s)).2.capacity = s.capacity
              rw [hd]
          | some d =>
              show (match lookupL s.ll.nodes nid with
                | some d => (d.value, s)
                | none => (0, s)).2.capacity = s.capacity
              rw [hd]
  | invalidate k => exact (doInvalidate_frame s k).1
  | clear => exact (doClear_frame s).1
  | destroy =>
      show (doClear { s with hasTimer := false }).capacity = s.capacity
      exact (doClear_frame { s with hasTimer := false }).1
  | cleanupExpired => exact (doCleanup_frame s).1
  | has k => exact (doHas_frame s k).1
  | timerTick =>
      show (if s.hasTimer then doCleanup s else s).capacity = s.capacity
      by_cases h : s.hasTimer
      · rw [if_pos h]; exact (doCleanup_frame s).1
      · rw [if_neg h]
  | advanceTime dt => rfl
  | settlePrim p o => exact (fr_settlePrim s p o).2
  | fireCatch p => exact (fr_fireCatch s p).2
  | fireThenSaver p => exact (fr_fireThenSaver s p).2
  | adoptSaver p => exact (fr_adoptSaver s p).2
  | fireThenConst p => exact (fr_fireThenConst s p).2
  | fireObs i => exact (fr_fireObs s i).1

theorem sizeLe_applyAct (a : Action) {s : State} (hI : Inv s) (hS : SizeLe s) :
    SizeLe (applyAct a s) := by
  have hcap := capacity_applyAct a s
  cases a with
  | get k ttl => exact (doGet_props hI k ttl).2 hS
  | put k v ws ttl => exact (doPut_props hI k v ws ttl).2.2 hS
  | invalidate k =>
      show (applyAct (Action.invalidate k) s).dataMap.length
        ≤ (applyAct (Action.invalidate k) s).capacity
      rw [hcap]
      exact Nat.le_trans (doInvalidate_frame s k).2 hS
  | clear =>
      show (applyAct Action.clear s).dataMap.length ≤ (applyAct Action.clear s).capacity
      rw [hcap]
      show (doClear s).dataMap.length ≤ s.capacity
      rw [(doClear_frame s).2]
      exact Nat.zero_le _
  | destroy =>
      show (applyAct Action.destroy s).dataMap.length ≤ (applyAct Action.destroy s).capacity
      rw [hcap]
      show (doClear { s with hasTimer := false }).dataMap.length ≤ s.capacity
      rw [(doClear_frame { s with hasTimer := false }).2]
      exact Nat.zero_le _
  | cleanupExpired =>
      show (applyAct Action.cleanupExpired s).dataMap.length
        ≤ (applyAct Action.cleanupExpired s).capacity
      rw [hcap]
      exact Nat.le_trans (doCleanup_frame s).2 hS
  | has k =>
      show (applyAct (Action.has k) s).dataMap.length ≤ (applyAct (Action.has k) s).capacity
      rw [hcap]
      exact Nat.le_trans (doHas_frame s k).2 hS
  | timerTick =>
      show (applyAct Action.timerTick s).dataMap.length ≤ (applyAct Action.timerTick s).capacity
      rw [hcap]
      show (if s.hasTimer then doCleanup s else s).dataMap.length ≤ s.capacity
      by_cases h : s.hasTimer
      · rw [if_pos h]
        exact Nat.le_trans (doCleanup_frame s).2 hS
      · rw [if_neg h]
        exact hS
  | advanceTime dt => exact hS
  | settlePrim p o =>
      show (applyAct (Action.settlePrim p o) s).dataMap.length
        ≤ (applyAct (Action.settlePrim p o) s).capacity
      rw [hcap, (fr_settlePrim s p o).1]
      exact hS
  | fireCatch p =>
      show (applyAct (Action.fireCatch p) s).dataMap.length
        ≤ (applyAct (Action.fireCatch p) s).capacity
      rw [hcap, (fr_fireCatch s p).1]
      exact hS
  | fireThenSaver p =>
      show (applyAct (Action.fireThenSaver p) s).dataMap.length
        ≤ (applyAct (Action.fireThenSaver p) s).capacity
      rw [hcap, (fr_fireThenSaver s p).1]
      exact hS
  | adoptSaver p =>
      show (applyAct (Action.adoptSaver p) s).dataMap.length
        ≤ (applyAct (Action.adoptSaver p) s).capacity
      rw [hcap, (fr_adoptSaver s p).1]
      exact hS
  | fireThenConst p =>
      show (applyAct (Action.fireThenConst p) s).dataMap.length
        ≤ (applyAct (Action.fireThenConst p) s).capacity
      rw [hcap, (fr_fireThenConst s p).1]
      exact hS
  | fireObs i =>
      show (applyAct (Action.fireObs i) s).dataMap.length
        ≤ (applyAct (Action.fireObs i) s).capacity
      rw [hcap]
      exact Nat.le_trans (fr_fireObs s i).2 hS

theorem inv_run (acts : List Action) {s : State} (hI : Inv s) : Inv (run acts s) := by
  induction acts generalizing s with
  | nil => exact hI
  | cons a rest ih => exact ih (inv_applyAct a hI)

theorem inv_run_init (acts : List Action) (cap : Nat) (dttl : Option Nat) (tmr : Bool) :
    Inv (run acts (initState cap dttl tmr)) :=
  inv_run acts (inv_initState cap dttl tmr)

theorem sizeLe_run (acts : List Action) {s : State} (hI : Inv s) (hS : SizeLe s) :
    SizeLe (run acts s) := by
  induction acts generalizing s with
  | nil => exact hS
  | cons a rest ih => exact ih (inv_applyAct a hI) (sizeLe_applyAct a hI hS)

theorem capacity_run (acts : List Action) (s : State) :
    (run acts s).capacity = s.capacity := by
  induction acts generalizing s with
  | nil => rfl
  | cons a rest ih => exact (ih (applyAct a s)).trans (capacity_applyAct a s)

/-! ### Promise-store framing: cache operations never change an existing
promise's entry -/

theorem care_proms (s : State) (k nid : Nat) :
    (checkAndRemoveExpired s k nid).2.proms = s.proms := by
  cases hd : lookupL s.ll.nodes nid with
  | none => rw [care_absent hd]
  | some d =>
      cases hx : isExpiredN s.now d with
      | true => rw [care_expired hd hx]
      | false => rw [care_live hd hx]

theorem doHas_proms (s : State) (k : Nat) : (doHas s k).2.proms = s.proms := by
  rw [doHas_snd]
  cases hk : lookupL s.dataMap k with
  | none => rfl
  | some nid => exact care_proms s k nid

theorem removeKeys_proms : ∀ (ks : List Nat) (s : State),
    (removeKeys ks s).proms = s.proms := by
  intro ks
  induction ks with
  | nil => intro s; rfl
  | cons k rest ih =>
      intro s
      show (match lookupL s.dataMap k with
        | none => removeKeys rest s
        | some nid =>
            removeKeys rest { s with dataMap := delL s.dataMap k, ll := removeN s.ll nid }).proms
          = s.proms
      cases hk : lookupL s.dataMap k with
      | none => exact ih s
      | some nid => exact ih { s with dataMap := delL s.dataMap k, ll := removeN s.ll nid }

theorem doCleanup_proms (s : State) : (doCleanup s).proms = s.proms :=
  removeKeys_proms _ s

theorem doInvalidate_proms (s : State) (k : Nat) : (doInvalidate s k).proms = s.proms := by
  rw [doInvalidate]
  cases hk : lookupL s.dataMap k with
  | none => rfl
  | some nid => rfl

theorem getMiss_proms (s : State) (k : Nat) (ttl : Option Nat) :
    (getMiss s k ttl).2.proms
      = s.proms ++ [(s.nextProm, (⟨PromDesc.prim, PromPhase.pending⟩ : Prom))] :=
  (evictIfNeeded_extras _).2.2.2.2.1

theorem doGet_proms_ext {s : State} (k : Nat) (ttl : Option Nat) {q : Nat} {pr : Prom}
    (hq : lookupL s.proms q = some pr) :
    lookupL (doGet s k ttl).2.proms q = some pr := by
  cases hk : lookupL s.dataMap k with
  | none =>
      rw [doGet, hk, getMiss_proms, lookupL_append, hq]
  | some nid =>
      rw [doGet, hk]
      show lookupL (if (checkAndRemoveExpired s k nid).1
        then getMiss (checkAndRemoveExpired s k nid).2 k ttl
        else match lookupL (checkAndRemoveExpired s k nid).2.ll.nodes nid with
          | some d => (d.value, { (checkAndRemoveExpired s k nid).2 with
              ll := moveH (checkAndRemoveExpired s k nid).2.ll nid })
          | none => (0, (checkAndRemoveExpired s k nid).2)).2.proms q = some pr
      cases hd : lookupL s.ll.nodes nid with
      | none =>
          rw [care_absent hd]
          show lookupL (match lookupL s.ll.nodes nid with
            | some d => (d.value, { s with ll := moveH s.ll nid })
            | none => (0, s)).2.proms q = some pr
          rw [hd]
          exact hq
      | some d =>
          cases hx : isExpiredN s.now d with
          | true =>
              rw [care_expired hd hx]
              show lookupL (getMiss { s with
                dataMap := delL s.dataMap k
                ll := removeN s.ll nid } k ttl).2.proms q = some pr
              rw [getMiss_proms, lookupL_append]
              have hq' : lookupL ({ s with
                  dataMap := delL s.dataMap k
                  ll := removeN s.ll nid } : State).proms q = some pr := hq
              rw [hq']
          | false =>
              rw [care_live hd hx]
              show lookupL (match lookupL s.ll.nodes nid with
                | some d => (d.value, { s with ll := moveH s.ll nid })
                | none => (0, s)).2.proms q = some pr
              rw [hd]
              exact hq

theorem putChain_proms_ext (s0 : State) (lastP : Nat) (ws : Bool) (k : Nat) (v : JSVal)
    {q : Nat} {pr : Prom} (hq : lookupL s0.proms q = some pr) :
    lookupL (putChain s0 lastP ws k v).2.proms q = some pr := by
  cases ws with
  | false =>
      exact allocProm_lookup_old _ _ (allocProm_lookup_old _ _ (allocProm_lookup_old _ _ hq))
  | true =>
      exact allocProm_lookup_old _ _ (allocProm_lookup_old _ _
        (allocProm_lookup_old _ _ (allocProm_lookup_old _ _ hq)))

theorem putStore_proms (s4 : State) (k sp : Nat) (eff : Option Nat) :
    (putStore s4 k sp eff).2.proms = s4.proms := by
  cases hk : lookupL s4.dataMap k with
  | none =>
      rw [putStore, hk]
      exact (evictIfNeeded_extras _).2.2.2.2.1
  | some nid =>
      rw [putStore, hk]

theorem doPut_proms_ext {s : State} (k : Nat) (v : JSVal) (ws : Bool) (ttl : Option Nat)
    {q : Nat} {pr : Prom} (hq : lookupL s.proms q = some pr) :
    lookupL (doPut s k v ws ttl).st.proms q = some pr := by
  have key : ∀ (lp : Nat × State),
      (∀ q' pr', lookupL s.proms q' = some pr' → lookupL lp.2.proms q' = some pr') →
      lookupL (putStore (putChain lp.2 lp.1 ws k v).2 k (putChain lp.2 lp.1 ws k v).1.2.2.2
        (effTtl (putChain lp.2 lp.1 ws k v).2 ttl)).2.proms q = some pr := by
    intro lp hext
    rw [putStore_proms]
    exact putChain_proms_ext _ _ _ _ _ (hext q pr hq)
  cases hk : lookupL s.dataMap k with
  | none =>
      rw [doPut, hk]
      exact key _ (fun q' pr' h => allocProm_lookup_old _ _ h)
  | some nid =>
      rw [doPut, hk]
      show lookupL (putStore (putChain (match lookupL s.ll.nodes nid with
          | some d => (d.value, s)
          | none => (0, s)).2 (match lookupL s.ll.nodes nid with
          | some d => (d.value, s)
          | none => (0, s)).1 ws k v).2 k
        (putChain (match lookupL s.ll.nodes nid with
          | some d => (d.value, s)
          | none => (0, s)).2 (match lookupL s.ll.nodes nid with
          | some d => (d.value, s)
          | none => (0, s)).1 ws k v).1.2.2.2
        (effTtl (putChain (match lookupL s.ll.nodes nid with
          | some d => (d.value, s)
          | none => (0, s)).2 (match lookupL s.ll.nodes nid with
          | some d => (d.value, s)
          | none => (0, s)).1 ws k v).2 ttl)).2.proms q = some pr
      cases hd : lookupL s.ll.nodes nid with
      | none => exact key (0, s) (fun q' pr' h => h)
      | some d => exact key (d.value, s) (fun q' pr' h => h)

theorem clearWalk_proms_ext (fuel : Nat) : ∀ (cur : Option Nat) (s : State) {q : Nat}
    {pr : Prom}, lookupL s.proms q = some pr →
    lookupL (clearWalk fuel cur s).proms q = some pr := by
  induction fuel with
  | zero => intro cur s q pr hq; rw [clearWalk_zero]; exact hq
  | succ fuel ih =>
      intro cur s q pr hq
      cases cur with
      | none => rw [clearWalk_none]; exact hq
      | some n =>
          cases hd : lookupL s.ll.nodes n with
          | none => rw [clearWalk_stuck fuel hd]; exact hq
          | some d =>
              rw [clearWalk_some fuel hd]
              apply ih
              show lookupL (s.proms ++ [(s.nextProm,
                (⟨PromDesc.pureP (Outcome.ok JSVal.undef),
                  PromPhase.settled (Outcome.ok JSVal.undef)⟩ : Prom))]) q = some pr
              rw [lookupL_append, hq]

theorem doClear_proms_ext {s : State} {q : Nat} {pr : Prom}
    (hq : lookupL s.proms q = some pr) :
    lookupL (doClear s).proms q = some pr := by
  show lookupL (clearWalk s.nextNode s.ll.head { s with dataMap := ([] : List (Nat × Nat)) }).proms q
    = some pr
  exact clearWalk_proms_ext _ _ _ hq

theorem fireObs_proms (s : State) (i : Nat) :
    (applyAct (Action.fireObs i) s).proms = s.proms := by
  simp only [applyAct]
  repeat' split
  all_goals rfl

/-- The serialization kernel: a saver promise `e` (registered by a `put`'s
`.then` combinator `p` over the swallow-catch `src`) can leave its
`notStarted` state only through the `thenSaver` reaction of `p` itself, and
that reaction's guard demands that `src` — hence the previous stored result
it chains on — has already settled. The started saver receives exactly the
arguments `(k, v)` recorded at `put` time. -/
theorem saver_start_char {s : State} (hI : Inv s) (a : Action)
    {p src e k : Nat} {v : JSVal}
    (hdesc : descOf s p = some (PromDesc.thenSaver src (some e) k v))
    (hn : phaseOf s e = PromPhase.notStarted)
    (hb : phaseOf (applyAct a s) e ≠ PromPhase.notStarted) :
    a = Action.fireThenSaver p ∧ isSettled s src ∧
    (∀ lastP, descOf s src = some (PromDesc.catchSwallow lastP) → isSettled s lastP) ∧
    (applyAct a s).events = s.events ++ [Event.saverStart e k v] := by
  have hEdesc : descOf s e = some PromDesc.prim := hI.prom.savPrim p src e k v hdesc
  obtain ⟨prE, hprE, hprEdesc⟩ : ∃ pr, lookupL s.proms e = some pr ∧ pr.desc = PromDesc.prim := by
    unfold descOf at hEdesc
    cases hL : lookupL s.proms e with
    | none => rw [hL] at hEdesc; exact nomatch hEdesc
    | some pr =>
        rw [hL] at hEdesc
        exact ⟨pr, rfl, Option.some.inj hEdesc⟩
  have hprEph : prE.phase = PromPhase.notStarted := by
    unfold phaseOf at hn
    rw [hprE] at hn
    exact hn
  have hE : lookupL s.proms e = some ⟨PromDesc.prim, PromPhase.notStarted⟩ := by
    rw [hprE]
    cases prE with
    | mk d ph =>
        simp only at hprEdesc hprEph
        rw [hprEdesc, hprEph]
  have contra : ∀ s' : State, lookupL s'.proms e
      = some (⟨PromDesc.prim, PromPhase.notStarted⟩ : Prom) →
      phaseOf s' e = PromPhase.notStarted := by
    intro s' h
    unfold phaseOf
    rw [h]
  cases a with
  | get k' ttl' => exact absurd (contra _ (doGet_proms_ext k' ttl' hE)) hb
  | put k' v' ws' ttl' => exact absurd (contra _ (doPut_proms_ext k' v' ws' ttl' hE)) hb
  | invalidate k' =>
      refine absurd (contra _ ?_) hb
      show lookupL (doInvalidate s k').proms e = _
      rw [doInvalidate_proms]
      exact hE
  | clear => exact absurd (contra _ (doClear_proms_ext hE)) hb
  | destroy =>
      have hE' : lookupL ({ s with hasTimer := false } : State).proms e
          = some (⟨PromDesc.prim, PromPhase.notStarted⟩ : Prom) := hE
      exact absurd (contra _ (doClear_proms_ext hE')) hb
  | cleanupExpired =>
      refine absurd (contra _ ?_) hb
      show lookupL (doCleanup s).proms e = _
      rw [doCleanup_proms]
      exact hE
  | has k' =>
      refine absurd (contra _ ?_) hb
      show lookupL (doHas s k').2.proms e = _
      rw [doHas_proms]
      exact hE
  | timerTick =>
      refine absurd (contra _ ?_) hb
      show lookupL (if s.hasTimer then doCleanup s else s).proms e = _
      by_cases h : s.hasTimer
      · rw [if_pos h, doCleanup_proms]; exact hE
      · rw [if_neg h]; exact hE
  | advanceTime dt => exact absurd (contra _ hE) hb
  | fireObs i =>
      refine absurd (contra _ ?_) hb
      rw [fireObs_proms]
      exact hE
  | settlePrim q o =>
      revert hb
      show phaseOf (match lookupL s.proms q with
        | some ⟨PromDesc.prim, PromPhase.pending⟩ => setPhase s q (PromPhase.settled o)
        | _ => s) e ≠ PromPhase.notStarted → _
      split
      · rename_i hL
        intro hb
        have hqe : e ≠ q := by
          intro h
          subst h
          rw [hE] at hL
          simp at hL
        exact absurd ((setPhase_phaseOf_ne s q _ hqe).trans hn) hb
      · intro hb
        exact absurd hn hb
  | fireCatch q =>
      revert hb
      show phaseOf (match lookupL s.proms q with
        | some ⟨PromDesc.catchSwallow src, PromPhase.pending⟩ =>
            match phaseOf s src with
            | PromPhase.settled (Outcome.ok w) => setPhase s q (PromPhase.settled (Outcome.ok w))
            | PromPhase.settled (Outcome.err e) =>
                if messageSafe e then
                  setPhase s q (PromPhase.settled (Outcome.ok JSVal.undef))
                else
                  setPhase s q (PromPhase.settled (Outcome.err (JSVal.errObj "TypeError")))
            | _ => s
        | _ => s) e ≠ PromPhase.notStarted → _
      split
      · rename_i src' hL
        have hqe : e ≠ q := by
          intro h
          subst h
          rw [hE] at hL
          simp at hL
        repeat' split
        all_goals intro hb
        all_goals first
          | exact absurd hn hb
          | exact absurd ((setPhase_phaseOf_ne s q _ hqe).trans hn) hb
      · intro hb
        exact absurd hn hb
  | adoptSaver q =>
      revert hb
      show phaseOf (match lookupL s.proms q with
        | some ⟨PromDesc.thenSaver _ (some e) _ _, PromPhase.started⟩ =>
            match phaseOf s e with
            | PromPhase.settled o => setPhase s q (PromPhase.settled o)
            | _ => s
        | _ => s) e ≠ PromPhase.notStarted → _
      split
      · rename_i src' e₂ k' v' hL
        have hqe : e ≠ q := by
          intro h
          subst h
          rw [hE] at hL
          simp at hL
        repeat' split
        all_goals intro hb
        all_goals first
          | exact absurd hn hb
          | exact absurd ((setPhase_phaseOf_ne s q _ hqe).trans hn) hb
      · intro hb
        exact absurd hn hb
  | fireThenConst q =>
      revert hb
      show phaseOf (match lookupL s.proms q with
        | some ⟨PromDesc.thenConst src v, PromPhase.pending⟩ =>
            match phaseOf s src with
            | PromPhase.settled (Outcome.ok _) => setPhase s q (PromPhase.settled (Outcome.ok v))
            | PromPhase.settled (Outcome.err e) => setPhase s q (PromPhase.settled (Outcome.err e))
            | _ => s
        | _ => s) e ≠ PromPhase.notStarted → _
      split
      · rename_i src' v' hL
        have hqe : e ≠ q := by
          intro h
          subst h
          rw [hE] at hL
          simp at hL
        repeat' split
        all_goals intro hb
        all_goals first
          | exact absurd hn hb
          | exact absurd ((setPhase_phaseOf_ne s q _ hqe).trans hn) hb
      · intro hb
        exact absurd hn hb
  | fireThenSaver q =>
      have hact : applyAct (Action.fireThenSaver q) s = (match lookupL s.proms q with
        | some ⟨PromDesc.thenSaver src savP k v, PromPhase.pending⟩ =>
            match phaseOf s src with
            | PromPhase.settled (Outcome.err e) => setPhase s q (PromPhase.settled (Outcome.err e))
            | PromPhase.settled (Outcome.ok _) =>
                match savP with
                | none => setPhase s q (PromPhase.settled (Outcome.ok JSVal.undef))
                | some e =>
                    let s1 := setPhase s q PromPhase.started
                    let s2 := setPhase s1 e PromPhase.pending
                    { s2 with events := s2.events ++ [Event.saverStart e k v] }
            | _ => s
        | _ => s) := rfl
      rw [hact] at hb ⊢
      revert hb
      split
      · rename_i src' savP' k' v' hL
        have hqe : e ≠ q := by
          intro h
          subst h
          rw [hE] at hL
          simp at hL
        split
        · rename_i eo heo
          intro hb
          exact absurd ((setPhase_phaseOf_ne s q _ hqe).trans hn) hb
        · rename_i w hw
          split
          · intro hb
            exact absurd ((setPhase_phaseOf_ne s q _ hqe).trans hn) hb
          · rename_i e₂
            intro hb
            by_cases he₂ : e₂ = e
            · subst he₂
              have hqdesc : descOf s q = some (PromDesc.thenSaver src' (some e₂) k' v') := by
                unfold descOf
                rw [hL]
                rfl
              have hqp : q = p := hI.prom.refUniq q p src' src e₂ k' v' k v hqdesc hdesc
              subst hqp
              rw [hdesc] at hqdesc
              obtain ⟨hsrc', hsv, hk', hv'⟩ :=
                PromDesc.thenSaver.inj (Option.some.inj hqdesc)
              subst hsrc'
              subst hk'
              subst hv'
              refine ⟨rfl, ⟨_, hw⟩, ?_, ?_⟩
              · intro lastP hcd
                exact hI.prom.catchSrc src lastP hcd ⟨_, hw⟩
              · show (setPhase (setPhase s q PromPhase.started) e₂ PromPhase.pending).events
                  ++ [Event.saverStart e₂ k v] = s.events ++ [Event.saverStart e₂ k v]
                rw [setPhase_events, setPhase_events]
            · exfalso
              apply hb
              show phaseOf (setPhase (setPhase s q PromPhase.started) e₂ PromPhase.pending) e
                = PromPhase.notStarted
              rw [setPhase_phaseOf_ne _ e₂ _ (fun h => he₂ h.symm),
                setPhase_phaseOf_ne s q _ hqe]
              exact hn
        · intro hb
          exact absurd hn hb
      · intro hb
        exact absurd hn hb

/-! ### Supporting facts for the claim theorems -/

theorem lookupL_delL_none {β : Type} {l : List (Nat × β)} {k k₀ : Nat}
    (h : lookupL l k = none) : lookupL (delL l k₀) k = none := by
  induction l with
  | nil => rfl
  | cons a rest ih =>
      obtain ⟨a1, a2⟩ := a
      rw [lookupL] at h
      by_cases he : a1 = k
      · rw [if_pos he] at h
        exact nomatch h
      · rw [if_neg he] at h
        show lookupL (if a1 = k₀ then rest else (a1, a2) :: delL rest k₀) k = none
        by_cases he₀ : a1 = k₀
        · rw [if_pos he₀]
          exact h
        · rw [if_neg he₀]
          show lookupL ((a1, a2) :: delL rest k₀) k = none
          rw [lookupL, if_neg he]
          exact ih h

theorem lookupL_mem_pair {β : Type} {l : List (Nat × β)} {k : Nat} {v : β}
    (h : lookupL l k = some v) : (k, v) ∈ l := by
  induction l with
  | nil => exact nomatch h
  | cons a rest ih =>
      obtain ⟨a1, a2⟩ := a
      rw [lookupL] at h
      by_cases he : a1 = k
      · rw [if_pos he] at h
        have h2 : a2 = v := Option.some.inj h
        rw [he, h2]
        exact List.mem_cons_self _ _
      · rw [if_neg he] at h
        exact List.mem_cons_of_mem _ (ih h)

theorem removeKeys_lookup_none : ∀ (ks : List Nat) (s : State) {k : Nat},
    lookupL s.dataMap k = none → lookupL (removeKeys ks s).dataMap k = none := by
  intro ks
  induction ks with
  | nil => intro s k h; exact h
  | cons k₀ rest ih =>
      intro s k h
      show lookupL (match lookupL s.dataMap k₀ with
        | none => removeKeys rest s
        | some nid =>
            removeKeys rest { s with dataMap := delL s.dataMap k₀, ll := removeN s.ll nid }).dataMap k
        = none
      cases hk₀ : lookupL s.dataMap k₀ with
      | none => exact ih s h
      | some nid =>
          exact ih { s with dataMap := delL s.dataMap k₀, ll := removeN s.ll nid }
            (lookupL_delL_none h)

theorem removeKeys_nodup : ∀ (ks : List Nat) (s : State),
    ((s.dataMap.map Prod.fst).Nodup) →
    ((removeKeys ks s).dataMap.map Prod.fst).Nodup := by
  intro ks
  induction ks with
  | nil => intro s h; exact h
  | cons k₀ rest ih =>
      intro s h
      show ((match lookupL s.dataMap k₀ with
        | none => removeKeys rest s
        | some nid =>
            removeKeys rest { s with dataMap := delL s.dataMap k₀, ll := removeN s.ll nid }).dataMap.map Prod.fst).Nodup
      cases hk₀ : lookupL s.dataMap k₀ with
      | none => exact ih s h
      | some nid =>
          exact ih { s with dataMap := delL s.dataMap k₀, ll := removeN s.ll nid }
            (nodup_keys_delL _ h)

theorem removeKeys_removes : ∀ (ks : List Nat) (s : State) {k : Nat}, k ∈ ks →
    ((s.dataMap.map Prod.fst).Nodup) →
    ((removeKeys ks s).dataMap.map Prod.fst).Nodup ∧
    lookupL (removeKeys ks s).dataMap k = none := by
  intro ks
  induction ks with
  | nil => intro s k h; exact absurd h (List.not_mem_nil k)
  | cons k₀ rest ih =>
      intro s k hmem hnd
      show ((match lookupL s.dataMap k₀ with
        | none => removeKeys rest s
        | some nid =>
            removeKeys rest { s with dataMap := delL s.dataMap k₀, ll := removeN s.ll nid }).dataMap.map Prod.fst).Nodup ∧
        lookupL (match lookupL s.dataMap k₀ with
        | none => removeKeys rest s
        | some nid =>
            removeKeys rest { s with dataMap := delL s.dataMap k₀, ll := removeN s.ll nid }).dataMap k
        = none
      rcases List.mem_cons.mp hmem with rfl | hrest
      · cases hk₀ : lookupL s.dataMap k with
        | none =>
            refine ⟨?_, removeKeys_lookup_none rest s hk₀⟩
            exact (removeKeys_nodup rest s hnd)
        | some nid =>
            have hnd' : ((delL s.dataMap k).map Prod.fst).Nodup := nodup_keys_delL _ hnd
            refine ⟨removeKeys_nodup rest _ hnd', ?_⟩
            exact removeKeys_lookup_none rest _ (lookupL_delL_self hnd)
      · cases hk₀ : lookupL s.dataMap k₀ with
        | none => exact ih s hrest hnd
        | some nid =>
            exact ih { s with dataMap := delL s.dataMap k₀, ll := removeN s.ll nid } hrest
              (nodup_keys_delL _ hnd)

theorem doCleanup_removes {s : State} (hI : Inv s) {k nid : Nat} {d : NodeData}
    (hk : lookupL s.dataMap k = some nid) (hd : lookupL s.ll.nodes nid = some d)
    (hx : isExpiredN s.now d = true) :
    lookupL (doCleanup s).dataMap k = none := by
  obtain ⟨l, hc⟩ := hI.corr
  have hpair : (k, nid) ∈ s.dataMap := lookupL_mem_pair hk
  have hks : k ∈ (s.dataMap.filter (fun kv =>
      match lookupL s.ll.nodes kv.2 with
      | some d => isExpiredN s.now d
      | none => false)).map Prod.fst := by
    refine List.mem_map.mpr ⟨(k, nid), List.mem_filter.mpr ⟨hpair, ?_⟩, rfl⟩
    show (match lookupL s.ll.nodes nid with
      | some d => isExpiredN s.now d
      | none => false) = true
    rw [hd]
    exact hx
  exact (removeKeys_removes _ s hks hc.keysND).2

theorem doGet_hit {s : State} {k nid : Nat} {d : NodeData} (ttl : Option Nat)
    (hk : lookupL s.dataMap k = some nid) (hd : lookupL s.ll.nodes nid = some d)
    (hx : isExpiredN s.now d = false) :
    doGet s k ttl = (d.value, { s with ll := moveH s.ll nid }) := by
  rw [doGet, hk]
  show (if (checkAndRemoveExpired s k nid).1
    then getMiss (checkAndRemoveExpired s k nid).2 k ttl
    else match lookupL (checkAndRemoveExpired s k nid).2.ll.nodes nid with
      | some d => (d.value, { (checkAndRemoveExpired s k nid).2 with
          ll := moveH (checkAndRemoveExpired s k nid).2.ll nid })
      | none => (0, (checkAndRemoveExpired s k nid).2)) = _
  rw [care_live hd hx]
  show (match lookupL s.ll.nodes nid with
    | some d => (d.value, { s with ll := moveH s.ll nid })
    | none => (0, s)) = _
  rw [hd]

/-- The miss path of `get` when the cache is strictly under capacity: no
eviction happens, the loader is called exactly once, and the fresh promise is
stored in a node bound to the key. -/
theorem getMiss_no_evict {s : State} (hF : Fresh s) {k : Nat} (ttl : Option Nat)
    (hk : lookupL s.dataMap k = none) (hlen : s.dataMap.length < s.capacity) :
    (getMiss s k ttl).1 = s.nextProm ∧
    (getMiss s k ttl).2.events = s.events ++ [Event.loaderCall k s.nextProm] ∧
    lookupL (getMiss s k ttl).2.dataMap k = some s.nextNode ∧
    (∃ d, lookupL (getMiss s k ttl).2.ll.nodes s.nextNode = some d ∧
      d.value = s.nextProm ∧ d.expiresAt = expiryOf s.now (effTtl s ttl)) ∧
    (getMiss s k ttl).2.now = s.now ∧
    (getMiss s k ttl).2.nextProm = s.nextProm + 1 := by
  set sB : State := { (allocProm s PromDesc.prim PromPhase.pending).2 with
    events := (allocProm s PromDesc.prim PromPhase.pending).2.events
      ++ [Event.loaderCall k s.nextProm] } with hsB
  set dn : NodeData :=
    ⟨some k, s.nextProm, expiryOf sB.now (effTtl sB ttl), none, none⟩ with hdn
  set sMid : State := { sB with
      dataMap := setL sB.dataMap k sB.nextNode
      ll := addH { sB.ll with nodes := sB.ll.nodes ++ [(sB.nextNode, dn)] } sB.nextNode
      nextNode := sB.nextNode + 1 } with hsMid
  have hnotmem : k ∉ sB.dataMap.map Prod.fst := by
    intro hm
    obtain ⟨w, hw'⟩ := lookup_isSome_of_mem_keys hm
    have hw2 : lookupL s.dataMap k = some w := hw'
    rw [hk] at hw2
    exact nomatch hw2
  have hlenM : sMid.dataMap.length = s.dataMap.length + 1 := by
    show (setL sB.dataMap k sB.nextNode).length = s.dataMap.length + 1
    exact length_setL_of_not_mem _ hnotmem
  have hev : evictIfNeeded sMid = sMid := by
    apply evict_of_le
    show ¬ sMid.dataMap.length > sMid.capacity
    have hcap : sMid.capacity = s.capacity := rfl
    omega
  have hnidfresh : lookupL s.ll.nodes s.nextNode = none := by
    apply lookupL_eq_none_of_not_mem
    intro hmem
    exact absurd (hF.nodeDom _ hmem) (by omega)
  refine ⟨rfl, ?_, ?_, ?_, ?_, ?_⟩
  · have h1 : (getMiss s k ttl).2.events = (evictIfNeeded sMid).events := rfl
    rw [h1, hev]
    rfl
  · have h1 : (getMiss s k ttl).2.dataMap = (evictIfNeeded sMid).dataMap := rfl
    rw [h1, hev]
    show lookupL (setL sB.dataMap k sB.nextNode) k = some s.nextNode
    exact lookupL_setL_self _ _ _
  · have h1 : (getMiss s k ttl).2.ll = (evictIfNeeded sMid).ll := rfl
    rw [h1, hev]
    have hcore := addH_core { sB.ll with nodes := sB.ll.nodes ++ [(sB.nextNode, dn)] } sB.nextNode
    have hext : lookupL (sB.ll.nodes ++ [(sB.nextNode, dn)]) sB.nextNode = some dn := by
      rw [lookupL_append]
      have h2 : lookupL sB.ll.nodes sB.nextNode = none := hnidfresh
      rw [h2]
      show lookupL [(sB.nextNode, dn)] sB.nextNode = some dn
      simp [lookupL]
    obtain ⟨d', hd', hcd⟩ := sameCore_lookup hcore hext
    refine ⟨d', hd', ?_, ?_⟩
    · exact (value_eq_of_core hcd).symm ▸ rfl
    · exact (expiresAt_eq_of_core hcd).symm ▸ rfl
  · have h1 : (getMiss s k ttl).2.now = (evictIfNeeded sMid).now := rfl
    rw [h1, hev]
    rfl
  · have h1 : (getMiss s k ttl).2.nextProm = (evictIfNeeded sMid).nextProm := rfl
    rw [h1, hev]
    rfl

/-- Over capacity, `_evictIfNeeded` removes exactly the tail entry: the
tail node exists, carries a key mapped to it, and the state change is
precisely that key's deletion plus the tail's unlinking. -/
theorem evict_exact {s : State} (hcorr : ∃ l, Corr s.dataMap s.ll l)
    (hover : s.dataMap.length > s.capacity) :
    ∃ t d tk, s.ll.tail = some t ∧ lookupL s.ll.nodes t = some d ∧ d.key = some tk ∧
      lookupL s.dataMap tk = some t ∧
      evictIfNeeded s = { s with dataMap := delL s.dataMap tk, ll := removeN s.ll t } := by
  obtain ⟨l, hc⟩ := hcorr
  have hne : s.dataMap ≠ [] := by
    intro he
    rw [he] at hover
    simp at hover
  obtain ⟨⟨ka, na⟩, rest, hrest⟩ : ∃ a rest, s.dataMap = a :: rest := by
    cases hmp : s.dataMap with
    | nil => exact absurd hmp hne
    | cons a rest => exact ⟨a, rest, rfl⟩
  have hka : lookupL s.dataMap ka = some na := by
    rw [hrest]
    simp [lookupL]
  have hnal : na ∈ l := (hc.m2l ka na hka).1
  have hlne : l ≠ [] := fun h => by rw [h] at hnal; exact absurd hnal (List.not_mem_nil na)
  have htl : s.ll.tail = some (l.getLast hlne) := by
    rw [hc.lok.tail_eq, List.getLast?_eq_getLast l hlne]
  set t := l.getLast hlne with ht
  have htmem : t ∈ l := List.getLast_mem hlne
  obtain ⟨tk, htk⟩ := hc.l2m t htmem
  obtain ⟨_, d, hd, hdk⟩ := hc.m2l tk t htk
  refine ⟨t, d, tk, htl, hd, hdk, htk, ?_⟩
  rw [evictIfNeeded, if_pos hover, htl]
  show evictTail s t = _
  rw [evictTail, hd]
  show evictTailGo s t d = _
  rw [evictTailGo, hdk]

/-- Creating a node in a full cache evicts exactly the tail entry: the new
key is stored, the tail's key is gone, every other binding is untouched, and
the map size is unchanged. -/
theorem putStore_full {s4 : State} (hI : Inv s4) {k : Nat} (sp : Nat) (eff : Option Nat)
    (hk : lookupL s4.dataMap k = none)
    (hfull : s4.dataMap.length = s4.capacity) (hcap : 0 < s4.capacity) :
    ∃ t d tk,
      s4.ll.tail = some t ∧ lookupL s4.ll.nodes t = some d ∧ d.key = some tk ∧ tk ≠ k ∧
      lookupL s4.dataMap tk = some t ∧
      (putStore s4 k sp eff).1 = s4.nextNode ∧
      lookupL (putStore s4 k sp eff).2.dataMap k = some s4.nextNode ∧
      lookupL (putStore s4 k sp eff).2.dataMap tk = none ∧
      (∀ k', k' ≠ k → k' ≠ tk →
        lookupL (putStore s4 k sp eff).2.dataMap k' = lookupL s4.dataMap k') ∧
      (putStore s4 k sp eff).2.dataMap.length = s4.dataMap.length := by
  obtain ⟨l, hc⟩ := hI.corr
  rw [putStore, hk]
  set nid := s4.nextNode with hnid
  set dn : NodeData := ⟨some k, sp, expiryOf s4.now eff, none, none⟩ with hdn
  set llExt : LL := { s4.ll with nodes := s4.ll.nodes ++ [(nid, dn)] } with hllExt
  set sMid : State := { s4 with
      dataMap := setL s4.dataMap k nid
      ll := addH llExt nid
      nextNode := nid + 1 } with hsMid
  have hnidfresh : lookupL s4.ll.nodes nid = none := by
    apply lookupL_eq_none_of_not_mem
    intro hmem
    exact absurd (hI.fresh.nodeDom nid hmem) (by omega)
  have hcMid : Corr sMid.dataMap sMid.ll (nid :: l) := corr_insert hc hk hnidfresh rfl
  have hnotmem : k ∉ s4.dataMap.map Prod.fst := by
    intro hm
    obtain ⟨w, hw'⟩ := lookup_isSome_of_mem_keys hm
    rw [hk] at hw'
    exact nomatch hw'
  have hlenM : sMid.dataMap.length = s4.dataMap.length + 1 := by
    show (setL s4.dataMap k nid).length = s4.dataMap.length + 1
    exact length_setL_of_not_mem _ hnotmem
  have hover : sMid.dataMap.length > sMid.capacity := by
    have h2 : sMid.capacity = s4.capacity := rfl
    omega
  obtain ⟨t, d, tk, htl, hd, hdk, htk, hev⟩ := evict_exact ⟨nid :: l, hcMid⟩ hover
  have hnidnotl : nid ∉ l := by
    intro hm
    obtain ⟨d₀, hd₀⟩ := dll_mem_lookup hc.lok.chain hm
    rw [hnidfresh] at hd₀
    exact nomatch hd₀
  have htmem : t ∈ nid :: l := by
    have := hcMid.lok.tail_eq
    rw [htl] at this
    exact mem_of_getLastq this.symm
  have hlmapne : s4.dataMap ≠ [] := by
    intro he
    rw [he] at hfull
    simp at hfull
    omega
  obtain ⟨⟨ka, na⟩, rest, hrest⟩ : ∃ a rest, s4.dataMap = a :: rest := by
    cases hmp : s4.dataMap with
    | nil => exact absurd hmp hlmapne
    | cons a rest => exact ⟨a, rest, rfl⟩
  have hka : lookupL s4.dataMap ka = some na := by
    rw [hrest]
    simp [lookupL]
  have hnal : na ∈ l := (hc.m2l ka na hka).1
  have hlne : l ≠ [] := fun h => by
    rw [h] at hnal
    exact absurd hnal (List.not_mem_nil na)
  have htl2 : sMid.ll.tail = l.getLast? := by
    rw [hcMid.lok.tail_eq]
    show (nid :: l).getLast? = l.getLast?
    cases hl : l with
    | nil => exact absurd hl hlne
    | cons b bs => simp [List.getLast?]
  have htinl : t ∈ l := by
    rw [htl] at htl2
    exact mem_of_getLastq htl2.symm
  have htne : t ≠ nid := by
    intro he
    rw [he] at htinl
    exact hnidnotl htinl
  have htkne : tk ≠ k := by
    intro he
    subst he
    have hkk : lookupL sMid.dataMap tk = some nid := lookupL_setL_self _ _ _
    rw [htk] at hkk
    exact htne (Option.some.inj hkk)
  -- translate the tail facts back to s4
  obtain ⟨d₁, hd₁, hc₁⟩ := sameCore_lookup_rev (addH_core llExt nid) hd
  rcases lookup_append_single_rev hd₁ with ⟨he, _⟩ | hold
  · exact absurd he htne
  · have htl4 : s4.ll.tail = some t := by
      have h2 : sMid.ll.tail = s4.ll.tail := htl2.trans hc.lok.tail_eq.symm
      rw [← h2, htl]
    have htk4 : lookupL s4.dataMap tk = some t := by
      have h2 : lookupL sMid.dataMap tk = lookupL s4.dataMap tk := by
        show lookupL (setL s4.dataMap k nid) tk = lookupL s4.dataMap tk
        exact lookupL_setL_ne _ _ htkne
      rw [← h2, htk]
    have hdk1 : d₁.key = some tk := by
      rw [key_eq_of_core hc₁.symm]
      exact hdk
    refine ⟨t, d₁, tk, htl4, hold, hdk1, htkne, htk4, rfl, ?_, ?_, ?_, ?_⟩
    · show lookupL (evictIfNeeded sMid).dataMap k = some nid
      rw [hev]
      show lookupL (delL sMid.dataMap tk) k = some nid
      rw [lookupL_delL_ne _ (fun h => htkne h.symm)]
      exact lookupL_setL_self _ _ _
    · show lookupL (evictIfNeeded sMid).dataMap tk = none
      rw [hev]
      show lookupL (delL sMid.dataMap tk) tk = none
      exact lookupL_delL_self (nodup_keys_setL _ _ hc.keysND)
    · intro k' hk1 hk2
      show lookupL (evictIfNeeded sMid).dataMap k' = lookupL s4.dataMap k'
      rw [hev]
      show lookupL (delL sMid.dataMap tk) k' = lookupL s4.dataMap k'
      rw [lookupL_delL_ne _ hk2]
      exact lookupL_setL_ne _ _ hk1
    · show (evictIfNeeded sMid).dataMap.length = s4.dataMap.length
      rw [hev]
      show (delL sMid.dataMap tk).length = s4.dataMap.length
      have hmemtk : tk ∈ sMid.dataMap.map Prod.fst := lookupL_mem_keys htk
      have := length_delL_of_mem hmemtk
      omega

/-- A `save` observer whose watched promise no longer equals the stored
node's value (the entry was replaced by a newer `put`) does not touch the
store when it fires. -/
theorem fireObs_save_mismatch {s : State} (i : Nat) {ob : Obs}
    (hget : s.observers.get? i = some ob) (hkind : ob.kind = ObsKind.save)
    (hnf : ob.fired = false) {e : JSVal}
    (hph : phaseOf s ob.watched = PromPhase.settled (Outcome.err e))
    {nid : Nat} {d : NodeData} (hnid : lookupL s.dataMap ob.key = some nid)
    (hd : lookupL s.ll.nodes nid = some d) (hne : d.value ≠ ob.watched) :
    (applyAct (Action.fireObs i) s).dataMap = s.dataMap ∧
    (applyAct (Action.fireObs i) s).ll = s.ll := by
  set s1 : State := { s with observers := s.observers.set i { ob with fired := true } } with hs1
  have hstate : applyAct (Action.fireObs i) s = s1 := by
    have hact : applyAct (Action.fireObs i) s = (match s.observers.get? i with
      | none => s
      | some ob =>
          if ob.fired then s
          else
            match phaseOf s ob.watched with
            | PromPhase.settled (Outcome.err _) =>
                let s1 := { s with observers := s.observers.set i { ob with fired := true } }
                match ob.kind with
                | ObsKind.load =>
                    if lookupL s1.dataMap ob.key = some ob.nid then
                      { s1 with dataMap := delL s1.dataMap ob.key, ll := removeN s1.ll ob.nid }
                    else s1
                | ObsKind.save =>
                    match lookupL s1.dataMap ob.key with
                    | none => s1
                    | some nid' =>
                        match lookupL s1.ll.nodes nid' with
                        | none => s1
                        | some d' =>
                            if d'.value = ob.watched then
                              { s1 with dataMap := delL s1.dataMap ob.key, ll := removeN s1.ll ob.nid }
                            else s1
            | _ => s) := rfl
    rw [hact, hget]
    show (if ob.fired then s
      else
        match phaseOf s ob.watched with
        | PromPhase.settled (Outcome.err _) =>
            match ob.kind with
            | ObsKind.load =>
                if lookupL s1.dataMap ob.key = some ob.nid then
                  { s1 with dataMap := delL s1.dataMap ob.key, ll := removeN s1.ll ob.nid }
                else s1
            | ObsKind.save =>
                match lookupL s1.dataMap ob.key with
                | none => s1
                | some nid' =>
                    match lookupL s1.ll.nodes nid' with
                    | none => s1
                    | some d' =>
                        if d'.value = ob.watched then
                          { s1 with dataMap := delL s1.dataMap ob.key, ll := removeN s1.ll ob.nid }
                        else s1
        | _ => s) = s1
    rw [hnf]
    show (match phaseOf s ob.watched with
      | PromPhase.settled (Outcome.err _) =>
          match ob.kind with
          | ObsKind.load =>
              if lookupL s1.dataMap ob.key = some ob.nid then
                { s1 with dataMap := delL s1.dataMap ob.key, ll := removeN s1.ll ob.nid }
              else s1
          | ObsKind.save =>
              match lookupL s1.dataMap ob.key with
              | none => s1
              | some nid' =>
                  match lookupL s1.ll.nodes nid' with
                  | none => s1
                  | some d' =>
                      if d'.value = ob.watched then
                        { s1 with dataMap := delL s1.dataMap ob.key, ll := removeN s1.ll ob.nid }
                      else s1
      | _ => s) = s1
    rw [hph]
    show (match ob.kind with
      | ObsKind.load =>
          if lookupL s1.dataMap ob.key = some ob.nid then
            { s1 with dataMap := delL s1.dataMap ob.key, ll := removeN s1.ll ob.nid }
          else s1
      | ObsKind.save =>
          match lookupL s1.dataMap ob.key with
          | none => s1
          | some nid' =>
              match lookupL s1.ll.nodes nid' with
              | none => s1
              | some d' =>
                  if d'.value = ob.watched then
                    { s1 with dataMap := delL s1.dataMap ob.key, ll := removeN s1.ll ob.nid }
                  else s1) = s1
    rw [hkind]
    show (match lookupL s1.dataMap ob.key with
      | none => s1
      | some nid' =>
          match lookupL s1.ll.nodes nid' with
          | none => s1
          | some d' =>
              if d'.value = ob.watched then
                { s1 with dataMap := delL s1.dataMap ob.key, ll := removeN s1.ll ob.nid }
              else s1) = s1
    have hnid1 : lookupL s1.dataMap ob.key = some nid := hnid
    rw [hnid1]
    show (match lookupL s1.ll.nodes nid with
      | none => s1
      | some d' =>
          if d'.value = ob.watched then
            { s1 with dataMap := delL s1.dataMap ob.key, ll := removeN s1.ll ob.nid }
          else s1) = s1
    have hd1 : lookupL s1.ll.nodes nid = some d := hd
    rw [hd1]
    show (if d.value = ob.watched then
        { s1 with dataMap := delL s1.dataMap ob.key, ll := removeN s1.ll ob.nid }
      else s1) = s1
    rw [if_neg hne]
  rw [hstate]
  exact ⟨rfl, rfl⟩

/-- `put` of a fresh key into a full cache stores the new key and evicts
exactly the tail entry, leaving every other binding and the map size
unchanged. -/
theorem doPut_full {s : State} (hI : Inv s) (k : Nat) (v : JSVal) (ws : Bool)
    (ttl : Option Nat) (hk : lookupL s.dataMap k = none)
    (hfull : s.dataMap.length = s.capacity) (hcap : 0 < s.capacity) :
    ∃ t d tk, s.ll.tail = some t ∧ lookupL s.ll.nodes t = some d ∧ d.key = some tk ∧ tk ≠ k ∧
      lookupL s.dataMap tk = some t ∧
      lookupL (doPut s k v ws ttl).st.dataMap k = some s.nextNode ∧
      lookupL (doPut s k v ws ttl).st.dataMap tk = none ∧
      (∀ k', k' ≠ k → k' ≠ tk →
        lookupL (doPut s k v ws ttl).st.dataMap k' = lookupL s.dataMap k') ∧
      (doPut s k v ws ttl).st.dataMap.length = s.dataMap.length := by
  rw [doPut, hk]
  set sL : State := (allocProm s (PromDesc.pureP (Outcome.ok JSVal.undef))
    (PromPhase.settled (Outcome.ok JSVal.undef))).2 with hsL
  have hIL : Inv sL :=
    inv_allocProm hI (by simp [descRefs]) (fun _ h => nomatch h)
      (fun _ _ _ _ h => nomatch h) (fun _ _ _ _ h => nomatch h) (fun _ _ h => nomatch h)
  set s4 : State := (putChain sL s.nextProm ws k v).2 with hs4
  set sp : Nat := (putChain sL s.nextProm ws k v).1.2.2.2 with hsp
  have hI4 : Inv s4 := inv_putChain hIL (Nat.lt_succ_self s.nextProm) ws k v
  obtain ⟨hdm, hll, hobs, hevs, hnow, hcapF, hnn, _, _⟩ :=
    putChain_frame sL s.nextProm ws k v
  have hk4 : lookupL s4.dataMap k = none := by
    rw [hdm]
    exact hk
  have hfull4 : s4.dataMap.length = s4.capacity := by
    rw [hdm, hcapF]
    exact hfull
  have hcap4 : 0 < s4.capacity := by
    rw [hcapF]
    exact hcap
  obtain ⟨t, d, tk, htl4, hd4, hdk, htkne, htk4, hst1, hstk, hstknone, hframe, hlen⟩ :=
    putStore_full hI4 sp (effTtl s4 ttl) hk4 hfull4 hcap4
  rw [hll] at htl4 hd4
  rw [hdm] at htk4 hframe hlen
  rw [hnn] at hstk
  exact ⟨t, d, tk, htl4, hd4, hdk, htkne, htk4, hstk, hstknone, hframe, hlen⟩

theorem getMiss_events (s : State) (k : Nat) (ttl : Option Nat) :
    (getMiss s k ttl).2.events = s.events ++ [Event.loaderCall k s.nextProm] :=
  (evictIfNeeded_extras _).2.2.2.1

theorem doHas_absent {s : State} {k : Nat} (hk : lookupL s.dataMap k = none) :
    doHas s k = (false, s) := by
  rw [doHas, hk]

theorem doHas_live {s : State} {k nid : Nat} {d : NodeData}
    (hk : lookupL s.dataMap k = some nid) (hd : lookupL s.ll.nodes nid = some d)
    (hx : isExpiredN s.now d = false) : doHas s k = (true, s) := by
  rw [doHas, hk]
  show (if (checkAndRemoveExpired s k nid).1 then (false, (checkAndRemoveExpired s k nid).2)
    else (true, (checkAndRemoveExpired s k nid).2)) = _
  rw [care_live hd hx]
  rfl

theorem doHas_expired {s : State} {k nid : Nat} {d : NodeData}
    (hk : lookupL s.dataMap k = some nid) (hd : lookupL s.ll.nodes nid = some d)
    (hx : isExpiredN s.now d = true) :
    doHas s k = (false, { s with dataMap := delL s.dataMap k, ll := removeN s.ll nid }) := by
  rw [doHas, hk]
  show (if (checkAndRemoveExpired s k nid).1 then (false, (checkAndRemoveExpired s k nid).2)
    else (true, (checkAndRemoveExpired s k nid).2)) = _
  rw [care_expired hd hx]
  rfl

/-! ### The claims -/

/-- Claim C5 (capacity invariant): for every cache constructed with capacity
`c`, after any sequence of operations completes, `size() ≤ c`. Every public
operation and every promise reaction preserves the bound, so it holds at
every operation boundary of every run. -/
theorem C5_capacity_bound (acts : List Action) (cap : Nat) (dttl : Option Nat) (tmr : Bool) :
    doSize (run acts (initState cap dttl tmr)) ≤ cap := by
  have h := sizeLe_run acts (inv_initState cap dttl tmr) (sizeLe_initState cap dttl tmr)
  have hc := capacity_run acts (initState cap dttl tmr)
  show (run acts (initState cap dttl tmr)).dataMap.length ≤ cap
  have h2 : (run acts (initState cap dttl tmr)).dataMap.length
      ≤ (run acts (initState cap dttl tmr)).capacity := h
  rw [hc] at h2
  exact h2

/-- Claim C7 (index–list consistency): after any run, the index's keys are
pairwise distinct, and there is a recency ordering `l` realising the full
correspondence `Corr`: the prev/next links form a consistent chain from
`head` to `tail` carrying exactly the nodes of `l` without duplicates
(`ListOK`), every key of the index maps to a node on that chain whose
recorded key is it, and every chained node is mapped by some key. -/
theorem C7_index_list_consistency (acts : List Action) (cap : Nat) (dttl : Option Nat)
    (tmr : Bool) :
    ((run acts (initState cap dttl tmr)).dataMap.map Prod.fst).Nodup ∧
    ∃ l : List Nat,
      Corr (run acts (initState cap dttl tmr)).dataMap (run acts (initState cap dttl tmr)).ll l := by
  obtain ⟨⟨l, hc⟩, _, _, _, _⟩ := inv_run_init acts cap dttl tmr
  exact ⟨hc.keysND, ⟨l, hc⟩⟩

/-- Claim C10 (frame property of `has`): `has(k)` on an absent key or on a
present non-expired entry returns the whole state unchanged — no recency
movement, no entry mutation, no index change; its only mutation is the
removal of `k`'s entry when that entry is expired. -/
theorem C10_has_frame (s : State) (k : Nat) :
    (lookupL s.dataMap k = none → doHas s k = (false, s)) ∧
    (∀ nid d, lookupL s.dataMap k = some nid → lookupL s.ll.nodes nid = some d →
      isExpiredN s.now d = false → doHas s k = (true, s)) ∧
    (∀ nid d, lookupL s.dataMap k = some nid → lookupL s.ll.nodes nid = some d →
      isExpiredN s.now d = true →
      doHas s k = (false, { s with dataMap := delL s.dataMap k, ll := removeN s.ll nid })) :=
  ⟨fun hk => doHas_absent hk,
   fun _ _ hk hd hx => doHas_live hk hd hx,
   fun _ _ hk hd hx => doHas_expired hk hd hx⟩

/-- Witness for C10: a concrete one-entry cache whose entry expired at
instant 5 with the clock at 10; `has` reports `false` and removes exactly
that entry. -/
theorem C10_has_frame_witness :
    doHas (⟨10, none, false, [(1, 0)],
        ⟨[(0, (⟨some 1, 0, some 5, none, none⟩ : NodeData))], some 0, some 0⟩,
        [], [], [], 1, 1, 10⟩ : State) 1
      = (false, { (⟨10, none, false, [(1, 0)],
          ⟨[(0, (⟨some 1, 0, some 5, none, none⟩ : NodeData))], some 0, some 0⟩,
          [], [], [], 1, 1, 10⟩ : State) with
        dataMap := delL [(1, 0)] 1
        ll := removeN ⟨[(0, (⟨some 1, 0, some 5, none, none⟩ : NodeData))], some 0, some 0⟩ 0 }) :=
  (C10_has_frame _ 1).2.2 0 ⟨some 1, 0, some 5, none, none⟩ (by decide) (by decide) (by decide)

/-- Claim C8 (TTL expiry semantics): a write with effective ttl `0`, or with
no effective ttl at all, stores no expiry instant, and an entry without an
expiry instant never expires; a write with positive ttl `T` stores the
absolute instant `write-time + T`; once the clock strictly passes that
instant, `has` returns `false` and physically removes the entry, and the
`cleanupExpired` sweep removes every expired entry. -/
theorem C8_ttl_expiry :
    (∀ now : Nat, expiryOf now (some 0) = none) ∧
    (∀ now : Nat, expiryOf now none = none) ∧
    (∀ now T : Nat, 0 < T → expiryOf now (some T) = some (now + T)) ∧
    (∀ (d : NodeData), d.expiresAt = none → ∀ now, isExpiredN now d = false) ∧
    (∀ (s : State) (k nid : Nat) (d : NodeData) (X : Nat), Inv s →
      lookupL s.dataMap k = some nid → lookupL s.ll.nodes nid = some d →
      d.expiresAt = some X → X < s.now →
      (doHas s k).1 = false ∧ lookupL (doHas s k).2.dataMap k = none) ∧
    (∀ (s : State) (k nid : Nat) (d : NodeData), Inv s →
      lookupL s.dataMap k = some nid → lookupL s.ll.nodes nid = some d →
      isExpiredN s.now d = true →
      lookupL (doCleanup s).dataMap k = none) := by
  refine ⟨fun now => rfl, fun now => rfl, ?_, ?_, ?_, ?_⟩
  · intro now T hT
    show (if 0 < T then some (now + T) else none) = some (now + T)
    rw [if_pos hT]
  · intro d h now
    show (match d.expiresAt with
      | none => false
      | some t => decide (now > t)) = false
    rw [h]
  · intro s k nid d X hI hk hd hX hlt
    have hx : isExpiredN s.now d = true := by
      show (match d.expiresAt with
        | none => false
        | some t => decide (s.now > t)) = true
      rw [hX]
      show decide (s.now > X) = true
      simpa using hlt
    obtain ⟨l, hc⟩ := hI.corr
    rw [doHas_expired hk hd hx]
    exact ⟨rfl, lookupL_delL_self hc.keysND⟩
  · intro s k nid d hI hk hd hx
    exact doCleanup_removes hI hk hd hx

/-- Witness for C8: a cache with a single entry written with ttl 5 at time
0; after the clock advances to 10, `has` reports it gone and removes it. -/
theorem C8_ttl_expiry_witness :
    (doHas (run [Action.put 1 (JSVal.str "a") false (some 5), Action.advanceTime 10]
      (initState 10 none false)) 1).1 = false ∧
    lookupL (doHas (run [Action.put 1 (JSVal.str "a") false (some 5), Action.advanceTime 10]
      (initState 10 none false)) 1).2.dataMap 1 = none :=
  C8_ttl_expiry.2.2.2.2.1
    (run [Action.put 1 (JSVal.str "a") false (some 5), Action.advanceTime 10]
      (initState 10 none false)) 1 0 ⟨some 1, 3, some 5, none, none⟩ 5
    (inv_run_init [Action.put 1 (JSVal.str "a") false (some 5), Action.advanceTime 10]
      10 none false)
    (by decide) (by decide) (by decide) (by decide)

/-- Claim C1 (request coalescing): a `get` on a present, non-expired key
returns the stored result handle without invoking the loader (no
`loaderCall` event, store untouched); a `get` miss invokes the loader
exactly once, logging exactly one `loaderCall` and handing back the fresh
promise; and a second `get` issued right after a miss (entry neither
expired nor evicted) receives the very same promise identity with no
further loader invocation — so any number of such `get`s share one loader
execution and one result. -/
theorem C1_request_coalescing (s : State) (hI : Inv s) (k : Nat) :
    (∀ (ttl : Option Nat) (nid : Nat) (d : NodeData), lookupL s.dataMap k = some nid →
      lookupL s.ll.nodes nid = some d → isExpiredN s.now d = false →
      (doGet s k ttl).1 = d.value ∧ (doGet s k ttl).2.events = s.events ∧
      (doGet s k ttl).2.dataMap = s.dataMap) ∧
    (∀ (ttl : Option Nat), lookupL s.dataMap k = none →
      (doGet s k ttl).2.events = s.events ++ [Event.loaderCall k s.nextProm] ∧
      (doGet s k ttl).1 = s.nextProm) ∧
    (∀ (ttl ttl2 : Option Nat), lookupL s.dataMap k = none →
      s.dataMap.length < s.capacity →
      expiryOf s.now (effTtl s ttl) = none →
      (doGet (doGet s k ttl).2 k ttl2).1 = (doGet s k ttl).1 ∧
      (doGet (doGet s k ttl).2 k ttl2).2.events = (doGet s k ttl).2.events) := by
  refine ⟨?_, ?_, ?_⟩
  · intro ttl nid d hk hd hx
    rw [doGet_hit ttl hk hd hx]
    exact ⟨rfl, rfl, rfl⟩
  · intro ttl hk
    rw [doGet, hk]
    exact ⟨getMiss_events s k ttl, rfl⟩
  · intro ttl ttl2 hk hlen hexp
    have hfacts := getMiss_no_evict hI.fresh ttl hk hlen
    obtain ⟨hret, hev, hkmap, ⟨d', hd', hval, hexpd⟩, hnow, _⟩ := hfacts
    rw [hexp] at hexpd
    have hnx : isExpiredN (getMiss s k ttl).2.now d' = false := by
      show (match d'.expiresAt with
        | none => false
        | some t => decide ((getMiss s k ttl).2.now > t)) = false
      rw [hexpd]
    have hdg : doGet s k ttl = getMiss s k ttl := by rw [doGet, hk]
    rw [hdg]
    rw [doGet_hit ttl2 hkmap hd' hnx]
    constructor
    · show d'.value = (getMiss s k ttl).1
      rw [hval, hret]
    · rfl

/-- Witness for C1: on a fresh cache (capacity 10, no default ttl), a miss
on key 1 followed immediately by another `get 1` hands back the same
promise and logs no second loader call. -/
theorem C1_request_coalescing_witness :
    (doGet (doGet (initState 10 none false) 1 none).2 1 none).1
      = (doGet (initState 10 none false) 1 none).1 ∧
    (doGet (doGet (initState 10 none false) 1 none).2 1 none).2.events
      = (doGet (initState 10 none false) 1 none).2.events :=
  (C1_request_coalescing (initState 10 none false) (inv_initState 10 none false) 1).2.2
    none none (by decide) (by decide) (by decide)

/-- Claim C9, corrected (construction precondition): the constructor throws
exactly when the supplied capacity is numerically below 10 — there is no
integrality check, so the claimed "iff capacity is not an integer ≥ 10" is
too strong — and the capacity accepted at construction is fixed for the
cache's lifetime. -/
theorem C9_construction :
    (∀ c : ℚ, ctorThrows c = true ↔ c < 10) ∧
    (∀ (acts : List Action) (cap : Nat) (dttl : Option Nat) (tmr : Bool),
      (run acts (initState cap dttl tmr)).capacity = cap) := by
  constructor
  · intro c
    show decide (c < 10) = true ↔ c < 10
    exact decide_eq_true_iff
  · intro acts cap dttl tmr
    exact capacity_run acts (initState cap dttl tmr)

/-- Counterexample to claim C9 as stated: the capacity `21/2 = 10.5` is not
an integer, so per the claim construction should fail; but the source's
only check is `capacity < 10`, which `10.5` passes, so construction
succeeds. -/
theorem C9_counterexample :
    ctorThrows (21 / 2 : ℚ) = false ∧ ((21 / 2 : ℚ)).den ≠ 1 ∧ (10 : ℚ) ≤ 21 / 2 := by
  refine ⟨?_, by norm_num, by norm_num⟩
  show decide ((21 / 2 : ℚ) < 10) = false
  norm_num

/-- Claim C3, corrected (stale failure observer): the guarantee holds for
`put`'s saver observers, which compare the *stored result identity*: when a
watched result settles with an error but the key's node meanwhile stores a
different result (a newer `put` replaced it), firing the observer leaves
the index and the list untouched. (`get`'s loader observers compare node
identity instead, and `put`'s update path reuses the node object, so for
them the claim fails — see the counterexample.) -/
theorem C3_stale_observer (s : State) (i : Nat) :
    ∀ ob : Obs, s.observers.get? i = some ob → ob.kind = ObsKind.save →
    ob.fired = false →
    ∀ e : JSVal, phaseOf s ob.watched = PromPhase.settled (Outcome.err e) →
    ∀ (nid : Nat) (d : NodeData), lookupL s.dataMap ob.key = some nid →
    lookupL s.ll.nodes nid = some d → d.value ≠ ob.watched →
    (applyAct (Action.fireObs i) s).dataMap = s.dataMap ∧
    (applyAct (Action.fireObs i) s).ll = s.ll :=
  fun _ hget hkind hnf _ hph _ _ hnid hd hne =>
    fireObs_save_mismatch i hget hkind hnf hph hnid hd hne

/-- Witness for C3: `put 0` with a saver, then a second `put 0` replacing
the stored result; the first put's saver chain then fails, and firing its
(now stale) save observer leaves the cache untouched. -/
theorem C3_stale_observer_witness :
    (applyAct (Action.fireObs 0)
      (run [Action.put 0 (JSVal.str "a") true none, Action.put 0 (JSVal.str "b") false none,
        Action.fireCatch 1, Action.fireThenSaver 3, Action.settlePrim 2 (Outcome.err JSVal.null),
        Action.adoptSaver 3, Action.fireThenConst 4] (initState 10 none false))).dataMap
      = (run [Action.put 0 (JSVal.str "a") true none, Action.put 0 (JSVal.str "b") false none,
        Action.fireCatch 1, Action.fireThenSaver 3, Action.settlePrim 2 (Outcome.err JSVal.null),
        Action.adoptSaver 3, Action.fireThenConst 4] (initState 10 none false)).dataMap ∧
    (applyAct (Action.fireObs 0)
      (run [Action.put 0 (JSVal.str "a") true none, Action.put 0 (JSVal.str "b") false none,
        Action.fireCatch 1, Action.fireThenSaver 3, Action.settlePrim 2 (Outcome.err JSVal.null),
        Action.adoptSaver 3, Action.fireThenConst 4] (initState 10 none false))).ll
      = (run [Action.put 0 (JSVal.str "a") true none, Action.put 0 (JSVal.str "b") false none,
        Action.fireCatch 1, Action.fireThenSaver 3, Action.settlePrim 2 (Outcome.err JSVal.null),
        Action.adoptSaver 3, Action.fireThenConst 4] (initState 10 none false)).ll :=
  C3_stale_observer _ 0 ⟨ObsKind.save, 4, 0, 0, false⟩ (by decide) (by decide) (by decide)
    JSVal.null (by decide) 0 ⟨some 0, 7, none, none, none⟩ (by decide) (by decide) (by decide)

/-- Counterexample to claim C3 as stated: `get`'s failure observer compares
node identity, and `put`'s update path reuses the node object. After
`get 0` (loader promise `0`), a `put 0` replaces the stored result with
promise `3` in the *same* node; when the old loader promise `0` then
rejects, the stale observer still removes the entry — an entry whose stored
result had already been replaced by a subsequent `put`. -/
theorem C3_counterexample :
    lookupL (run [Action.get 0 none, Action.put 0 (JSVal.str "w") false none,
        Action.settlePrim 0 (Outcome.err (JSVal.errObj "boom"))]
        (initState 10 none false)).dataMap 0 = some 0 ∧
    ((lookupL (run [Action.get 0 none, Action.put 0 (JSVal.str "w") false none,
        Action.settlePrim 0 (Outcome.err (JSVal.errObj "boom"))]
        (initState 10 none false)).ll.nodes 0).map NodeData.value) = some 3 ∧
    (3 : Nat) ≠ 0 ∧
    lookupL (run [Action.get 0 none, Action.put 0 (JSVal.str "w") false none,
        Action.settlePrim 0 (Outcome.err (JSVal.errObj "boom")), Action.fireObs 0]
        (initState 10 none false)).dataMap 0 = none := by
  refine ⟨by decide, by decide, by decide, by decide⟩

/-- Claim C2, corrected (write serialization): in any invariant-holding
state, a `put`'s saver promise `e` can leave `notStarted` only through the
`fireThenSaver` reaction of the unique `thenSaver` combinator `p`
registered for it, and only when `p`'s source — the swallow-`catch` of the
previous stored result — has settled; hence the previous `put`'s result
settled first, the saver starts with exactly the recorded arguments
`(k, v)`, and the `put`'s returned `thenConst` promise can only *fulfil*
with its recorded value. (The original claim's final clause — "the result
of `put_i` resolves to `v_i`" unconditionally — is false when a saver
rejects; see the counterexample. The timer-driven sweeper never touches
promises, so it cannot break the ordering.) -/
theorem C2_write_serialization (s : State) (hI : Inv s) (a : Action)
    (p src e k : Nat) (v : JSVal)
    (hdesc : descOf s p = some (PromDesc.thenSaver src (some e) k v))
    (hn : phaseOf s e = PromPhase.notStarted)
    (hb : phaseOf (applyAct a s) e ≠ PromPhase.notStarted) :
    a = Action.fireThenSaver p ∧ isSettled s src ∧
    (∀ lastP, descOf s src = some (PromDesc.catchSwallow lastP) → isSettled s lastP) ∧
    (applyAct a s).events = s.events ++ [Event.saverStart e k v] ∧
    (∀ (sp : Nat) (v' w : JSVal), descOf s sp = some (PromDesc.thenConst p v') →
      phaseOf s sp = PromPhase.settled (Outcome.ok w) → w = v') := by
  obtain ⟨h1, h2, h3, h4⟩ := saver_start_char hI a hdesc hn hb
  exact ⟨h1, h2, h3, h4, fun sp v' w hc hph => hI.prom.constOk sp p v' w hc hph⟩

/-- Witness for C2: after `put 0 "a"` with a saver and the settlement of
the swallow-`catch` (id 1), the only step that starts the saver (id 2) is
`fireThenSaver` of its `thenSaver` combinator (id 3), and it logs the
saver's invocation with arguments `(0, "a")`. -/
theorem C2_write_serialization_witness :
    Action.fireThenSaver 3 = Action.fireThenSaver 3 ∧
    isSettled (run [Action.put 0 (JSVal.str "a") true none, Action.fireCatch 1]
      (initState 10 none false)) 1 ∧
    (∀ lastP, descOf (run [Action.put 0 (JSVal.str "a") true none, Action.fireCatch 1]
        (initState 10 none false)) 1 = some (PromDesc.catchSwallow lastP) →
      isSettled (run [Action.put 0 (JSVal.str "a") true none, Action.fireCatch 1]
        (initState 10 none false)) lastP) ∧
    (applyAct (Action.fireThenSaver 3)
        (run [Action.put 0 (JSVal.str "a") true none, Action.fireCatch 1]
          (initState 10 none false))).events
      = (run [Action.put 0 (JSVal.str "a") true none, Action.fireCatch 1]
          (initState 10 none false)).events ++ [Event.saverStart 2 0 (JSVal.str "a")] ∧
    (∀ (sp : Nat) (v' w : JSVal),
      descOf (run [Action.put 0 (JSVal.str "a") true none, Action.fireCatch 1]
        (initState 10 none false)) sp = some (PromDesc.thenConst 3 v') →
      phaseOf (run [Action.put 0 (JSVal.str "a") true none, Action.fireCatch 1]
        (initState 10 none false)) sp = PromPhase.settled (Outcome.ok w) → w = v') :=
  C2_write_serialization
    (run [Action.put 0 (JSVal.str "a") true none, Action.fireCatch 1] (initState 10 none false))
    (inv_run_init [Action.put 0 (JSVal.str "a") true none, Action.fireCatch 1] 10 none false)
    (Action.fireThenSaver 3) 3 1 2 0 (JSVal.str "a")
    (by decide) (by decide) (by decide)

/-- Counterexample to claim C2 as stated: when the saver rejects, the
result returned by `put` (its `thenConst` promise, id 4) settles with the
saver's error rather than resolving to the written value. -/
theorem C2_counterexample :
    (doPut (initState 10 none false) 0 (JSVal.str "v") true none).retP = 4 ∧
    phaseOf (run [Action.put 0 (JSVal.str "v") true none, Action.fireCatch 1,
        Action.fireThenSaver 3, Action.settlePrim 2 (Outcome.err (JSVal.errObj "boom")),
        Action.adoptSaver 3, Action.fireThenConst 4]
        (initState 10 none false)) 4
      = PromPhase.settled (Outcome.err (JSVal.errObj "boom")) ∧
    phaseOf (run [Action.put 0 (JSVal.str "v") true none, Action.fireCatch 1,
        Action.fireThenSaver 3, Action.settlePrim 2 (Outcome.err (JSVal.errObj "boom")),
        Action.adoptSaver 3, Action.fireThenConst 4]
        (initState 10 none false)) 4
      ≠ PromPhase.settled (Outcome.ok (JSVal.str "v")) := by
  refine ⟨by decide, by decide, by decide⟩

/-- Claim C4 (code bug, chained-failure suppression): the swallow handler
`lastPromise.catch(err => console.warn(..., err.message))` dereferences
`err.message`, which throws a `TypeError` when the rejection reason is
`null` or `undefined`. Run A: after `get 0`, a `put 0` chains on the loader
promise (id 0); when that promise rejects with `null`, the catch promise
(id 1) rejects with the `TypeError` instead of swallowing, the saver
(id 2) never starts — no `saverStart` is ever logged and it stays
`notStarted` — and the `put`'s result (id 4) rejects. Run B: the identical
schedule with an `Error`-like reason `errObj "boom"` is swallowed and the
saver starts, isolating `err.message` as the divergence. -/
theorem C4_chained_failure_bug :
    (phaseOf (run [Action.get 0 none, Action.put 0 (JSVal.str "b") true none,
        Action.settlePrim 0 (Outcome.err JSVal.null), Action.fireCatch 1,
        Action.fireThenSaver 3, Action.fireThenConst 4]
        (initState 10 none false)) 2 = PromPhase.notStarted) ∧
    ((run [Action.get 0 none, Action.put 0 (JSVal.str "b") true none,
        Action.settlePrim 0 (Outcome.err JSVal.null), Action.fireCatch 1,
        Action.fireThenSaver 3, Action.fireThenConst 4]
        (initState 10 none false)).events = [Event.loaderCall 0 0]) ∧
    (phaseOf (run [Action.get 0 none, Action.put 0 (JSVal.str "b") true none,
        Action.settlePrim 0 (Outcome.err JSVal.null), Action.fireCatch 1,
        Action.fireThenSaver 3, Action.fireThenConst 4]
        (initState 10 none false)) 1
      = PromPhase.settled (Outcome.err (JSVal.errObj "TypeError"))) ∧
    (phaseOf (run [Action.get 0 none, Action.put 0 (JSVal.str "b") true none,
        Action.settlePrim 0 (Outcome.err JSVal.null), Action.fireCatch 1,
        Action.fireThenSaver 3, Action.fireThenConst 4]
        (initState 10 none false)) 4
      = PromPhase.settled (Outcome.err (JSVal.errObj "TypeError"))) ∧
    (phaseOf (run [Action.get 0 none, Action.put 0 (JSVal.str "b") true none,
        Action.settlePrim 0 (Outcome.err (JSVal.errObj "boom")), Action.fireCatch 1,
        Action.fireThenSaver 3, Action.fireThenConst 4]
        (initState 10 none false)) 2 = PromPhase.pending) ∧
    ((run [Action.get 0 none, Action.put 0 (JSVal.str "b") true none,
        Action.settlePrim 0 (Outcome.err (JSVal.errObj "boom")), Action.fireCatch 1,
        Action.fireThenSaver 3, Action.fireThenConst 4]
        (initState 10 none false)).events
      = [Event.loaderCall 0 0, Event.saverStart 2 0 (JSVal.str "b")]) := by
  refine ⟨by decide, by decide, by decide, by decide, by decide, by decide⟩

/-- Claim C6 (LRU eviction correctness): (i) inserting a fresh key into a
full cache stores the new key and removes exactly the tail (least recently
used) entry — every other binding is untouched and the size is unchanged;
(ii) on a capacity-10 cache, inserting 11 distinct keys with no intervening
access evicts exactly the first-inserted key; (iii) touching a key via
`get` before the 11th insertion exempts it — the next least-recent key is
evicted instead. -/
theorem C6_lru_eviction :
    (∀ (s : State), Inv s → ∀ (k : Nat) (v : JSVal) (ws : Bool) (ttl : Option Nat),
      lookupL s.dataMap k = none → s.dataMap.length = s.capacity → 0 < s.capacity →
      ∃ t d tk, s.ll.tail = some t ∧ lookupL s.ll.nodes t = some d ∧ d.key = some tk ∧
        tk ≠ k ∧ lookupL s.dataMap tk = some t ∧
        lookupL (doPut s k v ws ttl).st.dataMap k = some s.nextNode ∧
        lookupL (doPut s k v ws ttl).st.dataMap tk = none ∧
        (∀ k', k' ≠ k → k' ≠ tk →
          lookupL (doPut s k v ws ttl).st.dataMap k' = lookupL s.dataMap k') ∧
        (doPut s k v ws ttl).st.dataMap.length = s.dataMap.length) ∧
    (lookupL (run [Action.put 0 JSVal.undef false none, Action.put 1 JSVal.undef false none,
        Action.put 2 JSVal.undef false none, Action.put 3 JSVal.undef false none,
        Action.put 4 JSVal.undef false none, Action.put 5 JSVal.undef false none,
        Action.put 6 JSVal.undef false none, Action.put 7 JSVal.undef false none,
        Action.put 8 JSVal.undef false none, Action.put 9 JSVal.undef false none,
        Action.put 10 JSVal.undef false none] (initState 10 none false)).dataMap 0 = none ∧
      doSize (run [Action.put 0 JSVal.undef false none, Action.put 1 JSVal.undef false none,
        Action.put 2 JSVal.undef false none, Action.put 3 JSVal.undef false none,
        Action.put 4 JSVal.undef false none, Action.put 5 JSVal.undef false none,
        Action.put 6 JSVal.undef false none, Action.put 7 JSVal.undef false none,
        Action.put 8 JSVal.undef false none, Action.put 9 JSVal.undef false none,
        Action.put 10 JSVal.undef false none] (initState 10 none false)) = 10 ∧
      (∀ i ∈ [1, 2, 3, 4, 5, 6, 7, 8, 9, 10],
        (lookupL (run [Action.put 0 JSVal.undef false none, Action.put 1 JSVal.undef false none,
          Action.put 2 JSVal.undef false none, Action.put 3 JSVal.undef false none,
          Action.put 4 JSVal.undef false none, Action.put 5 JSVal.undef false none,
          Action.put 6 JSVal.undef false none, Action.put 7 JSVal.undef false none,
          Action.put 8 JSVal.undef false none, Action.put 9 JSVal.undef false none,
          Action.put 10 JSVal.undef false none] (initState 10 none false)).dataMap i).isSome
          = true)) ∧
    (lookupL (run [Action.put 0 JSVal.undef false none, Action.put 1 JSVal.undef false none,
        Action.put 2 JSVal.undef false none, Action.put 3 JSVal.undef false none,
        Action.put 4 JSVal.undef false none, Action.put 5 JSVal.undef false none,
        Action.put 6 JSVal.undef false none, Action.put 7 JSVal.undef false none,
        Action.put 8 JSVal.undef false none, Action.put 9 JSVal.undef false none,
        Action.get 0 none,
        Action.put 10 JSVal.undef false none] (initState 10 none false)).dataMap 1 = none ∧
      (lookupL (run [Action.put 0 JSVal.undef false none, Action.put 1 JSVal.undef false none,
        Action.put 2 JSVal.undef false none, Action.put 3 JSVal.undef false none,
        Action.put 4 JSVal.undef false none, Action.put 5 JSVal.undef false none,
        Action.put 6 JSVal.undef false none, Action.put 7 JSVal.undef false none,
        Action.put 8 JSVal.undef false none, Action.put 9 JSVal.undef false none,
        Action.get 0 none,
        Action.put 10 JSVal.undef false none] (initState 10 none false)).dataMap 0).isSome
        = true ∧
      (lookupL (run [Action.put 0 JSVal.undef false none, Action.put 1 JSVal.undef false none,
        Action.put 2 JSVal.undef false none, Action.put 3 JSVal.undef false none,
        Action.put 4 JSVal.undef false none, Action.put 5 JSVal.undef false none,
        Action.put 6 JSVal.undef false none, Action.put 7 JSVal.undef false none,
        Action.put 8 JSVal.undef false none, Action.put 9 JSVal.undef false none,
        Action.get 0 none,
        Action.put 10 JSVal.undef false none] (initState 10 none false)).dataMap 10).isSome
        = true) := by
  refine ⟨?_, by decide, by decide⟩
  intro s hI k v ws ttl hk hfull hcap
  exact doPut_full hI k v ws ttl hk hfull hcap

/-- Witness for C6's general clause: a full capacity-10 cache (ten puts),
then an 11th put of a fresh key removes exactly the tail entry. -/
theorem C6_lru_eviction_witness :
    ∃ t d tk,
      (run [Action.put 0 JSVal.undef false none, Action.put 1 JSVal.undef false none,
        Action.put 2 JSVal.undef false none, Action.put 3 JSVal.undef false none,
        Action.put 4 JSVal.undef false none, Action.put 5 JSVal.undef false none,
        Action.put 6 JSVal.undef false none, Action.put 7 JSVal.undef false none,
        Action.put 8 JSVal.undef false none, Action.put 9 JSVal.undef false none]
        (initState 10 none false)).ll.tail = some t ∧
      lookupL (run [Action.put 0 JSVal.undef false none, Action.put 1 JSVal.undef false none,
        Action.put 2 JSVal.undef false none, Action.put 3 JSVal.undef false none,
        Action.put 4 JSVal.undef false none, Action.put 5 JSVal.undef false none,
        Action.put 6 JSVal.undef false none, Action.put 7 JSVal.undef false none,
        Action.put 8 JSVal.undef false none, Action.put 9 JSVal.undef false none]
        (initState 10 none false)).ll.nodes t = some d ∧
      d.key = some tk ∧ tk ≠ 10 ∧
      lookupL (run [Action.put 0 JSVal.undef false none, Action.put 1 JSVal.undef false none,
        Action.put 2 JSVal.undef false none, Action.put 3 JSVal.undef false none,
        Action.put 4 JSVal.undef false none, Action.put 5 JSVal.undef false none,
        Action.put 6 JSVal.undef false none, Action.put 7 JSVal.undef false none,
        Action.put 8 JSVal.undef false none, Action.put 9 JSVal.undef false none]
        (initState 10 none false)).dataMap tk = some t ∧
      lookupL (doPut (run [Action.put 0 JSVal.undef false none, Action.put 1 JSVal.undef false none,
        Action.put 2 JSVal.undef false none, Action.put 3 JSVal.undef false none,
        Action.put 4 JSVal.undef false none, Action.put 5 JSVal.undef false none,
        Action.put 6 JSVal.undef false none, Action.put 7 JSVal.undef false none,
        Action.put 8 JSVal.undef false none, Action.put 9 JSVal.undef false none]
        (initState 10 none false)) 10 JSVal.undef false none).st.dataMap 10
        = some (run [Action.put 0 JSVal.undef false none, Action.put 1 JSVal.undef false none,
          Action.put 2 JSVal.undef false none, Action.put 3 JSVal.undef false none,
          Action.put 4 JSVal.undef false none, Action.put 5 JSVal.undef false none,
          Action.put 6 JSVal.undef false none, Action.put 7 JSVal.undef false none,
          Action.put 8 JSVal.undef false none, Action.put 9 JSVal.undef false none]
          (initState 10 none false)).nextNode ∧
      lookupL (doPut (run [Action.put 0 JSVal.undef false none, Action.put 1 JSVal.undef false none,
        Action.put 2 JSVal.undef false none, Action.put 3 JSVal.undef false none,
        Action.put 4 JSVal.undef false none, Action.put 5 JSVal.undef false none,
        Action.put 6 JSVal.undef false none, Action.put 7 JSVal.undef false none,
        Action.put 8 JSVal.undef false none, Action.put 9 JSVal.undef false none]
        (initState 10 none false)) 10 JSVal.undef false none).st.dataMap tk = none ∧
      (∀ k', k' ≠ 10 → k' ≠ tk →
        lookupL (doPut (run [Action.put 0 JSVal.undef false none,
          Action.put 1 JSVal.undef false none,
          Action.put 2 JSVal.undef false none, Action.put 3 JSVal.undef false none,
          Action.put 4 JSVal.undef false none, Action.put 5 JSVal.undef false none,
          Action.put 6 JSVal.undef false none, Action.put 7 JSVal.undef false none,
          Action.put 8 JSVal.undef false none, Action.put 9 JSVal.undef false none]
          (initState 10 none false)) 10 JSVal.undef false none).st.dataMap k'
          = lookupL (run [Action.put 0 JSVal.undef false none,
          Action.put 1 JSVal.undef false none,
          Action.put 2 JSVal.undef false none, Action.put 3 JSVal.undef false none,
          Action.put 4 JSVal.undef false none, Action.put 5 JSVal.undef false none,
          Action.put 6 JSVal.undef false none, Action.put 7 JSVal.undef false none,
          Action.put 8 JSVal.undef false none, Action.put 9 JSVal.undef false none]
          (initState 10 none false)).dataMap k') ∧
      (doPut (run [Action.put 0 JSVal.undef false none, Action.put 1 JSVal.undef false none,
        Action.put 2 JSVal.undef false none, Action.put 3 JSVal.undef false none,
        Action.put 4 JSVal.undef false none, Action.put 5 JSVal.undef false none,
        Action.put 6 JSVal.undef false none, Action.put 7 JSVal.undef false none,
        Action.put 8 JSVal.undef false none, Action.put 9 JSVal.undef false none]
        (initState 10 none false)) 10 JSVal.undef false none).st.dataMap.length
        = (run [Action.put 0 JSVal.undef false none, Action.put 1 JSVal.undef false none,
          Action.put 2 JSVal.undef false none, Action.put 3 JSVal.undef false none,
          Action.put 4 JSVal.undef false none, Action.put 5 JSVal.undef false none,
          Action.put 6 JSVal.undef false none, Action.put 7 JSVal.undef false none,
          Action.put 8 JSVal.undef false none, Action.put 9 JSVal.undef false none]
          (initState 10 none false)).dataMap.length :=
  C6_lru_eviction.1
    (run [Action.put 0 JSVal.undef false none, Action.put 1 JSVal.undef false none,
      Action.put 2 JSVal.undef false none, Action.put 3 JSVal.undef false none,
      Action.put 4 JSVal.undef false none, Action.put 5 JSVal.undef false none,
      Action.put 6 JSVal.undef false none, Action.put 7 JSVal.undef false none,
      Action.put 8 JSVal.undef false none, Action.put 9 JSVal.undef false none]
      (initState 10 none false))
    (inv_run_init [Action.put 0 JSVal.undef false none, Action.put 1 JSVal.undef false none,
      Action.put 2 JSVal.undef false none, Action.put 3 JSVal.undef false none,
      Action.put 4 JSVal.undef false none, Action.put 5 JSVal.undef false none,
      Action.put 6 JSVal.undef false none, Action.put 7 JSVal.undef false none,
      Action.put 8 JSVal.undef false none, Action.put 9 JSVal.undef false none]
      10 none false)
    10 JSVal.undef false none (by decide) (by decide) (by decide)

end AsyncLRUCache
